import Mathlib

/-!
# Shader source resolution of `sgl::ShaderManagerGL`

A shallow embedding of the text-resolution pipeline of
`src/src/Graphics/OpenGL/ShaderManager.cpp`: the file index lookup
(`getShaderFileName`), the define block (`getPreprocessorDefines`), include
name extraction (`getHeaderName`), include expansion (`loadHeaderFileString`)
and the effect-file parser with its source cache (`getShaderString`).

Modelling conventions.

* `std::string` is a list of characters (`Str`).
* `std::map<std::string, std::string>` is a list of key/value pairs kept in
  strictly ascending key order (`StdMap`); `find` and `insert` follow the
  container's contract (`insert` never replaces an existing key).
* The file system is a partial function from paths to file contents; a path
  that cannot be opened maps to `none`.
* The recursion of `loadHeaderFileString` through nested includes is bounded
  by a fuel argument that counts the nesting depth still allowed; running out
  of fuel is reported as `none`, everything else as `some`.
* `loadHeaderFileStringLimited` and `getShaderStringLimited` are the same two
  methods in a process that can hold only a bounded number of files open: an
  open fails when no file is left, and the recursion is on that number.
* Writes to the log file are not part of the model.
* `lineNum` is a natural number (the source uses `int`; files are assumed to
  have fewer than `2^31` lines, and strings fewer than `2^31` characters).
-/

namespace sgl

/-- A `std::string`. -/
abbrev Str := List Char

/-! ## Strings -/

/-- The ordering of `std::string` keys in a `std::map`: lexicographic by character code. -/
def strLt : Str → Str → Bool
  | [], [] => false
  | [], _ :: _ => true
  | _ :: _, [] => false
  | a :: as, b :: bs => if a < b then true else if a = b then strLt as bs else false

/-- The call `boost::starts_with(s, p)`. -/
def startsWith (s p : Str) : Bool := p.isPrefixOf s

/-- Position of the first occurrence of `c` in `s` converted to `int`
(`int i = s.find(c)`): `-1` when `c` does not occur. -/
def findChar (c : Char) : Str → Int
  | [] => -1
  | a :: as => if a = c then 0 else
      match findChar c as with
      | Int.negSucc _ => -1
      | Int.ofNat i => Int.ofNat (i + 1)

/-- Position of the last occurrence of `c` in `s` converted to `int`
(`int i = s.find_last_of(c)`): `-1` when `c` does not occur. -/
def findLastOf (c : Char) : Str → Int
  | [] => -1
  | a :: as =>
      match findLastOf c as with
      | Int.negSucc _ => if a = c then 0 else -1
      | Int.ofNat i => Int.ofNat (i + 1)

/-- The call `s.substr(pos, count)` with `int` arguments converted to `size_t`: a negative
`count` becomes a value larger than any string length, so the rest of the string is taken.
At every call site `0 ≤ pos ≤ s.size()`. -/
def substr (s : Str) (pos count : Int) : Str :=
  if count < 0 then s.drop pos.toNat else (s.drop pos.toNat).take count.toNat

/-- Modelled from the spec: `toString` of `Utils/Convert.hpp` (not part of the sources at hand)
renders the line counter in decimal for the line markers. -/
def toString (n : Nat) : Str := Nat.toDigits 10 n

/-- The lines `std::getline` delivers from a stream with the given content: the text is cut at
every line feed, and a last line without line feed is delivered when it is not empty. -/
def getlinesAux (cur : Str) : Str → List Str
  | [] => if cur = [] then [] else [cur]
  | c :: cs => if c = '\n' then cur :: getlinesAux [] cs else getlinesAux (cur ++ [c]) cs

/-- All lines read by `while (getline(file, linestr))`. -/
def getlines (content : Str) : List Str := getlinesAux [] content

/-- Remove `\r` if the line ending is `\r\n`. -/
def stripCR (linestr : Str) : Str :=
  if linestr.getLast? = some '\r' then linestr.dropLast else linestr

/-- The predicate `boost::is_any_of("\t ")`. -/
def isDelim (c : Char) : Bool := c = '\t' || c = ' '

/-- The tokens of `boost::algorithm::split(line, s, is_any_of("\t "), token_compress_on)`:
`cur` is the token being read, `inDelim` tells whether the previous character was a delimiter. -/
def splitAux (cur : Str) (inDelim : Bool) : Str → List Str
  | [] => [cur]
  | c :: cs =>
      if isDelim c then
        if inDelim then splitAux [] true cs else cur :: splitAux [] true cs
      else splitAux (cur ++ [c]) false cs

/-- Tokens of a line: runs of tabs and blanks separate, a run at either end gives an empty token. -/
def split (s : Str) : List Str := splitAux [] false s

/-! ## `std::map<std::string, std::string>` -/

/-- Lookup in a list of pairs. -/
def findEntries (k : Str) : List (Str × Str) → Option Str
  | [] => none
  | (k', v) :: r => if k' = k then some v else findEntries k r

/-- Place a new pair at its position in key order. -/
def insertEntries (k v : Str) : List (Str × Str) → List (Str × Str)
  | [] => [(k, v)]
  | (k', v') :: r =>
      if strLt k k' then (k, v) :: (k', v') :: r else (k', v') :: insertEntries k v r

/-- Keys in strictly ascending order. -/
def SortedKeys (l : List (Str × Str)) : Prop :=
  l.Pairwise (fun a b => strLt a.1 b.1 = true)

instance (l : List (Str × Str)) : Decidable (SortedKeys l) := by
  unfold SortedKeys; infer_instance

theorem strLt_irrefl (a : Str) : strLt a a = false := by
  induction a with
  | nil => rfl
  | cons x xs ih => simp [strLt, ih]

theorem strLt_trans : ∀ a b c : Str, strLt a b = true → strLt b c = true → strLt a c = true
  | [], [], _, h, _ => by simp [strLt] at h
  | [], _ :: _, [], _, h => by simp [strLt] at h
  | [], _ :: _, _ :: _, _, _ => by simp [strLt]
  | _ :: _, [], _, h, _ => by simp [strLt] at h
  | _ :: _, _ :: _, [], _, h => by simp [strLt] at h
  | x :: xs, y :: ys, z :: zs, h1, h2 => by
      simp only [strLt] at h1 h2 ⊢
      by_cases hxy : x < y
      · by_cases hyz : y < z
        · simp [lt_trans hxy hyz]
        · simp only [hyz, if_false] at h2
          by_cases hyz2 : y = z
          · subst hyz2; simp [hxy]
          · simp [hyz2] at h2
      · simp only [hxy, if_false] at h1
        by_cases hxy2 : x = y
        · subst hxy2
          simp only [if_true] at h1
          by_cases hxz : x < z
          · simp [hxz]
          · simp only [hxz, if_false] at h2 ⊢
            by_cases hxz2 : x = z
            · simp only [hxz2, if_true] at h2 ⊢
              exact strLt_trans xs ys zs h1 h2
            · simp [hxz2] at h2
        · simp [hxy2] at h1

theorem strLt_total : ∀ a b : Str, strLt a b = false → a ≠ b → strLt b a = true
  | [], [], _, h => absurd rfl h
  | [], _ :: _, h, _ => by simp [strLt] at h
  | _ :: _, [], _, _ => by simp [strLt]
  | x :: xs, y :: ys, h1, h2 => by
      simp only [strLt] at h1 ⊢
      by_cases hxy : x < y
      · simp [hxy] at h1
      · simp only [hxy, if_false] at h1
        by_cases hxy2 : x = y
        · subst hxy2
          simp only [if_true] at h1
          have hne : xs ≠ ys := fun h => h2 (by rw [h])
          simp [strLt_total xs ys h1 hne]
        · have : y < x := lt_of_le_of_ne (not_lt.mp hxy) (Ne.symm hxy2)
          simp [this]

theorem findEntries_eq_none_iff (k : Str) (l : List (Str × Str)) :
    findEntries k l = none ↔ ∀ p ∈ l, p.1 ≠ k := by
  induction l with
  | nil => simp [findEntries]
  | cons p r ih =>
    obtain ⟨k', v⟩ := p
    by_cases h : k' = k
    · simp [findEntries, h]
    · simp [findEntries, h, ih]

theorem mem_insertEntries (k v : Str) (l : List (Str × Str)) (p : Str × Str) :
    p ∈ insertEntries k v l ↔ p = (k, v) ∨ p ∈ l := by
  induction l with
  | nil => simp [insertEntries]
  | cons q r ih =>
    obtain ⟨k', v'⟩ := q
    by_cases h : strLt k k' = true
    · simp [insertEntries, h]
    · simp only [insertEntries, h, List.mem_cons, ih]
      simp only [Bool.false_eq_true, if_false, List.mem_cons, ih]
      tauto

theorem sortedKeys_insertEntries (k v : Str) (l : List (Str × Str))
    (hs : SortedKeys l) (hk : findEntries k l = none) : SortedKeys (insertEntries k v l) := by
  induction l with
  | nil => simp [insertEntries, SortedKeys]
  | cons q r ih =>
    obtain ⟨k', v'⟩ := q
    unfold SortedKeys at hs ih ⊢
    rw [List.pairwise_cons] at hs
    have hk' := (findEntries_eq_none_iff k _).mp hk
    have hne : k' ≠ k := hk' (k', v') (List.mem_cons_self _ _)
    by_cases h : strLt k k' = true
    · simp only [insertEntries, h, if_true]
      rw [List.pairwise_cons, List.pairwise_cons]
      refine ⟨?_, hs.1, hs.2⟩
      intro p hp
      rcases List.mem_cons.mp hp with rfl | hp
      · exact h
      · exact strLt_trans _ _ _ h (hs.1 p hp)
    · simp only [insertEntries, h, Bool.false_eq_true, if_false]
      rw [List.pairwise_cons]
      refine ⟨?_, ih hs.2 ((findEntries_eq_none_iff k _).mpr
        (fun p hp => hk' p (List.mem_cons_of_mem _ hp)))⟩
      intro p hp
      rcases (mem_insertEntries k v r p).mp hp with rfl | hp
      · exact strLt_total _ _ (by simpa using h) (Ne.symm hne)
      · exact hs.1 p hp

/-- A `std::map<std::string, std::string>`: its pairs in iteration order, which is
ascending key order. -/
structure StdMap where
  entries : List (Str × Str)
  sorted : SortedKeys entries
  deriving DecidableEq

/-- The empty map. -/
def StdMap.empty : StdMap := ⟨[], List.Pairwise.nil⟩

/-- The call `m.find(k)`: the mapped value, `none` standing for `m.end()`. -/
def StdMap.find (m : StdMap) (k : Str) : Option Str := findEntries k m.entries

/-- The call `m.insert(make_pair(k, v))`: nothing happens when the key is present, otherwise
the pair is added at its place in key order. -/
def StdMap.insert (m : StdMap) (k v : Str) : StdMap :=
  if h : findEntries k m.entries = none then
    ⟨insertEntries k v m.entries, sortedKeys_insertEntries k v m.entries m.sorted h⟩
  else m

/-! ## The shader manager -/

/-- The file system as the program sees it: the content of every file that can be opened. -/
abbrev FileSystem := Str → Option Str

/-- The constructor `std::ifstream file(path)` followed by `file.is_open()`: the content when
the file could be opened. The empty path never opens. -/
def openFile (fs : FileSystem) (path : Str) : Option Str :=
  if path = [] then none else fs path

/-- The members of `ShaderManagerGL` that take part in text resolution. -/
structure ShaderManagerGL where
  /-- Maps shader name to shader source, the source cache. -/
  effectSources : StdMap
  /-- Maps file names without path to full file paths. -/
  shaderFileMap : StdMap
  /-- Modelled from the spec: the define table. The member is declared in
  `Graphics/Shader/ShaderManager.hpp`, which is not part of the sources at hand; it is used
  through `find`, `begin`, `end`, `first` and `second` and taken to be a
  `std::map<std::string, std::string>` like the two maps above. -/
  preprocessorDefines : StdMap
  /-- Modelled from the spec: the global block, the content of the file `GlobalDefines.glsl`
  (a `std::string` declared in the same missing header). -/
  globalDefines : Str
  deriving DecidableEq

/-- The double quote character. -/
def dquote : Char := Char.ofNat 34

/-- The method `ShaderManagerGL::getHeaderName`. -/
def getHeaderName (self : ShaderManagerGL) (lineString : Str) : Str :=
  let startFilename := findChar dquote lineString
  let endFilename := findLastOf dquote lineString
  if startFilename > 0 ∧ endFilename > 0 then
    substr lineString (startFilename + 1) (endFilename - startFilename - 1)
  else
    let line := split lineString
    if line.length < 2 then []
    else
      match self.preprocessorDefines.find (line.getD 1 []) with
      | some second =>
          let startFilename := findChar dquote second
          let endFilename := findLastOf dquote second
          substr second (startFilename + 1) (endFilename - startFilename - 1)
      | none => []

/-- The method `ShaderManagerGL::getShaderFileName`. -/
def getShaderFileName (self : ShaderManagerGL) (pureFilename : Str) : Str :=
  match self.shaderFileMap.find pureFilename with
  | none => []
  | some second => second

/-- The method `ShaderManagerGL::getPreprocessorDefines`. -/
def getPreprocessorDefines (self : ShaderManagerGL) : Str :=
  self.preprocessorDefines.entries.foldl
    (fun preprocessorStatements it =>
      preprocessorStatements ++ ("#define ".data ++ it.1 ++ " ".data ++ it.2 ++ "\n".data))
    [] ++ self.globalDefines

/-- The local variables of `loadHeaderFileString` that live across loop iterations, together
with the reference argument `prependContent`. -/
structure HeaderState where
  fileContent : Str
  prependContent : Str
  lineNum : Nat

/-- One pass through the body of the `while (getline(file, linestr))` loop of
`loadHeaderFileString` for the line `raw` just read; `recur` is the recursive call of
`loadHeaderFileString` for an included file. -/
def headerStep (self : ShaderManagerGL) (recur : Str → Str → Option (Str × Str))
    (raw : Str) (st : HeaderState) : Option HeaderState :=
  let linestr := stripCR raw
  let lineNum := st.lineNum + 1
  if startsWith linestr "#include".data then
    let includedFileName := getShaderFileName self (getHeaderName self linestr)
    match recur includedFileName st.prependContent with
    | none => none
    | some (includedFileContent, prependContent) =>
        some
          { fileContent := st.fileContent ++ (includedFileContent ++ "\n".data)
              ++ ("#line ".data ++ toString lineNum ++ "\n".data)
            prependContent := prependContent
            lineNum := lineNum }
  else if startsWith linestr "#extension".data || startsWith linestr "#version".data then
    some
      { fileContent := st.fileContent ++ "#line ".data ++ toString lineNum ++ "\n".data
        prependContent := st.prependContent ++ (linestr ++ "\n".data)
        lineNum := lineNum }
  else
    some
      { fileContent := st.fileContent ++ (linestr ++ "\n".data)
        prependContent := st.prependContent
        lineNum := lineNum }

/-- The `while (getline(file, linestr))` loop of `loadHeaderFileString` over the lines still to
be read. -/
def headerLoop (self : ShaderManagerGL) (recur : Str → Str → Option (Str × Str)) :
    List Str → HeaderState → Option HeaderState
  | [], st => some st
  | raw :: rest, st =>
      match headerStep self recur raw st with
      | none => none
      | some st' => headerLoop self recur rest st'

/-- The method `ShaderManagerGL::loadHeaderFileString`: the returned text together with the
final value of the reference argument `prependContent`. `fuel` bounds the nesting depth of
includes below this file. -/
def loadHeaderFileString (fs : FileSystem) (self : ShaderManagerGL) :
    Nat → Str → Str → Option (Str × Str)
  | fuel, shaderName, prependContent =>
      match openFile fs shaderName with
      | none => some ([], prependContent)
      | some content =>
          match fuel with
          | 0 => none
          | fuel + 1 =>
              match headerLoop self (loadHeaderFileString fs self fuel) (getlines content)
                  { fileContent := "#line 1\n".data
                    prependContent := prependContent
                    lineNum := 1 } with
              | none => none
              | some st => some (st.fileContent, st.prependContent)

/-- The local variables of `getShaderString` that live across loop iterations, with the cache. -/
structure EffectState where
  effectSources : StdMap
  shaderName : Str
  shaderContent : Str
  prependContent : Str
  lineNum : Nat

/-- One pass through the body of the `while (getline(file, linestr))` loop of
`getShaderString` for the line `raw` just read; `recur` is the call of
`loadHeaderFileString`. -/
def effectStep (self : ShaderManagerGL) (recur : Str → Str → Option (Str × Str))
    (pureFilename : Str) (raw : Str) (st : EffectState) : Option EffectState :=
  let linestr := stripCR raw
  let lineNum := st.lineNum + 1
  if startsWith linestr "-- ".data then
    let effectSources :=
      if st.shaderContent.length > 0 ∧ st.shaderName.length > 0 then
        st.effectSources.insert st.shaderName (st.prependContent ++ st.shaderContent)
      else st.effectSources
    some
      { effectSources := effectSources
        shaderName := pureFilename ++ ".".data ++ substr linestr 3 (-1)
        shaderContent := getPreprocessorDefines self ++ "#line ".data ++ toString lineNum
          ++ "\n".data
        prependContent := []
        lineNum := lineNum }
  else if startsWith linestr "#version".data || startsWith linestr "#extension".data then
    some
      { st with
        prependContent := st.prependContent ++ (linestr ++ "\n".data)
        shaderContent := st.shaderContent ++ "#line ".data ++ toString lineNum ++ "\n".data
        lineNum := lineNum }
  else if startsWith linestr "#include".data then
    let includedFileName := getShaderFileName self (getHeaderName self linestr)
    match recur includedFileName st.prependContent with
    | none => none
    | some (includedFileContent, prependContent) =>
        some
          { st with
            prependContent := prependContent
            shaderContent := st.shaderContent ++ (includedFileContent ++ "\n".data)
              ++ ("#line ".data ++ toString lineNum ++ "\n".data)
            lineNum := lineNum }
  else
    some
      { st with
        shaderContent := st.shaderContent ++ (linestr ++ "\n".data)
        lineNum := lineNum }

/-- The `while (getline(file, linestr))` loop of `getShaderString` over the lines still to be
read. -/
def effectLoop (self : ShaderManagerGL) (recur : Str → Str → Option (Str × Str))
    (pureFilename : Str) : List Str → EffectState → Option EffectState
  | [], st => some st
  | raw :: rest, st =>
      match effectStep self recur pureFilename raw st with
      | none => none
      | some st' => effectLoop self recur pureFilename rest st'

/-- The lines the loop of `getShaderString` reads from the stream opened on `shaderFilename`:
none when the file could not be opened (every `getline` on such a stream fails). -/
def effectLines (fs : FileSystem) (shaderFilename : Str) : List Str :=
  match openFile fs shaderFilename with
  | none => []
  | some content => getlines content

/-- The local variables of `getShaderString` when the loop is entered. -/
def effectInit (effectSources : StdMap) : EffectState :=
  { effectSources := effectSources
    shaderName := []
    shaderContent := "#line 1\n".data
    prependContent := []
    lineNum := 1 }

/-- The method `ShaderManagerGL::getShaderString`: the returned text and the manager after the
call. `fuel` bounds the nesting depth of includes. -/
def getShaderString (fuel : Nat) (fs : FileSystem) (self : ShaderManagerGL)
    (globalShaderName : Str) : Option (Str × ShaderManagerGL) :=
  match self.effectSources.find globalShaderName with
  | some second => some (second, self)
  | none =>
      let filenameEnd := findChar '.' globalShaderName
      let pureFilename := substr globalShaderName 0 filenameEnd
      let shaderFilename := getShaderFileName self (pureFilename ++ ".glsl".data)
      match effectLoop self (loadHeaderFileString fs self fuel) pureFilename
          (effectLines fs shaderFilename) (effectInit self.effectSources) with
      | none => none
      | some st =>
          let shaderContent := st.prependContent ++ st.shaderContent
          let effectSources :=
            if st.shaderName.length > 0 then st.effectSources.insert st.shaderName shaderContent
            else st.effectSources.insert (pureFilename ++ ".glsl".data) shaderContent
          match effectSources.find globalShaderName with
          | some second => some (second, { self with effectSources := effectSources })
          | none => some ([], { self with effectSources := effectSources })

/-! ## Auxiliary notions for the statements -/

/-- Insert the pairs of a list one after the other, as successive `insert` calls do. -/
def insertAll (kvs : List (Str × Str)) (m : StdMap) : StdMap :=
  kvs.foldl (fun acc kv => acc.insert kv.1 kv.2) m

/-- The pair one pass through the loop body of `getShaderString` hands to
`effectSources.insert`, if any: the section that a marker line closes. -/
def flushOf (raw : Str) (st : EffectState) : List (Str × Str) :=
  if startsWith (stripCR raw) "-- ".data = true ∧ st.shaderContent.length > 0
      ∧ st.shaderName.length > 0 then
    [(st.shaderName, st.prependContent ++ st.shaderContent)]
  else []

/-- All pairs the loop of `getShaderString` hands to `effectSources.insert`, in order. -/
def flushes (self : ShaderManagerGL) (recur : Str → Str → Option (Str × Str))
    (pureFilename : Str) : List Str → EffectState → List (Str × Str)
  | [], _ => []
  | raw :: rest, st =>
      match effectStep self recur pureFilename raw st with
      | none => []
      | some st' => flushOf raw st ++ flushes self recur pureFilename rest st'

/-- The base name `getShaderString` derives from an id. -/
def pureFilenameOf (globalShaderName : Str) : Str :=
  substr globalShaderName 0 (findChar '.' globalShaderName)

/-- The lines of the effect file `getShaderString` reads for an id. -/
def effectLinesOf (fs : FileSystem) (self : ShaderManagerGL) (globalShaderName : Str) :
    List Str :=
  effectLines fs (getShaderFileName self (pureFilenameOf globalShaderName ++ ".glsl".data))

/-- The key of the insertion after the loop of `getShaderString`. -/
def finalKey (pureFilename : Str) (st : EffectState) : Str :=
  if st.shaderName.length > 0 then st.shaderName else pureFilename ++ ".glsl".data

/-- All pairs a call of `getShaderString` hands to `effectSources.insert` when the loop ends
in `st`: those of the loop and the one after the loop. -/
def inserted (fs : FileSystem) (self : ShaderManagerGL) (fuel : Nat) (globalShaderName : Str)
    (st : EffectState) : List (Str × Str) :=
  flushes self (loadHeaderFileString fs self fuel) (pureFilenameOf globalShaderName)
      (effectLinesOf fs self globalShaderName) (effectInit self.effectSources)
    ++ [(finalKey (pureFilenameOf globalShaderName) st, st.prependContent ++ st.shaderContent)]

/-- The file an include directive resolves to: the argument of the recursive call of
`loadHeaderFileString` for the line `raw`. -/
def includedFileOf (self : ShaderManagerGL) (raw : Str) : Str :=
  getShaderFileName self (getHeaderName self (stripCR raw))

/-- The include graph has no cycle: `rank` decreases along every include directive of an
openable file that resolves to an openable file. -/
def IncludesDescend (fs : FileSystem) (self : ShaderManagerGL) (rank : Str → Nat) : Prop :=
  ∀ p content, openFile fs p = some content →
    ∀ raw ∈ getlines content, startsWith (stripCR raw) "#include".data = true →
      ∀ content', openFile fs (includedFileOf self raw) = some content' →
        rank (includedFileOf self raw) < rank p

/-- Does the loop of `getShaderString` take the line just read for a section marker. -/
def isMarker (raw : Str) : Bool := startsWith (stripCR raw) "-- ".data

/-- The composite id of the section a marker line opens. -/
def markerKey (pureFilename raw : Str) : Str :=
  pureFilename ++ ".".data ++ substr (stripCR raw) 3 (-1)

/-- The composite ids of the sections opened by the marker lines of a file, in file order. -/
def markerKeys (pureFilename : Str) (lines : List Str) : List Str :=
  (lines.filter isMarker).map (markerKey pureFilename)

/-- The composite ids a file defines: one per marker line, or `<pureFilename>.glsl` for the
single unnamed section of a file without marker line. -/
def sectionKeys (pureFilename : Str) (lines : List Str) : List Str :=
  if markerKeys pureFilename lines = [] then [pureFilename ++ ".glsl".data]
  else markerKeys pureFilename lines

/-- The section name as a list: empty when no section is open. -/
def nameList (shaderName : Str) : List Str :=
  if shaderName.length > 0 then [shaderName] else []

/-- The line `getPreprocessorDefines` emits for one pair of the define table. -/
def defineLine (kv : Str × Str) : Str :=
  "#define ".data ++ kv.1 ++ " ".data ++ kv.2 ++ "\n".data

/-- The local variables of `getShaderString` seen as those of `loadHeaderFileString`. -/
def toHeader (st : EffectState) : HeaderState :=
  { fileContent := st.shaderContent
    prependContent := st.prependContent
    lineNum := st.lineNum }

/-- The local variables of `getShaderString` with text, preamble and line counter replaced by
those of `loadHeaderFileString`. -/
def ofHeader (st : EffectState) (h : HeaderState) : EffectState :=
  { st with
    shaderContent := h.fileContent
    prependContent := h.prependContent
    lineNum := h.lineNum }

/-- Is the line a `#version` or `#extension` directive. -/
def isDirective (linestr : Str) : Bool :=
  startsWith linestr "#version".data || startsWith linestr "#extension".data

/-- A hoisted preamble: a sequence of `#version` and `#extension` lines, each closed by a
line feed. -/
def IsPreamble (p : Str) : Prop :=
  ∃ ls : List Str, (∀ l ∈ ls, isDirective l = true)
    ∧ p = (ls.map (fun l => l ++ "\n".data)).flatten

/-- The text starts with the define block followed by a line marker. -/
def HasDefines (self : ShaderManagerGL) (c : Str) : Prop :=
  ∃ n rest, c = getPreprocessorDefines self ++ "#line ".data ++ toString n ++ "\n".data ++ rest

/-- The text is a preamble, then the define block followed by a line marker. -/
def DefinesAfterPreamble (self : ShaderManagerGL) (c : Str) : Prop :=
  ∃ preamble n rest, IsPreamble preamble
    ∧ c = preamble ++ getPreprocessorDefines self ++ "#line ".data ++ toString n ++ "\n".data
        ++ rest

/-- What holds of the local variables of `getShaderString` before and after every pass. -/
def SectionInv (self : ShaderManagerGL) (st : EffectState) : Prop :=
  IsPreamble st.prependContent
    ∧ (st.shaderName.length > 0 → HasDefines self st.shaderContent)

/-- The recursive call only adds directive lines to the preamble. -/
def KeepsPreamble (recur : Str → Str → Option (Str × Str)) : Prop :=
  ∀ name pre res, recur name pre = some res → IsPreamble pre → IsPreamble res.2

/-! ## Sample inputs -/

/-- The file system that holds exactly the listed files (path and content). -/
def fsOfList (files : List (Str × Str)) : FileSystem := fun p => findEntries p files

/-- A check that `rank` decreases along every include directive between listed files. -/
def descendCheck (files : List (Str × Str)) (self : ShaderManagerGL) (rank : Str → Nat) :
    Bool :=
  files.all fun pc =>
    (getlines pc.2).all fun raw =>
      !(startsWith (stripCR raw) "#include".data)
        || (openFile (fsOfList files) (includedFileOf self raw)).isNone
        || decide (rank (includedFileOf self raw) < rank pc.1)

/-- The files of the sample file system: an effect file of two sections that includes a
header, the header, and a file without marker line. -/
def sampleFiles : List (Str × Str) :=
  [("/s/A.glsl".data,
      "pre\n-- Vertex\n#version 430\n#include \"B.glsl\"\nv\n-- Fragment\r\nf".data),
    ("/s/B.glsl".data, "#extension x\nb1\nb2\n".data),
    ("/s/U.glsl".data, "u1\n#include \"B.glsl\"\nu2\n".data)]

/-- The sample file system. -/
def sampleFs : FileSystem := fsOfList sampleFiles

/-- A rank for the sample file system: the header lies below the files that include it. -/
def sampleRank (p : Str) : Nat := if p = "/s/B.glsl".data then 0 else 1

/-- A manager with an empty cache, three indexed files and one define. -/
def sampleManager : ShaderManagerGL :=
  { effectSources := StdMap.empty
    shaderFileMap :=
      ⟨[("A.glsl".data, "/s/A.glsl".data), ("B.glsl".data, "/s/B.glsl".data),
        ("U.glsl".data, "/s/U.glsl".data)], by decide⟩
    preprocessorDefines := ⟨[("K".data, "1".data)], by decide⟩
    globalDefines := "G\n".data }

/-- The sample manager with one cached text. -/
def sampleCached : ShaderManagerGL :=
  { sampleManager with effectSources := ⟨[("A.Vertex".data, "cached".data)], by decide⟩ }

/-- The sample manager after the effect file `A.glsl` has been parsed. -/
def sampleParsed : ShaderManagerGL :=
  { sampleManager with
    effectSources :=
      ⟨[("A.Fragment".data, "#define K 1\nG\n#line 7\nf\n".data),
        ("A.Vertex".data,
          ("#version 430\n#extension x\n#define K 1\nG\n#line 3\n#line 4\n#line 1\n#line 2\n"
            ++ "b1\nb2\n\n#line 5\nv\n").data)], by decide⟩ }

/-- The manager `sampleCached` after the effect file `A.glsl` has been parsed. -/
def sampleCachedParsed : ShaderManagerGL :=
  { sampleManager with
    effectSources :=
      ⟨[("A.Fragment".data, "#define K 1\nG\n#line 7\nf\n".data),
        ("A.Vertex".data, "cached".data)], by decide⟩ }

/-- A manager with nothing indexed, nothing defined and nothing cached. -/
def emptyManager : ShaderManagerGL :=
  { effectSources := StdMap.empty
    shaderFileMap := StdMap.empty
    preprocessorDefines := StdMap.empty
    globalDefines := [] }

/-- The sample manager after the file `U.glsl` without marker line has been parsed. -/
def sampleUParsed : ShaderManagerGL :=
  { sampleManager with
    effectSources :=
      ⟨[("U.glsl".data,
          "#extension x\n#line 1\nu1\n#line 1\n#line 2\nb1\nb2\n\n#line 3\nu2\n".data)],
        by decide⟩ }

/-- The file system without any file. -/
def emptyFs : FileSystem := fsOfList []

/-- The empty manager after a request for a shader of the missing file `NoSuchFile.glsl`. -/
def emptyManagerAfter : ShaderManagerGL :=
  { emptyManager with
    effectSources := ⟨[("NoSuchFile.glsl".data, "#line 1\n".data)], by decide⟩ }

/-- Whatever the first call returns, the second returns as well. -/
def Extends (recur recur' : Str → Str → Option (Str × Str)) : Prop :=
  ∀ name pre res, recur name pre = some res → recur' name pre = some res

/-- A list of lines as text: every line followed by a line feed. -/
def flatLines (ls : List Str) : Str := (ls.map (fun l => l ++ "\n".data)).flatten

/-- The `#version` and `#extension` lines met in a run of lines, in depth-first encounter
order: an include line stands for the lines met in the included file (`recurH`), a directive
line for itself, any other line for nothing. -/
def hoistedLines (self : ShaderManagerGL) (recurH : Str → List Str) : List Str → List Str
  | [] => []
  | raw :: rest =>
      (if startsWith (stripCR raw) "#include".data then recurH (includedFileOf self raw)
        else if isDirective (stripCR raw) then [stripCR raw]
        else [])
        ++ hoistedLines self recurH rest

/-- The `#version` and `#extension` lines met in a file and, transitively, in the files it
includes, in depth-first encounter order; `fuel` bounds the nesting depth looked into. -/
def hoistedOfFile (fs : FileSystem) (self : ShaderManagerGL) : Nat → Str → List Str
  | fuel, path =>
      match openFile fs path with
      | none => []
      | some content =>
          match fuel with
          | 0 => []
          | fuel + 1 => hoistedLines self (hoistedOfFile fs self fuel) (getlines content)

/-- The body text a run of lines stands for when the line counter is `lineNum` before the
first of them: an include line gives the expansion of the included file (`recurB`), an empty
line and a marker restoring the count; a directive line gives a marker in its place; any
other line gives itself. -/
def bodyLines (self : ShaderManagerGL) (recurB : Str → Str) : Nat → List Str → Str
  | _, [] => []
  | lineNum, raw :: rest =>
      (if startsWith (stripCR raw) "#include".data then
          recurB (includedFileOf self raw) ++ "\n".data
            ++ ("#line ".data ++ toString (lineNum + 1) ++ "\n".data)
        else if isDirective (stripCR raw) then
          "#line ".data ++ toString (lineNum + 1) ++ "\n".data
        else stripCR raw ++ "\n".data)
        ++ bodyLines self recurB (lineNum + 1) rest

/-- The expansion of a file: empty when it cannot be opened, otherwise the marker `#line 1`
and the body text of its lines; `fuel` bounds the nesting depth looked into. -/
def bodyOfFile (fs : FileSystem) (self : ShaderManagerGL) : Nat → Str → Str
  | fuel, path =>
      match openFile fs path with
      | none => []
      | some content =>
          match fuel with
          | 0 => []
          | fuel + 1 =>
              "#line 1\n".data ++ bodyLines self (bodyOfFile fs self fuel) 1 (getlines content)

/-- The recursive call returns the expansion `recurB` and appends the lines `recurH` to the
preamble. -/
def Splits (recur : Str → Str → Option (Str × Str)) (recurB : Str → Str)
    (recurH : Str → List Str) : Prop :=
  ∀ name pre res, recur name pre = some res →
    res = (recurB name, pre ++ flatLines (recurH name))

/-- The text `getShaderString` builds for the section opened by a marker line on physical
line `k` with the lines `region` up to the next marker line or the end of the file: the
hoisted preamble, the define block, the marker `#line k+1` and the body text. -/
def sectionText (self : ShaderManagerGL) (recurB : Str → Str) (recurH : Str → List Str)
    (k : Nat) (region : List Str) : Str :=
  flatLines (hoistedLines self recurH region)
    ++ (getPreprocessorDefines self ++ "#line ".data ++ toString (k + 1) ++ "\n".data
      ++ bodyLines self recurB (k + 1) region)

/-- An include line that names the header in double quotes, as `#include "name"`. -/
def quotedInclude (name : Str) : Str := "#include ".data ++ dquote :: (name ++ [dquote])

/-- An ordinary line: neither an include line nor a `#version` or `#extension` line. -/
def isOrdinary (linestr : Str) : Bool :=
  !startsWith linestr "#include".data && !isDirective linestr

/-- The files of a second sample: an effect file that includes the same header twice. -/
def dupFiles : List (Str × Str) :=
  [("/s/D.glsl".data, "-- Vertex\n#include \"V.glsl\"\n#include \"V.glsl\"\nd\n".data),
    ("/s/V.glsl".data, "#version 430\nv1\n".data)]

/-- The second sample file system. -/
def dupFs : FileSystem := fsOfList dupFiles

/-- A manager with an empty cache and the two files of the second sample indexed. -/
def dupManager : ShaderManagerGL :=
  { emptyManager with
    shaderFileMap :=
      ⟨[("D.glsl".data, "/s/D.glsl".data), ("V.glsl".data, "/s/V.glsl".data)], by decide⟩ }

/-- The manager of the second sample after the effect file `D.glsl` has been parsed. -/
def dupParsed : ShaderManagerGL :=
  { dupManager with
    effectSources :=
      ⟨[("D.Vertex".data,
          ("#version 430\n#version 430\n#line 2\n#line 1\n#line 2\nv1\n\n#line 3\n"
            ++ "#line 1\n#line 2\nv1\n\n#line 4\nd\n").data)], by decide⟩ }

/-- The file of a third sample: an effect file whose section holds two include lines that
cannot be resolved, one naming a file that is not indexed, one naming a key that is not
defined. -/
def missFiles : List (Str × Str) :=
  [("/s/M.glsl".data, "-- Vertex\n#include \"Nope.glsl\"\n#include NOKEY\nm\n".data)]

/-- The third sample file system. -/
def missFs : FileSystem := fsOfList missFiles

/-- A manager with an empty cache and the file of the third sample indexed. -/
def missManager : ShaderManagerGL :=
  { emptyManager with
    shaderFileMap := ⟨[("M.glsl".data, "/s/M.glsl".data)], by decide⟩ }

/-- The manager of the third sample after the effect file `M.glsl` has been parsed. -/
def missParsed : ShaderManagerGL :=
  { missManager with
    effectSources :=
      ⟨[("M.Vertex".data, "#line 2\n\n#line 3\n\n#line 4\nm\n".data)], by decide⟩ }

/-- The file `p` can be opened and one of its include lines resolves to the file `q`. -/
def Includes (fs : FileSystem) (self : ShaderManagerGL) (p q : Str) : Prop :=
  ∃ content raw, openFile fs p = some content ∧ raw ∈ getlines content
    ∧ startsWith (stripCR raw) "#include".data = true ∧ includedFileOf self raw = q

/-- Modelled from the spec: what `indexFiles` asks of `FileUtils` (`Utils/File/FileUtils.hpp`
is not part of the sources at hand) for a path that is no directory: whether the file carries
the shader-source extension, and its name without the path. -/
structure FileUtils where
  /-- The call `hasExtension(file, ".glsl")`. -/
  hasExtension : Str → Bool
  /-- The call `getPureFilename(file)`. -/
  getPureFilename : Str → Str

/-- Modelled from the spec: the directory tree `indexFiles` walks. A path for which
`isDirectory` holds carries what `getFilesInDirectoryVector` returns for it, in the order
returned; every other path is a leaf. -/
inductive DirTree where
  | file (path : Str) : DirTree
  | directory (path : Str) (elements : List DirTree) : DirTree

mutual
/-- The method `ShaderManagerGL::indexFiles` on the map `shaderFileMap`. -/
def indexFiles (fu : FileUtils) : DirTree → StdMap → StdMap
  | DirTree.file file, shaderFileMap =>
      if fu.hasExtension file then shaderFileMap.insert (fu.getPureFilename file) file
      else shaderFileMap
  | DirTree.directory _ elements, shaderFileMap => indexFilesLoop fu elements shaderFileMap
/-- The loop `for (std::string &childFile : elements) indexFiles(childFile)`. -/
def indexFilesLoop (fu : FileUtils) : List DirTree → StdMap → StdMap
  | [], shaderFileMap => shaderFileMap
  | childFile :: rest, shaderFileMap =>
      indexFilesLoop fu rest (indexFiles fu childFile shaderFileMap)
end

mutual
/-- The files of a tree that carry the shader-source extension, as pairs of bare name and
full path, in the order `indexFiles` meets them. -/
def glslFiles (fu : FileUtils) : DirTree → List (Str × Str)
  | DirTree.file file => if fu.hasExtension file then [(fu.getPureFilename file, file)] else []
  | DirTree.directory _ elements => glslFilesLoop fu elements
/-- The shader files of a list of trees, in order. -/
def glslFilesLoop (fu : FileUtils) : List DirTree → List (Str × Str)
  | [] => []
  | childFile :: rest => glslFiles fu childFile ++ glslFilesLoop fu rest
end

mutual
/-- The paths of all files (leaves) of a tree. -/
def treeFiles : DirTree → List Str
  | DirTree.file file => [file]
  | DirTree.directory _ elements => treeFilesLoop elements
/-- The paths of all files of a list of trees. -/
def treeFilesLoop : List DirTree → List Str
  | [] => []
  | childFile :: rest => treeFiles childFile ++ treeFilesLoop rest
end

/-- Modelled from the spec: file helpers for the samples. A file carries the shader-source
extension when its path ends in `.glsl`; its bare name is what follows the last slash. -/
def sampleFileUtils : FileUtils :=
  { hasExtension := fun file => startsWith file.reverse ".glsl".data.reverse
    getPureFilename := fun file => (file.reverse.takeWhile (fun c => c ≠ '/')).reverse }

/-- A directory tree with two shader files of the same bare name in different
sub-directories, and a file with another extension. -/
def sampleTree : DirTree :=
  DirTree.directory "r/".data
    [DirTree.directory "r/a".data
        [DirTree.file "r/a/X.glsl".data, DirTree.file "r/a/notes.txt".data],
      DirTree.directory "r/b".data [DirTree.file "r/b/X.glsl".data]]

/-- The file of a fifth sample: an effect file whose only section has a dotted name. -/
def resolveFiles : List (Str × Str) :=
  [("/s/ResolveMSAA.glsl".data, "-- Vertex.GL3\nvoid main() {}\n".data)]

/-- The fifth sample file system. -/
def resolveFs : FileSystem := fsOfList resolveFiles

/-- A manager with an empty cache and the file of the fifth sample indexed. -/
def resolveManager : ShaderManagerGL :=
  { emptyManager with
    shaderFileMap := ⟨[("ResolveMSAA.glsl".data, "/s/ResolveMSAA.glsl".data)], by decide⟩ }

/-- The text with every line feed replaced by carriage return and line feed. -/
def crlf : Str → Str
  | [] => []
  | c :: cs => if c = '\n' then '\r' :: '\n' :: crlf cs else c :: crlf cs

/-- The file system whose files hold the texts of `fs` with the line endings replaced. -/
def crlfFs (fs : FileSystem) : FileSystem := fun p => (fs p).map crlf

/-- A check that no listed file holds a carriage return. -/
def crFreeCheck (files : List (Str × Str)) : Bool :=
  files.all fun pc => !pc.2.contains '\r'

/-- The files of a sixth sample: an effect file whose include names its header
through a define. -/
def paramFiles : List (Str × Str) :=
  [("/s/P.glsl".data, "-- Vertex\n#include \t HEADER\np\n".data),
    ("/s/H.glsl".data, "h1\n".data)]

/-- The sixth sample file system. -/
def paramFs : FileSystem := fsOfList paramFiles

/-- A manager with an empty cache, the two files of the sixth sample indexed and the define
`HEADER` bound to the quoted file name `"H.glsl"`. -/
def paramManager : ShaderManagerGL :=
  { emptyManager with
    shaderFileMap :=
      ⟨[("H.glsl".data, "/s/H.glsl".data), ("P.glsl".data, "/s/P.glsl".data)], by decide⟩
    preprocessorDefines := ⟨[("HEADER".data, "\"H.glsl\"".data)], by decide⟩ }

/-- The enumeration `ShaderType` of `Graphics/Shader/Shader.hpp`. -/
inductive ShaderType where
  | VERTEX_SHADER
  | FRAGMENT_SHADER
  | GEOMETRY_SHADER
  | TESSELATION_EVALUATION_SHADER
  | TESSELATION_CONTROL_SHADER
  | COMPUTE_SHADER
  deriving DecidableEq

/-- The call `boost::algorithm::to_lower_copy(s)` in the classic locale: the letters `A` to `Z`
are replaced by their lower-case forms. -/
def toLowerCopy (s : Str) : Str := s.map Char.toLower

/-- The call `boost::algorithm::ends_with(s, p)`. -/
def endsWith (s p : Str) : Bool := p.isSuffixOf s

/-- The call `boost::algorithm::contains(s, p)`: `p` starts at some position of `s`. -/
def contains (s p : Str) : Bool := s.tails.any fun t => p.isPrefixOf t

/-- The call `s.c_str()` read as a C string: the characters before the first zero character. -/
def cStr (s : Str) : Str := s.takeWhile fun c => c ≠ Char.ofNat 0

/-- The value of the local variable `shaderType` of `createShaderProgram` when `getShader` is
called for `shaderID`: every test reads the C string `shaderID_lower.c_str()`. -/
def shaderType (shaderID : Str) : ShaderType :=
  let shaderID_lower := toLowerCopy shaderID
  if endsWith (cStr shaderID_lower) "vertex".data then ShaderType.VERTEX_SHADER
  else if endsWith (cStr shaderID_lower) "fragment".data then ShaderType.FRAGMENT_SHADER
  else if endsWith (cStr shaderID_lower) "geometry".data then ShaderType.GEOMETRY_SHADER
  else if endsWith (cStr shaderID_lower) "tesselationevaluation".data then
    ShaderType.TESSELATION_EVALUATION_SHADER
  else if endsWith (cStr shaderID_lower) "tesselationcontrol".data then
    ShaderType.TESSELATION_CONTROL_SHADER
  else if endsWith (cStr shaderID_lower) "compute".data then ShaderType.COMPUTE_SHADER
  else if contains (cStr shaderID_lower) "vert".data then ShaderType.VERTEX_SHADER
  else if contains (cStr shaderID_lower) "frag".data then ShaderType.FRAGMENT_SHADER
  else if contains (cStr shaderID_lower) "geom".data then ShaderType.GEOMETRY_SHADER
  else if contains (cStr shaderID_lower) "tess".data then
    if contains (cStr shaderID_lower) "eval".data then
      ShaderType.TESSELATION_EVALUATION_SHADER
    else if contains (cStr shaderID_lower) "control".data then
      ShaderType.TESSELATION_CONTROL_SHADER
    else ShaderType.VERTEX_SHADER
  else if contains (cStr shaderID_lower) "comp".data then ShaderType.COMPUTE_SHADER
  else ShaderType.VERTEX_SHADER

/-- The method `ShaderManagerGL::createShaderProgram(shaderIDs)`: the calls
`getShader(shaderID.c_str(), shaderType)` it makes, in order; the shaders they return are
attached to the program. -/
def createShaderProgram (shaderIDs : List Str) : List (Str × ShaderType) :=
  shaderIDs.map fun shaderID => (cStr shaderID, shaderType shaderID)

/-- The call `s.substr(pos, count)` with its range check: the arguments are computed in `int`
and converted to `size_t`, so that a negative position lies beyond every string. `none` stands
for the exception `std::out_of_range`, thrown when the position is greater than the size. -/
def substrChecked (s : Str) (pos count : Int) : Option Str :=
  if pos < 0 ∨ pos > s.length then none else some (substr s pos count)

/-- The method `ShaderManagerGL::getHeaderName` with the range checks of `substr` and of
`line.at(1)` made explicit: `none` stands for an exception `std::out_of_range`. -/
def getHeaderNameChecked (self : ShaderManagerGL) (lineString : Str) : Option Str :=
  let startFilename := findChar dquote lineString
  let endFilename := findLastOf dquote lineString
  if startFilename > 0 ∧ endFilename > 0 then
    substrChecked lineString (startFilename + 1) (endFilename - startFilename - 1)
  else
    let line := split lineString
    if line.length < 2 then some []
    else
      match line.get? 1 with
      | none => none
      | some key =>
          match self.preprocessorDefines.find key with
          | some second =>
              let startFilename := findChar dquote second
              let endFilename := findLastOf dquote second
              substrChecked second (startFilename + 1) (endFilename - startFilename - 1)
          | none => some []

/-- The file system `fs` with the content of the file `path` replaced. -/
def replaceFile (fs : FileSystem) (path content : Str) : FileSystem :=
  fun p => if p = path then some content else fs p

/-- The sample file system with text before the first marker line of `A.glsl`: a `#version`
line, an include and an ordinary line. -/
def headFs : FileSystem :=
  replaceFile sampleFs "/s/A.glsl".data
    "#version 100\n#include \"B.glsl\"\nx\n-- Vertex\nv\n".data

/-- The file system `headFs` with every line before the first marker line of `A.glsl` replaced
by an empty line. -/
def headBlankFs : FileSystem :=
  replaceFile sampleFs "/s/A.glsl".data "\n\n\n-- Vertex\nv\n".data

/-- The manager of the fifth sample with a global block that does not end in a line feed: the
content of a file `GlobalDefines.glsl` whose last line is not closed. -/
def glueManager : ShaderManagerGL :=
  { resolveManager with globalDefines := "#define G 1".data }

/-- The number a string of decimal digits denotes. -/
def decodeNat (s : Str) : Nat :=
  s.foldl (fun acc c => acc * 10 + (c.toNat - '0'.toNat)) 0

/-- The number `N` of an output line `#line N`; `none` for every other line. -/
def lineDirective (l : Str) : Option Nat :=
  if startsWith l "#line ".data then some (decodeNat (l.drop 6)) else none

/-- The lines of an output text with the numbers they carry: a line `#line N` gives the number
`N` to the line after it, every further line counts up by one; `n` is the number of the first
line. The lines `#line N` themselves are not listed. -/
def numberLines : Nat → List Str → List (Nat × Str)
  | _, [] => []
  | n, l :: ls =>
      match lineDirective l with
      | some N => numberLines N ls
      | none => (n, l) :: numberLines (n + 1) ls

/-- The number the line after the given output lines carries. -/
def nextNumber : Nat → List Str → Nat
  | n, [] => n
  | n, l :: ls =>
      match lineDirective l with
      | some N => nextNumber N ls
      | none => nextNumber (n + 1) ls

/-- The text is made of whole lines: it is empty or ends in a line feed. -/
def EndsLine (text : Str) : Prop := text = [] ∨ text.getLast? = some '\n'

/-- The text is made of whole lines and the line after it carries the number `n`, counted
from 1 at the start of the text. -/
def NumberedUpTo (text : Str) (n : Nat) : Prop :=
  EndsLine text ∧ nextNumber 1 (getlines text) = n

/-- The text is `y`, then the line `x`, then `w`, and under the reading of `numberLines` the
line `x` at that place carries the number `i`. -/
def CarriesNumber (text y x w : Str) (i : Nat) : Prop :=
  text = y ++ (x ++ "\n".data) ++ w
    ∧ numberLines 1 (getlines text)
      = numberLines 1 (getlines y) ++ (i, x) :: numberLines (i + 1) (getlines w)

/-- The file of a seventh sample: an effect file with a `#line` directive of its own. -/
def lineFiles : List (Str × Str) :=
  [("/s/L.glsl".data, "-- Vertex\n#line 77\nb\n".data)]

/-- The seventh sample file system. -/
def lineFs : FileSystem := fsOfList lineFiles

/-- A manager with an empty cache and the file of the seventh sample indexed. -/
def lineManager : ShaderManagerGL :=
  { emptyManager with
    shaderFileMap := ⟨[("L.glsl".data, "/s/L.glsl".data)], by decide⟩ }

theorem findEntries_insertEntries (k v k' : Str) (l : List (Str × Str))
    (h : findEntries k l = none) :
    findEntries k' (insertEntries k v l) = if k = k' then some v else findEntries k' l := by
  induction l with
  | nil => simp [insertEntries, findEntries]
  | cons q r ih =>
    obtain ⟨k0, v0⟩ := q
    have h0 : k0 ≠ k := by
      intro hk; simp [findEntries, hk] at h
    have hr : findEntries k r = none := by
      simpa [findEntries, h0] using h
    by_cases hlt : strLt k k0 = true
    · simp [insertEntries, hlt, findEntries]
    · simp only [insertEntries, hlt, Bool.false_eq_true, if_false, findEntries, ih hr]
      by_cases h1 : k0 = k'
      · subst h1
        simp [Ne.symm h0]
      · simp [h1]

theorem StdMap.find_insert (m : StdMap) (k v k' : Str) :
    (m.insert k v).find k' = if k = k' then some ((m.find k).getD v) else m.find k' := by
  unfold StdMap.insert StdMap.find
  by_cases h : findEntries k m.entries = none
  · rw [dif_pos h]
    simp only [findEntries_insertEntries k v k' m.entries h]
    by_cases hk : k = k'
    · subst hk
      simp [h]
    · simp [hk]
  · rw [dif_neg h]
    by_cases hk : k = k'
    · subst hk
      cases hf : findEntries k m.entries with
      | none => exact absurd hf h
      | some x => simp
    · simp [hk]

theorem StdMap.insert_eq_self (m : StdMap) (k v : Str) (h : m.find k ≠ none) :
    m.insert k v = m := by
  unfold StdMap.insert
  exact dif_neg h

theorem StdMap.find_insert_of_some (m : StdMap) (k v k' x : Str) (h : m.find k' = some x) :
    (m.insert k v).find k' = some x := by
  rw [StdMap.find_insert]
  by_cases hk : k = k'
  · subst hk; simp [h]
  · simp [hk, h]

theorem find_insertAll_of_some (kvs : List (Str × Str)) (m : StdMap) (k x : Str)
    (h : m.find k = some x) : (insertAll kvs m).find k = some x := by
  induction kvs generalizing m with
  | nil => exact h
  | cons kv r ih =>
    exact ih (m.insert kv.1 kv.2) (StdMap.find_insert_of_some m kv.1 kv.2 k x h)

theorem find_insertAll_of_none (kvs : List (Str × Str)) (m : StdMap) (k : Str)
    (h : m.find k = none) : (insertAll kvs m).find k = findEntries k kvs := by
  induction kvs generalizing m with
  | nil => exact h
  | cons kv r ih =>
    obtain ⟨k0, v0⟩ := kv
    by_cases hk : k0 = k
    · subst hk
      have : (m.insert k0 v0).find k0 = some v0 := by
        rw [StdMap.find_insert]; simp [h]
      simpa [findEntries] using find_insertAll_of_some r (m.insert k0 v0) k0 v0 this
    · have : (m.insert k0 v0).find k = none := by
        rw [StdMap.find_insert]; simp [hk, h]
      simpa [findEntries, hk] using ih (m.insert k0 v0) this

theorem find_insertAll_ne_none_of_mem (kvs : List (Str × Str)) (m : StdMap) (kv : Str × Str)
    (h : kv ∈ kvs) : (insertAll kvs m).find kv.1 ≠ none := by
  cases hm : m.find kv.1 with
  | some x => rw [find_insertAll_of_some kvs m kv.1 x hm]; simp
  | none =>
    rw [find_insertAll_of_none kvs m kv.1 hm]
    intro hn
    exact (findEntries_eq_none_iff kv.1 kvs).mp hn kv h rfl

theorem insertAll_eq_self (kvs : List (Str × Str)) (m : StdMap)
    (h : ∀ kv ∈ kvs, m.find kv.1 ≠ none) : insertAll kvs m = m := by
  induction kvs with
  | nil => rfl
  | cons kv r ih =>
    have h1 : m.insert kv.1 kv.2 = m := StdMap.insert_eq_self m kv.1 kv.2 (h kv (List.mem_cons_self _ _))
    show insertAll r (m.insert kv.1 kv.2) = m
    rw [h1]
    exact ih (fun kv' hkv => h kv' (List.mem_cons_of_mem _ hkv))

theorem insertAll_append (a b : List (Str × Str)) (m : StdMap) :
    insertAll (a ++ b) m = insertAll b (insertAll a m) := by
  simp [insertAll, List.foldl_append]

theorem findEntries_some_mem (k v : Str) (l : List (Str × Str))
    (h : findEntries k l = some v) : (k, v) ∈ l := by
  induction l with
  | nil => simp [findEntries] at h
  | cons q r ih =>
    obtain ⟨k0, v0⟩ := q
    by_cases hk : k0 = k
    · simp only [findEntries, hk, if_true, Option.some.injEq] at h
      rw [hk, h]; exact List.mem_cons_self _ _
    · simp only [findEntries, hk, if_false] at h
      exact List.mem_cons_of_mem _ (ih h)

theorem mem_iff_findEntries (l : List (Str × Str)) (hs : SortedKeys l) (k v : Str) :
    (k, v) ∈ l ↔ findEntries k l = some v := by
  refine ⟨fun hm => ?_, findEntries_some_mem k v l⟩
  induction l with
  | nil => simp at hm
  | cons q r ih =>
    obtain ⟨k0, v0⟩ := q
    unfold SortedKeys at hs
    rw [List.pairwise_cons] at hs
    by_cases hk : k0 = k
    · subst hk
      rcases List.mem_cons.mp hm with heq | hr
      · simp only [Prod.mk.injEq] at heq
        simp [findEntries, heq.2]
      · have := hs.1 (k0, v) hr
        simp [strLt_irrefl] at this
    · rcases List.mem_cons.mp hm with heq | hr
      · simp only [Prod.mk.injEq] at heq
        exact absurd heq.1.symm hk
      · simp only [findEntries, hk, if_false]
        exact ih hs.2 hr

/-! ## The cache during the loop of `getShaderString` -/

theorem flushOf_cache (raw : Str) (st : EffectState) (es : StdMap) :
    flushOf raw { st with effectSources := es } = flushOf raw st := rfl

theorem effectStep_cache (self : ShaderManagerGL) (recur : Str → Str → Option (Str × Str))
    (base raw : Str) (st : EffectState) (es : StdMap) :
    effectStep self recur base raw { st with effectSources := es } =
      (effectStep self recur base raw st).map
        (fun st' => { st' with effectSources := insertAll (flushOf raw st) es }) := by
  unfold effectStep flushOf
  by_cases h1 : startsWith (stripCR raw) "-- ".data = true
  · by_cases h2 : st.shaderContent.length > 0 ∧ st.shaderName.length > 0
    · simp [h1, h2, insertAll]
    · simp [h1, h2, insertAll]
  · by_cases h2 : (startsWith (stripCR raw) "#version".data || startsWith (stripCR raw) "#extension".data) = true
    · simp only [h1, h2]
      simp [insertAll]
    · by_cases h3 : startsWith (stripCR raw) "#include".data = true
      · simp only [h1, h2, h3]
        cases recur (getShaderFileName self (getHeaderName self (stripCR raw))) st.prependContent with
        | none => simp
        | some r => simp [insertAll]
      · simp only [h1, h2, h3]
        simp [insertAll]

theorem flushes_cache (self : ShaderManagerGL) (recur : Str → Str → Option (Str × Str))
    (base : Str) (lines : List Str) (st : EffectState) (es : StdMap) :
    flushes self recur base lines { st with effectSources := es } =
      flushes self recur base lines st := by
  induction lines generalizing st es with
  | nil => rfl
  | cons raw rest ih =>
    simp only [flushes, effectStep_cache self recur base raw st es, flushOf_cache]
    cases effectStep self recur base raw st with
    | none => rfl
    | some st' => simp only [Option.map_some']; rw [ih st']

theorem effectLoop_cache (self : ShaderManagerGL) (recur : Str → Str → Option (Str × Str))
    (base : Str) (lines : List Str) (st : EffectState) (es : StdMap) :
    effectLoop self recur base lines { st with effectSources := es } =
      (effectLoop self recur base lines st).map
        (fun st' => { st' with
          effectSources := insertAll (flushes self recur base lines st) es }) := by
  induction lines generalizing st es with
  | nil => simp [effectLoop, flushes, insertAll]
  | cons raw rest ih =>
    simp only [effectLoop, flushes, effectStep_cache self recur base raw st es]
    cases hs : effectStep self recur base raw st with
    | none => rfl
    | some st' =>
      simp only [Option.map_some']
      rw [ih st' (insertAll (flushOf raw st) es), insertAll_append]

theorem effectLoop_effectSources (self : ShaderManagerGL)
    (recur : Str → Str → Option (Str × Str)) (base : Str) (lines : List Str)
    (st st' : EffectState) (h : effectLoop self recur base lines st = some st') :
    st'.effectSources = insertAll (flushes self recur base lines st) st.effectSources := by
  have h1 := effectLoop_cache self recur base lines st st.effectSources
  have h2 : effectLoop self recur base lines { st with effectSources := st.effectSources }
      = some st' := h
  rw [h2] at h1
  simp only [Option.map_some', Option.some.injEq] at h1
  exact congrArg EffectState.effectSources h1

/-! ## Unfolding `getShaderString` -/

theorem getShaderString_hit (fuel : Nat) (fs : FileSystem) (self : ShaderManagerGL)
    (id text : Str) (h : self.effectSources.find id = some text) :
    getShaderString fuel fs self id = some (text, self) := by
  unfold getShaderString
  rw [h]

theorem getShaderString_finish (self : ShaderManagerGL) (id : Str) (es : StdMap) :
    (match es.find id with
      | some second => some (second, { self with effectSources := es })
      | none => some ([], { self with effectSources := es }))
      = some ((es.find id).getD [], { self with effectSources := es }) := by
  cases es.find id <;> rfl

theorem getShaderString_miss (fuel : Nat) (fs : FileSystem) (self : ShaderManagerGL)
    (id : Str) (h : self.effectSources.find id = none) :
    getShaderString fuel fs self id =
      (effectLoop self (loadHeaderFileString fs self fuel) (pureFilenameOf id)
          (effectLinesOf fs self id) (effectInit self.effectSources)).map
        (fun st =>
          (((insertAll (inserted fs self fuel id st) self.effectSources).find id).getD [],
            { self with
              effectSources := insertAll (inserted fs self fuel id st) self.effectSources })) := by
  unfold getShaderString
  rw [h]
  simp only []
  change (match effectLoop self (loadHeaderFileString fs self fuel) (pureFilenameOf id)
          (effectLinesOf fs self id) (effectInit self.effectSources) with
      | none => none
      | some st => _) = _
  cases hl : effectLoop self (loadHeaderFileString fs self fuel) (pureFilenameOf id)
      (effectLinesOf fs self id) (effectInit self.effectSources) with
  | none => rfl
  | some st =>
    have hes := effectLoop_effectSources _ _ _ _ _ _ hl
    simp only [Option.map_some', inserted, insertAll_append]
    have hins : insertAll [(finalKey (pureFilenameOf id) st, st.prependContent ++ st.shaderContent)]
        (insertAll (flushes self (loadHeaderFileString fs self fuel) (pureFilenameOf id)
          (effectLinesOf fs self id) (effectInit self.effectSources)) self.effectSources)
        = (if st.shaderName.length > 0 then
            st.effectSources.insert st.shaderName (st.prependContent ++ st.shaderContent)
          else st.effectSources.insert (pureFilenameOf id ++ ".glsl".data)
            (st.prependContent ++ st.shaderContent)) := by
      rw [hes]
      unfold finalKey
      by_cases hn : st.shaderName.length > 0
      · simp [hn, insertAll, effectInit]
      · simp [hn, insertAll, effectInit]
    rw [hins]
    exact getShaderString_finish self id _

/-! ## The cache is not read by the parsers -/

theorem headerStep_self (self : ShaderManagerGL) (es : StdMap)
    (recur : Str → Str → Option (Str × Str)) (raw : Str) (st : HeaderState) :
    headerStep { self with effectSources := es } recur raw st = headerStep self recur raw st :=
  rfl

theorem headerLoop_self (self : ShaderManagerGL) (es : StdMap)
    (recur : Str → Str → Option (Str × Str)) (lines : List Str) (st : HeaderState) :
    headerLoop { self with effectSources := es } recur lines st
      = headerLoop self recur lines st := by
  induction lines generalizing st with
  | nil => rfl
  | cons raw rest ih =>
    simp only [headerLoop, headerStep_self]
    cases headerStep self recur raw st with
    | none => rfl
    | some st' => exact ih st'

theorem loadHeaderFileString_self (fs : FileSystem) (self : ShaderManagerGL) (es : StdMap)
    (fuel : Nat) :
    loadHeaderFileString fs { self with effectSources := es } fuel
      = loadHeaderFileString fs self fuel := by
  induction fuel with
  | zero =>
    funext name pre
    unfold loadHeaderFileString
    rfl
  | succ n ih =>
    funext name pre
    rw [loadHeaderFileString, loadHeaderFileString]
    simp only [ih, headerLoop_self]

theorem effectStep_self (self : ShaderManagerGL) (es : StdMap)
    (recur : Str → Str → Option (Str × Str)) (base raw : Str) (st : EffectState) :
    effectStep { self with effectSources := es } recur base raw st
      = effectStep self recur base raw st :=
  rfl

theorem effectLoop_self (self : ShaderManagerGL) (es : StdMap)
    (recur : Str → Str → Option (Str × Str)) (base : Str) (lines : List Str)
    (st : EffectState) :
    effectLoop { self with effectSources := es } recur base lines st
      = effectLoop self recur base lines st := by
  induction lines generalizing st with
  | nil => rfl
  | cons raw rest ih =>
    simp only [effectLoop, effectStep_self]
    cases effectStep self recur base raw st with
    | none => rfl
    | some st' => exact ih st'

theorem flushes_self (self : ShaderManagerGL) (es : StdMap)
    (recur : Str → Str → Option (Str × Str)) (base : Str) (lines : List Str)
    (st : EffectState) :
    flushes { self with effectSources := es } recur base lines st
      = flushes self recur base lines st := by
  induction lines generalizing st with
  | nil => rfl
  | cons raw rest ih =>
    simp only [flushes, effectStep_self]
    cases effectStep self recur base raw st with
    | none => rfl
    | some st' => simp only [ih st']

theorem inserted_self (fs : FileSystem) (self : ShaderManagerGL) (fuel : Nat) (id : Str)
    (st : EffectState) (es es' : StdMap) :
    inserted fs { self with effectSources := es } fuel id { st with effectSources := es' }
      = inserted fs self fuel id st := by
  unfold inserted
  rw [flushes_self, loadHeaderFileString_self]
  have h1 : effectLinesOf fs { self with effectSources := es } id = effectLinesOf fs self id :=
    rfl
  have h2 : effectInit es = { effectInit self.effectSources with effectSources := es } := rfl
  rw [h1]
  simp only []
  rw [h2, flushes_cache]
  rfl

theorem getShaderString_miss_self (fuel : Nat) (fs : FileSystem) (self : ShaderManagerGL)
    (id : Str) (es : StdMap) (st : EffectState)
    (hl : effectLoop self (loadHeaderFileString fs self fuel) (pureFilenameOf id)
        (effectLinesOf fs self id) (effectInit self.effectSources) = some st) :
    effectLoop { self with effectSources := es }
        (loadHeaderFileString fs { self with effectSources := es } fuel) (pureFilenameOf id)
        (effectLinesOf fs { self with effectSources := es } id) (effectInit es)
      = some { st with effectSources :=
          (insertAll (flushes self (loadHeaderFileString fs self fuel) (pureFilenameOf id)
            (effectLinesOf fs self id) (effectInit self.effectSources)) es) } := by
  rw [effectLoop_self, loadHeaderFileString_self]
  have h1 : effectLinesOf fs { self with effectSources := es } id = effectLinesOf fs self id :=
    rfl
  have h2 : effectInit es = { effectInit self.effectSources with effectSources := es } := rfl
  rw [h1, h2, effectLoop_cache, hl]
  rfl

theorem getShaderString_again (fuel : Nat) (fs : FileSystem) (self self' : ShaderManagerGL)
    (id r : Str) (h : getShaderString fuel fs self id = some (r, self')) :
    getShaderString fuel fs self' id = some (r, self') := by
  cases hf : self.effectSources.find id with
  | some text =>
    rw [getShaderString_hit fuel fs self id text hf] at h
    simp only [Option.some.injEq, Prod.mk.injEq] at h
    obtain ⟨rfl, rfl⟩ := h
    exact getShaderString_hit fuel fs self id text hf
  | none =>
    rw [getShaderString_miss fuel fs self id hf] at h
    cases hl : effectLoop self (loadHeaderFileString fs self fuel) (pureFilenameOf id)
        (effectLinesOf fs self id) (effectInit self.effectSources) with
    | none => rw [hl] at h; simp at h
    | some st =>
      rw [hl] at h
      simp only [Option.map_some', Option.some.injEq, Prod.mk.injEq] at h
      obtain ⟨hr, hs⟩ := h
      cases hf' : self'.effectSources.find id with
      | some text =>
        rw [getShaderString_hit fuel fs self' id text hf']
        rw [← hs] at hf'
        simp only [] at hf'
        rw [hf'] at hr
        simp at hr
        rw [hr]
      | none =>
        rw [getShaderString_miss fuel fs self' id hf']
        subst hs
        rw [getShaderString_miss_self fuel fs self id _ st hl]
        simp only [Option.map_some', inserted_self]
        have hE : insertAll (inserted fs self fuel id st)
            (insertAll (inserted fs self fuel id st) self.effectSources)
            = insertAll (inserted fs self fuel id st) self.effectSources :=
          insertAll_eq_self _ _ (fun kv hkv => find_insertAll_ne_none_of_mem _ _ kv hkv)
        rw [hE, hr]

/-! ## Which keys a parse inserts -/

theorem effectStep_name (self : ShaderManagerGL) (recur : Str → Str → Option (Str × Str))
    (base raw : Str) (st st' : EffectState)
    (h : effectStep self recur base raw st = some st') :
    (isMarker raw = true → st'.shaderName = markerKey base raw)
      ∧ (isMarker raw = false → st'.shaderName = st.shaderName)
      ∧ (st.shaderContent.length > 0 → st'.shaderContent.length > 0) := by
  unfold effectStep at h
  unfold isMarker markerKey
  by_cases h1 : startsWith (stripCR raw) "-- ".data = true
  · simp only [h1, if_true, Option.some.injEq] at h
    subst h
    refine ⟨fun _ => rfl, fun hm => ?_, fun _ => ?_⟩
    · rw [h1] at hm; exact absurd hm (by decide)
    · simp
  · have hm : startsWith (stripCR raw) "-- ".data = false := by
      cases hc : startsWith (stripCR raw) "-- ".data with
      | true => exact absurd hc h1
      | false => rfl
    by_cases h2 : (startsWith (stripCR raw) "#version".data
        || startsWith (stripCR raw) "#extension".data) = true
    · simp only [h1, h2, if_true, Bool.false_eq_true, if_false, Option.some.injEq] at h
      subst h
      refine ⟨fun hm' => ?_, fun _ => rfl, fun hc => ?_⟩
      · rw [hm] at hm'; exact absurd hm' (by decide)
      · simp only [List.length_append]; omega
    · by_cases h3 : startsWith (stripCR raw) "#include".data = true
      · simp only [h1, h2, h3, if_true, Bool.false_eq_true, if_false] at h
        cases hr : recur (getShaderFileName self (getHeaderName self (stripCR raw)))
            st.prependContent with
        | none => rw [hr] at h; simp at h
        | some p =>
          rw [hr] at h
          simp only [Option.some.injEq] at h
          subst h
          refine ⟨fun hm' => ?_, fun _ => rfl, fun hc => ?_⟩
          · rw [hm] at hm'; exact absurd hm' (by decide)
          · simp only [List.length_append]; omega
      · simp only [h1, h2, h3, Bool.false_eq_true, if_false, Option.some.injEq] at h
        subst h
        refine ⟨fun hm' => ?_, fun _ => rfl, fun hc => ?_⟩
        · rw [hm] at hm'; exact absurd hm' (by decide)
        · simp only [List.length_append]; omega

theorem markerKey_length (base raw : Str) : (markerKey base raw).length > 0 := by
  unfold markerKey
  simp

theorem flushOf_keys (self : ShaderManagerGL) (recur : Str → Str → Option (Str × Str))
    (base raw : Str) (st st' : EffectState)
    (h : effectStep self recur base raw st = some st') (hc : st.shaderContent.length > 0) :
    (flushOf raw st).map Prod.fst ++ nameList st'.shaderName
      = nameList st.shaderName ++ markerKeys base [raw] := by
  obtain ⟨hm1, hm2, _⟩ := effectStep_name self recur base raw st st' h
  unfold flushOf markerKeys
  cases hm : isMarker raw with
  | true =>
    have hm' : startsWith (stripCR raw) "-- ".data = true := hm
    rw [hm1 hm]
    have hl := markerKey_length base raw
    by_cases hn : st.shaderName.length > 0
    · simp [hm, hm', hc, hn, nameList, hl]
    · simp [hm, hm', hc, hn, nameList, hl]
  | false =>
    have hm' : startsWith (stripCR raw) "-- ".data = false := hm
    rw [hm2 hm]
    simp [hm, hm', nameList]

theorem markerKeys_cons (base raw : Str) (rest : List Str) :
    markerKeys base (raw :: rest) = markerKeys base [raw] ++ markerKeys base rest := by
  unfold markerKeys
  cases hm : isMarker raw <;> simp [List.filter, hm]

theorem effectLoop_keys (self : ShaderManagerGL) (recur : Str → Str → Option (Str × Str))
    (base : Str) (lines : List Str) (st st' : EffectState)
    (h : effectLoop self recur base lines st = some st') (hc : st.shaderContent.length > 0) :
    (flushes self recur base lines st).map Prod.fst ++ nameList st'.shaderName
        = nameList st.shaderName ++ markerKeys base lines
      ∧ (st.shaderName.length > 0 → st'.shaderName.length > 0)
      ∧ (st'.shaderName.length = 0 → markerKeys base lines = [])
      ∧ st'.shaderContent.length > 0 := by
  induction lines generalizing st with
  | nil =>
    simp only [effectLoop, Option.some.injEq] at h
    subst h
    simp [flushes, markerKeys, hc]
  | cons raw rest ih =>
    simp only [effectLoop] at h
    cases hs : effectStep self recur base raw st with
    | none => rw [hs] at h; simp at h
    | some st1 =>
      rw [hs] at h
      simp only [] at h
      obtain ⟨hm1, hm2, hc1⟩ := effectStep_name self recur base raw st st1 hs
      obtain ⟨ih1, ih2, ih3, ih4⟩ := ih st1 h (hc1 hc)
      have hk := flushOf_keys self recur base raw st st1 hs hc
      have hname1 : st.shaderName.length > 0 → st1.shaderName.length > 0 := by
        intro hn
        cases hm : isMarker raw with
        | true => rw [hm1 hm]; exact markerKey_length base raw
        | false => rw [hm2 hm]; exact hn
      refine ⟨?_, fun hn => ih2 (hname1 hn), fun hz => ?_, ih4⟩
      · simp only [flushes, hs, List.map_append, List.append_assoc]
        rw [ih1, ← List.append_assoc, hk, markerKeys_cons base raw rest, List.append_assoc]
      · have hrest := ih3 hz
        have hz1 : ¬ st1.shaderName.length > 0 := fun hp => by
          have := ih2 hp; omega
        cases hm : isMarker raw with
        | true =>
          exact absurd (by rw [hm1 hm]; exact markerKey_length base raw) hz1
        | false =>
          rw [markerKeys_cons base raw rest, hrest]
          simp [markerKeys, List.filter, hm]

theorem inserted_keys (fs : FileSystem) (self : ShaderManagerGL) (fuel : Nat) (id : Str)
    (st : EffectState)
    (hl : effectLoop self (loadHeaderFileString fs self fuel) (pureFilenameOf id)
        (effectLinesOf fs self id) (effectInit self.effectSources) = some st) :
    (inserted fs self fuel id st).map Prod.fst
      = sectionKeys (pureFilenameOf id) (effectLinesOf fs self id) := by
  have hc : (effectInit self.effectSources).shaderContent.length > 0 := by
    simp [effectInit]
  obtain ⟨h1, _, h3, _⟩ := effectLoop_keys _ _ _ _ _ _ hl hc
  have hn : nameList (effectInit self.effectSources).shaderName = [] := rfl
  rw [hn, List.nil_append] at h1
  unfold inserted sectionKeys finalKey
  simp only [List.map_append, List.map_cons, List.map_nil]
  by_cases hz : st.shaderName.length > 0
  · have hnl : nameList st.shaderName = [st.shaderName] := by simp [nameList, hz]
    rw [hnl] at h1
    rw [if_pos hz, h1, if_neg]
    rw [← h1]; simp
  · have hnl : nameList st.shaderName = [] := by simp [nameList, hz]
    have hmk := h3 (by omega)
    rw [hnl, List.append_nil] at h1
    rw [if_neg hz, h1, hmk, if_pos rfl]
    rfl

/-! ## Termination of include expansion -/

theorem headerLoop_isSome (self : ShaderManagerGL) (recur : Str → Str → Option (Str × Str))
    (lines : List Str) (st : HeaderState)
    (h : ∀ raw ∈ lines, startsWith (stripCR raw) "#include".data = true →
      ∀ pre, (recur (includedFileOf self raw) pre).isSome = true) :
    (headerLoop self recur lines st).isSome = true := by
  induction lines generalizing st with
  | nil => rfl
  | cons raw rest ih =>
    have hrest : ∀ raw' ∈ rest, startsWith (stripCR raw') "#include".data = true →
        ∀ pre, (recur (includedFileOf self raw') pre).isSome = true :=
      fun raw' hm => h raw' (List.mem_cons_of_mem _ hm)
    simp only [headerLoop]
    cases hs : headerStep self recur raw st with
    | some st' => exact ih st' hrest
    | none =>
      exfalso
      unfold headerStep at hs
      by_cases h1 : startsWith (stripCR raw) "#include".data = true
      · have hr := h raw (List.mem_cons_self _ _) h1 st.prependContent
        simp only [h1, if_true] at hs
        unfold includedFileOf at hr
        cases hrec : recur (getShaderFileName self (getHeaderName self (stripCR raw)))
            st.prependContent with
        | none => rw [hrec] at hr; simp at hr
        | some p => rw [hrec] at hs; simp at hs
      · simp only [h1, Bool.false_eq_true, if_false] at hs
        split at hs <;> simp at hs

theorem effectLoop_isSome (self : ShaderManagerGL) (recur : Str → Str → Option (Str × Str))
    (base : Str) (lines : List Str) (st : EffectState)
    (h : ∀ raw ∈ lines, startsWith (stripCR raw) "#include".data = true →
      ∀ pre, (recur (includedFileOf self raw) pre).isSome = true) :
    (effectLoop self recur base lines st).isSome = true := by
  induction lines generalizing st with
  | nil => rfl
  | cons raw rest ih =>
    have hrest : ∀ raw' ∈ rest, startsWith (stripCR raw') "#include".data = true →
        ∀ pre, (recur (includedFileOf self raw') pre).isSome = true :=
      fun raw' hm => h raw' (List.mem_cons_of_mem _ hm)
    simp only [effectLoop]
    cases hs : effectStep self recur base raw st with
    | some st' => exact ih st' hrest
    | none =>
      exfalso
      unfold effectStep at hs
      by_cases h0 : startsWith (stripCR raw) "-- ".data = true
      · simp only [h0, if_true] at hs
        simp at hs
      · by_cases h2 : (startsWith (stripCR raw) "#version".data
            || startsWith (stripCR raw) "#extension".data) = true
        · simp only [h0, h2, if_true, Bool.false_eq_true, if_false] at hs
          simp at hs
        · by_cases h1 : startsWith (stripCR raw) "#include".data = true
          · have hr := h raw (List.mem_cons_self _ _) h1 st.prependContent
            simp only [h0, h1, h2, if_true, Bool.false_eq_true, if_false] at hs
            unfold includedFileOf at hr
            cases hrec : recur (getShaderFileName self (getHeaderName self (stripCR raw)))
                st.prependContent with
            | none => rw [hrec] at hr; simp at hr
            | some p => rw [hrec] at hs; simp at hs
          · simp only [h0, h1, h2, Bool.false_eq_true, if_false] at hs
            simp at hs

theorem loadHeaderFileString_isSome (fs : FileSystem) (self : ShaderManagerGL)
    (rank : Str → Nat) (hd : IncludesDescend fs self rank) (fuel : Nat) :
    ∀ name pre, (∀ content, openFile fs name = some content → rank name < fuel) →
      (loadHeaderFileString fs self fuel name pre).isSome = true := by
  induction fuel with
  | zero =>
    intro name pre hr
    rw [loadHeaderFileString]
    cases ho : openFile fs name with
    | none => rfl
    | some content => exact absurd (hr content ho) (Nat.not_lt_zero _)
  | succ n ih =>
    intro name pre hr
    rw [loadHeaderFileString]
    cases ho : openFile fs name with
    | none => rfl
    | some content =>
      simp only []
      have hl := headerLoop_isSome self (loadHeaderFileString fs self n) (getlines content)
        { fileContent := "#line 1\n".data, prependContent := pre, lineNum := 1 }
        (fun raw hm hi pre' => ih (includedFileOf self raw) pre'
          (fun c' hc' => by
            have h1 := hd name content ho raw hm hi c' hc'
            have h2 := hr content ho
            omega))
      cases hh : headerLoop self (loadHeaderFileString fs self n) (getlines content)
          { fileContent := "#line 1\n".data, prependContent := pre, lineNum := 1 } with
      | none => rw [hh] at hl; simp at hl
      | some st => rfl

theorem getShaderString_isSome (fs : FileSystem) (self : ShaderManagerGL)
    (rank : Str → Nat) (hd : IncludesDescend fs self rank) (id : Str) (fuel : Nat)
    (hfuel : rank (getShaderFileName self (pureFilenameOf id ++ ".glsl".data)) ≤ fuel) :
    ∃ r self', getShaderString fuel fs self id = some (r, self') := by
  cases hf : self.effectSources.find id with
  | some text => exact ⟨text, self, getShaderString_hit fuel fs self id text hf⟩
  | none =>
    rw [getShaderString_miss fuel fs self id hf]
    have hl := effectLoop_isSome self (loadHeaderFileString fs self fuel) (pureFilenameOf id)
      (effectLinesOf fs self id) (effectInit self.effectSources)
      (by
        intro raw hm hi pre
        apply loadHeaderFileString_isSome fs self rank hd
        intro c' hc'
        unfold effectLinesOf effectLines at hm
        cases ho : openFile fs (getShaderFileName self (pureFilenameOf id ++ ".glsl".data)) with
        | none => rw [ho] at hm; simp at hm
        | some content =>
          rw [ho] at hm
          have := hd _ content ho raw hm hi c' hc'
          omega)
    cases hh : effectLoop self (loadHeaderFileString fs self fuel) (pureFilenameOf id)
        (effectLinesOf fs self id) (effectInit self.effectSources) with
    | none => rw [hh] at hl; simp at hl
    | some st => exact ⟨_, _, rfl⟩

/-! ## Acyclic sample -/

theorem includesDescend_of_check (files : List (Str × Str)) (self : ShaderManagerGL)
    (rank : Str → Nat) (h : descendCheck files self rank = true) :
    IncludesDescend (fsOfList files) self rank := by
  intro p content ho raw hm hi content' ho'
  have hmem : (p, content) ∈ files := by
    unfold openFile at ho
    by_cases hp : p = []
    · simp [hp] at ho
    · simp only [hp, if_false] at ho
      exact findEntries_some_mem p content files ho
  unfold descendCheck at h
  rw [List.all_eq_true] at h
  have h1 := h (p, content) hmem
  rw [List.all_eq_true] at h1
  have h2 := h1 raw hm
  simp only [hi, ho', Bool.not_true, Bool.false_or, Option.isNone_some, decide_eq_true_eq] at h2
  exact h2

theorem sample_descends : IncludesDescend sampleFs sampleManager sampleRank :=
  includesDescend_of_check sampleFiles sampleManager sampleRank (by decide)

/-! ## Reading the effect file -/

theorem getShaderFileName_of_find (self : ShaderManagerGL) (name path : Str)
    (h : self.shaderFileMap.find name = some path) : getShaderFileName self name = path := by
  unfold getShaderFileName
  rw [h]

theorem effectLinesOf_of_read (fs : FileSystem) (self : ShaderManagerGL) (id path content : Str)
    (hindex : self.shaderFileMap.find (pureFilenameOf id ++ ".glsl".data) = some path)
    (hread : openFile fs path = some content) :
    effectLinesOf fs self id = getlines content := by
  unfold effectLinesOf effectLines
  rw [getShaderFileName_of_find self _ path hindex, hread]

theorem getShaderString_miss_some (fuel : Nat) (fs : FileSystem) (self self' : ShaderManagerGL)
    (id r : Str) (hmiss : self.effectSources.find id = none)
    (h : getShaderString fuel fs self id = some (r, self')) :
    ∃ st, effectLoop self (loadHeaderFileString fs self fuel) (pureFilenameOf id)
        (effectLinesOf fs self id) (effectInit self.effectSources) = some st
      ∧ r = (findEntries id (inserted fs self fuel id st)).getD []
      ∧ self'.effectSources = insertAll (inserted fs self fuel id st) self.effectSources
      ∧ self' = { self with
          effectSources := insertAll (inserted fs self fuel id st) self.effectSources } := by
  rw [getShaderString_miss fuel fs self id hmiss] at h
  cases hl : effectLoop self (loadHeaderFileString fs self fuel) (pureFilenameOf id)
      (effectLinesOf fs self id) (effectInit self.effectSources) with
  | none => rw [hl] at h; simp at h
  | some st =>
    rw [hl] at h
    simp only [Option.map_some', Option.some.injEq, Prod.mk.injEq] at h
    refine ⟨st, rfl, ?_, ?_, h.2.symm⟩
    · rw [← h.1, find_insertAll_of_none _ _ _ hmiss]
    · rw [← h.2]

theorem marker_mem_markerKeys (base name : Str) (lines : List Str)
    (h : ("-- ".data ++ name) ∈ lines.map stripCR) :
    (base ++ ".".data ++ name) ∈ markerKeys base lines := by
  obtain ⟨raw, hraw, hs⟩ := List.mem_map.mp h
  unfold markerKeys
  refine List.mem_map.mpr ⟨raw, List.mem_filter.mpr ⟨hraw, ?_⟩, ?_⟩
  · unfold isMarker startsWith
    rw [hs]
    simp
  · unfold markerKey substr
    rw [hs]
    simp

theorem markerKeys_subset_sectionKeys (base k : Str) (lines : List Str)
    (h : k ∈ markerKeys base lines) : k ∈ sectionKeys base lines := by
  unfold sectionKeys
  by_cases he : markerKeys base lines = []
  · rw [he] at h; simp at h
  · rw [if_neg he]; exact h

/-! ## The define block -/

theorem foldl_defineLine (l : List (Str × Str)) (acc : Str) :
    l.foldl (fun preprocessorStatements it =>
        preprocessorStatements ++ ("#define ".data ++ it.1 ++ " ".data ++ it.2 ++ "\n".data))
      acc = acc ++ (l.map defineLine).flatten := by
  induction l generalizing acc with
  | nil => simp
  | cons kv r ih =>
    rw [List.foldl_cons, ih]
    simp [defineLine, List.append_assoc]

/-! ## Files without marker line -/

theorem startsWith_prefix_of_le (l p q : Str) (hp : startsWith l p = true)
    (hq : startsWith l q = true) (hle : p.length ≤ q.length) : startsWith q p = true := by
  unfold startsWith at *
  rw [List.isPrefixOf_iff_prefix] at *
  exact List.prefix_of_prefix_length_le hp hq hle

theorem include_not_directive (l : Str) (h : startsWith l "#include".data = true) :
    (startsWith l "#version".data || startsWith l "#extension".data) = false := by
  cases h1 : startsWith l "#version".data with
  | true =>
    exact absurd (startsWith_prefix_of_le l _ _ h h1 (by decide)) (by decide)
  | false =>
    cases h2 : startsWith l "#extension".data with
    | true =>
      exact absurd (startsWith_prefix_of_le l _ _ h h2 (by decide)) (by decide)
    | false => rfl

theorem effectStep_eq_headerStep (self : ShaderManagerGL)
    (recur : Str → Str → Option (Str × Str)) (base raw : Str) (st : EffectState)
    (hm : isMarker raw = false) :
    effectStep self recur base raw st
      = (headerStep self recur raw (toHeader st)).map (ofHeader st) := by
  have hm' : startsWith (stripCR raw) "-- ".data = false := hm
  unfold effectStep headerStep
  by_cases h1 : startsWith (stripCR raw) "#include".data = true
  · have h2 := include_not_directive _ h1
    have h3 : (startsWith (stripCR raw) "#extension".data
        || startsWith (stripCR raw) "#version".data) = false := by
      rw [Bool.or_comm]; exact h2
    simp only [hm', h1, h2, if_true, Bool.false_eq_true, if_false, toHeader]
    cases recur (getShaderFileName self (getHeaderName self (stripCR raw)))
        st.prependContent <;> rfl
  · by_cases h2 : (startsWith (stripCR raw) "#version".data
        || startsWith (stripCR raw) "#extension".data) = true
    · have h3 : (startsWith (stripCR raw) "#extension".data
          || startsWith (stripCR raw) "#version".data) = true := by
        rw [Bool.or_comm]; exact h2
      simp only [hm', h1, h2, h3, if_true, Bool.false_eq_true, if_false]
      rfl
    · have h3 : ¬ (startsWith (stripCR raw) "#extension".data
          || startsWith (stripCR raw) "#version".data) = true := by
        rw [Bool.or_comm]; exact h2
      simp only [hm', h1, h2, h3, Bool.false_eq_true, if_false]
      rfl

theorem effectLoop_eq_headerLoop (self : ShaderManagerGL)
    (recur : Str → Str → Option (Str × Str)) (base : Str) (lines : List Str)
    (st : EffectState) (hm : ∀ raw ∈ lines, isMarker raw = false) :
    effectLoop self recur base lines st
      = (headerLoop self recur lines (toHeader st)).map (ofHeader st) := by
  induction lines generalizing st with
  | nil => rfl
  | cons raw rest ih =>
    simp only [effectLoop, headerLoop,
      effectStep_eq_headerStep self recur base raw st (hm raw (List.mem_cons_self _ _))]
    cases headerStep self recur raw (toHeader st) with
    | none => rfl
    | some h1 =>
      simp only [Option.map_some']
      rw [ih (ofHeader st h1) (fun raw' hr => hm raw' (List.mem_cons_of_mem _ hr))]
      rfl

theorem flushes_eq_nil (self : ShaderManagerGL) (recur : Str → Str → Option (Str × Str))
    (base : Str) (lines : List Str) (st : EffectState)
    (hm : ∀ raw ∈ lines, isMarker raw = false) :
    flushes self recur base lines st = [] := by
  induction lines generalizing st with
  | nil => rfl
  | cons raw rest ih =>
    simp only [flushes]
    cases effectStep self recur base raw st with
    | none => rfl
    | some st1 =>
      simp only []
      rw [ih st1 (fun raw' hr => hm raw' (List.mem_cons_of_mem _ hr))]
      have h0 : startsWith (stripCR raw) "-- ".data = false := hm raw (List.mem_cons_self _ _)
      simp [flushOf, h0]

theorem unnamed_section_inserted (fs : FileSystem) (self : ShaderManagerGL) (fuel : Nat)
    (id path content : Str) (st : EffectState)
    (hindex : self.shaderFileMap.find (pureFilenameOf id ++ ".glsl".data) = some path)
    (hread : openFile fs path = some content)
    (hnomarker : ∀ raw ∈ getlines content, startsWith (stripCR raw) "-- ".data = false)
    (hl : effectLoop self (loadHeaderFileString fs self fuel) (pureFilenameOf id)
        (effectLinesOf fs self id) (effectInit self.effectSources) = some st) :
    loadHeaderFileString fs self (fuel + 1) path [] = some (st.shaderContent, st.prependContent)
      ∧ inserted fs self fuel id st
        = [(pureFilenameOf id ++ ".glsl".data, st.prependContent ++ st.shaderContent)] := by
  have hlines := effectLinesOf_of_read fs self id path content hindex hread
  have hm : ∀ raw ∈ getlines content, isMarker raw = false := hnomarker
  rw [hlines, effectLoop_eq_headerLoop _ _ _ _ _ hm] at hl
  constructor
  · rw [loadHeaderFileString, hread]
    simp only []
    have hinit : toHeader (effectInit self.effectSources)
        = { fileContent := "#line 1\n".data, prependContent := [], lineNum := 1 } := rfl
    rw [hinit] at hl
    cases hh : headerLoop self (loadHeaderFileString fs self fuel) (getlines content)
        { fileContent := "#line 1\n".data, prependContent := [], lineNum := 1 } with
    | none => rw [hh] at hl; simp at hl
    | some h1 =>
      rw [hh] at hl
      simp only [Option.map_some', Option.some.injEq] at hl
      rw [← hl]
      rfl
  · unfold inserted
    rw [hlines, flushes_eq_nil _ _ _ _ _ hm]
    have hname : st.shaderName = [] := by
      cases hh : headerLoop self (loadHeaderFileString fs self fuel) (getlines content)
          (toHeader (effectInit self.effectSources)) with
      | none => rw [hh] at hl; simp at hl
      | some h1 =>
        rw [hh] at hl
        simp only [Option.map_some', Option.some.injEq] at hl
        rw [← hl]
        rfl
    simp [finalKey, hname]

/-! ## The define block in a section text -/

theorem isPreamble_nil : IsPreamble [] := ⟨[], by simp, rfl⟩

theorem isPreamble_snoc (p l : Str) (hp : IsPreamble p) (hl : isDirective l = true) :
    IsPreamble (p ++ (l ++ "\n".data)) := by
  obtain ⟨ls, h1, h2⟩ := hp
  refine ⟨ls ++ [l], ?_, ?_⟩
  · intro x hx
    rcases List.mem_append.mp hx with hx | hx
    · exact h1 x hx
    · rw [List.mem_singleton.mp hx]; exact hl
  · rw [h2]; simp

theorem hasDefines_append (self : ShaderManagerGL) (c more : Str) (h : HasDefines self c) :
    HasDefines self (c ++ more) := by
  obtain ⟨n, rest, h1⟩ := h
  exact ⟨n, rest ++ more, by rw [h1]; simp only [List.append_assoc]⟩

theorem headerStep_preamble (self : ShaderManagerGL) (recur : Str → Str → Option (Str × Str))
    (hrec : KeepsPreamble recur) (raw : Str) (st st' : HeaderState)
    (h : headerStep self recur raw st = some st') (hp : IsPreamble st.prependContent) :
    IsPreamble st'.prependContent := by
  unfold headerStep at h
  by_cases h1 : startsWith (stripCR raw) "#include".data = true
  · simp only [h1, if_true] at h
    cases hr : recur (getShaderFileName self (getHeaderName self (stripCR raw)))
        st.prependContent with
    | none => rw [hr] at h; simp at h
    | some p =>
      rw [hr] at h
      simp only [Option.some.injEq] at h
      rw [← h]
      exact hrec _ _ p hr hp
  · by_cases h2 : (startsWith (stripCR raw) "#extension".data
        || startsWith (stripCR raw) "#version".data) = true
    · simp only [h1, h2, if_true, Bool.false_eq_true, if_false, Option.some.injEq] at h
      rw [← h]
      exact isPreamble_snoc _ _ hp (by unfold isDirective; rw [Bool.or_comm]; exact h2)
    · simp only [h1, h2, Bool.false_eq_true, if_false, Option.some.injEq] at h
      rw [← h]
      exact hp

theorem headerLoop_preamble (self : ShaderManagerGL) (recur : Str → Str → Option (Str × Str))
    (hrec : KeepsPreamble recur) (lines : List Str) (st st' : HeaderState)
    (h : headerLoop self recur lines st = some st') (hp : IsPreamble st.prependContent) :
    IsPreamble st'.prependContent := by
  induction lines generalizing st with
  | nil =>
    simp only [headerLoop, Option.some.injEq] at h
    rw [← h]; exact hp
  | cons raw rest ih =>
    simp only [headerLoop] at h
    cases hs : headerStep self recur raw st with
    | none => rw [hs] at h; simp at h
    | some st1 =>
      rw [hs] at h
      exact ih st1 h (headerStep_preamble self recur hrec raw st st1 hs hp)

theorem loadHeaderFileString_preamble (fs : FileSystem) (self : ShaderManagerGL) (fuel : Nat) :
    KeepsPreamble (loadHeaderFileString fs self fuel) := by
  induction fuel with
  | zero =>
    intro name pre res h hp
    rw [loadHeaderFileString] at h
    cases ho : openFile fs name with
    | none =>
      rw [ho] at h
      simp only [Option.some.injEq] at h
      rw [← h]; exact hp
    | some content => rw [ho] at h; simp at h
  | succ n ih =>
    intro name pre res h hp
    rw [loadHeaderFileString] at h
    cases ho : openFile fs name with
    | none =>
      rw [ho] at h
      simp only [Option.some.injEq] at h
      rw [← h]; exact hp
    | some content =>
      rw [ho] at h
      simp only [] at h
      cases hh : headerLoop self (loadHeaderFileString fs self n) (getlines content)
          { fileContent := "#line 1\n".data, prependContent := pre, lineNum := 1 } with
      | none => rw [hh] at h; simp at h
      | some st =>
        rw [hh] at h
        simp only [Option.some.injEq] at h
        rw [← h]
        exact headerLoop_preamble self _ ih _ _ st hh hp

theorem effectStep_inv (self : ShaderManagerGL) (recur : Str → Str → Option (Str × Str))
    (hrec : KeepsPreamble recur) (base raw : Str) (st st' : EffectState)
    (h : effectStep self recur base raw st = some st') (hinv : SectionInv self st) :
    SectionInv self st' ∧ ∀ kv ∈ flushOf raw st, DefinesAfterPreamble self kv.2 := by
  obtain ⟨hp, hd⟩ := hinv
  have hflush : ∀ kv ∈ flushOf raw st, DefinesAfterPreamble self kv.2 := by
    intro kv hkv
    unfold flushOf at hkv
    split at hkv
    · rename_i hc
      rw [List.mem_singleton.mp hkv]
      obtain ⟨n, rest, hrest⟩ := hd hc.2.2
      refine ⟨st.prependContent, n, rest, hp, ?_⟩
      show st.prependContent ++ st.shaderContent = _
      rw [hrest]
      simp only [List.append_assoc]
    · simp at hkv
  refine ⟨?_, hflush⟩
  unfold effectStep at h
  by_cases h1 : startsWith (stripCR raw) "-- ".data = true
  · simp only [h1, if_true, Option.some.injEq] at h
    rw [← h]
    exact ⟨isPreamble_nil, fun _ => ⟨st.lineNum + 1, [], by simp⟩⟩
  · by_cases h2 : (startsWith (stripCR raw) "#version".data
        || startsWith (stripCR raw) "#extension".data) = true
    · simp only [h1, h2, if_true, Bool.false_eq_true, if_false, Option.some.injEq] at h
      rw [← h]
      refine ⟨isPreamble_snoc _ _ hp h2, fun hn => ?_⟩
      have := hd hn
      obtain ⟨n, rest, hrest⟩ := this
      exact ⟨n, rest ++ ("#line ".data ++ toString (st.lineNum + 1) ++ "\n".data), by
        show st.shaderContent ++ "#line ".data ++ toString (st.lineNum + 1) ++ "\n".data = _
        rw [hrest]; simp only [List.append_assoc]⟩
    · by_cases h3 : startsWith (stripCR raw) "#include".data = true
      · simp only [h1, h2, h3, if_true, Bool.false_eq_true, if_false] at h
        cases hr : recur (getShaderFileName self (getHeaderName self (stripCR raw)))
            st.prependContent with
        | none => rw [hr] at h; simp at h
        | some p =>
          rw [hr] at h
          simp only [Option.some.injEq] at h
          rw [← h]
          refine ⟨hrec _ _ p hr hp, fun hn => ?_⟩
          have h4 := hasDefines_append self _ (p.1 ++ "\n".data) (hd hn)
          exact hasDefines_append self _
            ("#line ".data ++ toString (st.lineNum + 1) ++ "\n".data) h4
      · simp only [h1, h2, h3, Bool.false_eq_true, if_false, Option.some.injEq] at h
        rw [← h]
        exact ⟨hp, fun hn => hasDefines_append self _ _ (hd hn)⟩

theorem effectLoop_inv (self : ShaderManagerGL) (recur : Str → Str → Option (Str × Str))
    (hrec : KeepsPreamble recur) (base : Str) (lines : List Str) (st st' : EffectState)
    (h : effectLoop self recur base lines st = some st') (hinv : SectionInv self st) :
    SectionInv self st'
      ∧ ∀ kv ∈ flushes self recur base lines st, DefinesAfterPreamble self kv.2 := by
  induction lines generalizing st with
  | nil =>
    simp only [effectLoop, Option.some.injEq] at h
    rw [← h]
    exact ⟨hinv, by simp [flushes]⟩
  | cons raw rest ih =>
    simp only [effectLoop] at h
    cases hs : effectStep self recur base raw st with
    | none => rw [hs] at h; simp at h
    | some st1 =>
      rw [hs] at h
      obtain ⟨hinv1, hf1⟩ := effectStep_inv self recur hrec base raw st st1 hs hinv
      obtain ⟨hinv', hf⟩ := ih st1 h hinv1
      refine ⟨hinv', ?_⟩
      intro kv hkv
      simp only [flushes, hs] at hkv
      rcases List.mem_append.mp hkv with hk | hk
      · exact hf1 kv hk
      · exact hf kv hk

theorem inserted_definesAfterPreamble (fs : FileSystem) (self : ShaderManagerGL) (fuel : Nat)
    (id : Str) (st : EffectState)
    (hl : effectLoop self (loadHeaderFileString fs self fuel) (pureFilenameOf id)
        (effectLinesOf fs self id) (effectInit self.effectSources) = some st)
    (hmarker : ∃ raw ∈ effectLinesOf fs self id, isMarker raw = true) :
    ∀ kv ∈ inserted fs self fuel id st, DefinesAfterPreamble self kv.2 := by
  have hinv0 : SectionInv self (effectInit self.effectSources) :=
    ⟨isPreamble_nil, fun hn => absurd hn (by simp [effectInit])⟩
  obtain ⟨⟨hp, hd⟩, hf⟩ := effectLoop_inv self _ (loadHeaderFileString_preamble fs self fuel)
    _ _ _ st hl hinv0
  have hc : (effectInit self.effectSources).shaderContent.length > 0 := by
    simp [effectInit]
  obtain ⟨_, _, h3, _⟩ := effectLoop_keys _ _ _ _ _ _ hl hc
  have hname : st.shaderName.length > 0 := by
    by_contra hz
    have hnil := h3 (by omega)
    obtain ⟨raw, hraw, hm⟩ := hmarker
    have : markerKey (pureFilenameOf id) raw ∈ markerKeys (pureFilenameOf id)
        (effectLinesOf fs self id) :=
      List.mem_map.mpr ⟨raw, List.mem_filter.mpr ⟨hraw, hm⟩, rfl⟩
    rw [hnil] at this
    simp at this
  intro kv hkv
  unfold inserted at hkv
  rcases List.mem_append.mp hkv with hk | hk
  · exact hf kv hk
  · rw [List.mem_singleton.mp hk]
    obtain ⟨n, rest, hrest⟩ := hd hname
    refine ⟨st.prependContent, n, rest, hp, ?_⟩
    show st.prependContent ++ st.shaderContent = _
    rw [hrest]
    simp only [List.append_assoc]

/-! ## More fuel does not change a result -/

theorem headerStep_extends (self : ShaderManagerGL)
    (recur recur' : Str → Str → Option (Str × Str)) (he : Extends recur recur')
    (raw : Str) (st st' : HeaderState) (h : headerStep self recur raw st = some st') :
    headerStep self recur' raw st = some st' := by
  unfold headerStep at h ⊢
  by_cases h1 : startsWith (stripCR raw) "#include".data = true
  · simp only [h1, if_true] at h ⊢
    cases hr : recur (getShaderFileName self (getHeaderName self (stripCR raw)))
        st.prependContent with
    | none => rw [hr] at h; simp at h
    | some p =>
      rw [hr] at h
      rw [he _ _ p hr]
      exact h
  · simp only [h1, Bool.false_eq_true, if_false] at h ⊢
    exact h

theorem headerLoop_extends (self : ShaderManagerGL)
    (recur recur' : Str → Str → Option (Str × Str)) (he : Extends recur recur')
    (lines : List Str) (st st' : HeaderState) (h : headerLoop self recur lines st = some st') :
    headerLoop self recur' lines st = some st' := by
  induction lines generalizing st with
  | nil => exact h
  | cons raw rest ih =>
    simp only [headerLoop] at h ⊢
    cases hs : headerStep self recur raw st with
    | none => rw [hs] at h; simp at h
    | some st1 =>
      rw [hs] at h
      rw [headerStep_extends self recur recur' he raw st st1 hs]
      exact ih st1 h

theorem loadHeaderFileString_succ (fs : FileSystem) (self : ShaderManagerGL) (fuel : Nat) :
    Extends (loadHeaderFileString fs self fuel) (loadHeaderFileString fs self (fuel + 1)) := by
  induction fuel with
  | zero =>
    intro name pre res h
    rw [loadHeaderFileString] at h ⊢
    cases ho : openFile fs name with
    | none => rw [ho] at h; exact h
    | some content => rw [ho] at h; simp at h
  | succ n ih =>
    intro name pre res h
    rw [loadHeaderFileString] at h ⊢
    cases ho : openFile fs name with
    | none => rw [ho] at h; exact h
    | some content =>
      rw [ho] at h
      simp only [] at h ⊢
      cases hh : headerLoop self (loadHeaderFileString fs self n) (getlines content)
          { fileContent := "#line 1\n".data, prependContent := pre, lineNum := 1 } with
      | none => rw [hh] at h; simp at h
      | some st =>
        rw [hh] at h
        rw [headerLoop_extends self _ _ ih _ _ st hh]
        exact h

theorem loadHeaderFileString_mono (fs : FileSystem) (self : ShaderManagerGL)
    (fuel fuel' : Nat) (hle : fuel ≤ fuel') :
    Extends (loadHeaderFileString fs self fuel) (loadHeaderFileString fs self fuel') := by
  induction fuel' with
  | zero =>
    have : fuel = 0 := by omega
    subst this
    exact fun _ _ _ h => h
  | succ n ih =>
    by_cases heq : fuel = n + 1
    · subst heq
      exact fun _ _ _ h => h
    · exact fun name pre res h =>
        loadHeaderFileString_succ fs self n name pre res (ih (by omega) name pre res h)

theorem effectStep_extends (self : ShaderManagerGL)
    (recur recur' : Str → Str → Option (Str × Str)) (he : Extends recur recur')
    (base raw : Str) (st st' : EffectState)
    (h : effectStep self recur base raw st = some st') :
    effectStep self recur' base raw st = some st' := by
  unfold effectStep at h ⊢
  by_cases h0 : startsWith (stripCR raw) "-- ".data = true
  · simp only [h0, if_true] at h ⊢
    exact h
  · by_cases h2 : (startsWith (stripCR raw) "#version".data
        || startsWith (stripCR raw) "#extension".data) = true
    · simp only [h0, h2, if_true, Bool.false_eq_true, if_false] at h ⊢
      exact h
    · by_cases h1 : startsWith (stripCR raw) "#include".data = true
      · simp only [h0, h1, h2, if_true, Bool.false_eq_true, if_false] at h ⊢
        cases hr : recur (getShaderFileName self (getHeaderName self (stripCR raw)))
            st.prependContent with
        | none => rw [hr] at h; simp at h
        | some p =>
          rw [hr] at h
          rw [he _ _ p hr]
          exact h
      · simp only [h0, h1, h2, Bool.false_eq_true, if_false] at h ⊢
        exact h

theorem effectLoop_extends (self : ShaderManagerGL)
    (recur recur' : Str → Str → Option (Str × Str)) (he : Extends recur recur')
    (base : Str) (lines : List Str) (st st' : EffectState)
    (h : effectLoop self recur base lines st = some st') :
    effectLoop self recur' base lines st = some st' := by
  induction lines generalizing st with
  | nil => exact h
  | cons raw rest ih =>
    simp only [effectLoop] at h ⊢
    cases hs : effectStep self recur base raw st with
    | none => rw [hs] at h; simp at h
    | some st1 =>
      rw [hs] at h
      rw [effectStep_extends self recur recur' he base raw st st1 hs]
      exact ih st1 h

theorem getShaderString_mono (fs : FileSystem) (self : ShaderManagerGL) (id : Str)
    (fuel fuel' : Nat) (hle : fuel ≤ fuel') (res : Str × ShaderManagerGL)
    (h : getShaderString fuel fs self id = some res) :
    getShaderString fuel' fs self id = some res := by
  unfold getShaderString at h ⊢
  cases hf : self.effectSources.find id with
  | some text => rw [hf] at h; exact h
  | none =>
    rw [hf] at h
    simp only [] at h ⊢
    cases hl : effectLoop self (loadHeaderFileString fs self fuel)
        (substr id 0 (findChar '.' id))
        (effectLines fs (getShaderFileName self (substr id 0 (findChar '.' id) ++ ".glsl".data)))
        (effectInit self.effectSources) with
    | none => rw [hl] at h; simp at h
    | some st =>
      rw [hl] at h
      rw [effectLoop_extends self _ _ (loadHeaderFileString_mono fs self fuel fuel' hle)
        _ _ _ st hl]
      exact h

/-! ## Preamble and body of an expansion -/

theorem flatLines_append (a b : List Str) : flatLines (a ++ b) = flatLines a ++ flatLines b := by
  simp [flatLines]

theorem headerStep_splits (self : ShaderManagerGL) (recur : Str → Str → Option (Str × Str))
    (recurB : Str → Str) (recurH : Str → List Str) (hs : Splits recur recurB recurH)
    (raw : Str) (st st' : HeaderState) (h : headerStep self recur raw st = some st') :
    st'.fileContent = st.fileContent ++ bodyLines self recurB st.lineNum [raw]
      ∧ st'.prependContent = st.prependContent ++ flatLines (hoistedLines self recurH [raw])
      ∧ st'.lineNum = st.lineNum + 1 := by
  unfold headerStep at h
  by_cases h1 : startsWith (stripCR raw) "#include".data = true
  · simp only [h1, if_true] at h
    cases hr : recur (getShaderFileName self (getHeaderName self (stripCR raw)))
        st.prependContent with
    | none => rw [hr] at h; simp at h
    | some p =>
      rw [hr] at h
      simp only [Option.some.injEq] at h
      have hp := hs _ _ p hr
      rw [← h, hp]
      refine ⟨?_, ?_, rfl⟩
      · simp only [bodyLines, h1, if_true, includedFileOf, List.append_nil, List.append_assoc]
      · simp only [hoistedLines, h1, if_true, includedFileOf, List.append_nil]
  · by_cases h2 : (startsWith (stripCR raw) "#extension".data
        || startsWith (stripCR raw) "#version".data) = true
    · have h3 : isDirective (stripCR raw) = true := by
        unfold isDirective; rw [Bool.or_comm]; exact h2
      simp only [h1, h2, if_true, Bool.false_eq_true, if_false, Option.some.injEq] at h
      rw [← h]
      refine ⟨?_, ?_, rfl⟩
      · simp only [bodyLines, h1, h3, if_true, Bool.false_eq_true, if_false, List.append_nil,
          List.append_assoc]
      · simp [hoistedLines, h1, h3, flatLines]
    · have h3 : isDirective (stripCR raw) = false := by
        unfold isDirective; rw [Bool.or_comm]; simpa using h2
      simp only [h1, h2, Bool.false_eq_true, if_false, Option.some.injEq] at h
      rw [← h]
      refine ⟨?_, ?_, rfl⟩
      · simp only [bodyLines, h1, h3, Bool.false_eq_true, if_false, List.append_nil]
      · simp [hoistedLines, h1, h3, flatLines]

theorem bodyLines_append (self : ShaderManagerGL) (recurB : Str → Str) (n : Nat)
    (a b : List Str) :
    bodyLines self recurB n (a ++ b)
      = bodyLines self recurB n a ++ bodyLines self recurB (n + a.length) b := by
  induction a generalizing n with
  | nil => simp [bodyLines]
  | cons raw rest ih =>
    show bodyLines self recurB n (raw :: (rest ++ b)) = _
    have hn : n + 1 + rest.length = n + (raw :: rest).length := by
      rw [List.length_cons]; omega
    rw [bodyLines, bodyLines, ih (n + 1), hn]
    simp only [List.append_assoc]

theorem hoistedLines_append (self : ShaderManagerGL) (recurH : Str → List Str)
    (a b : List Str) :
    hoistedLines self recurH (a ++ b)
      = hoistedLines self recurH a ++ hoistedLines self recurH b := by
  induction a with
  | nil => simp [hoistedLines]
  | cons raw rest ih =>
    show hoistedLines self recurH (raw :: (rest ++ b)) = _
    rw [hoistedLines, hoistedLines, ih]
    simp only [List.append_assoc]

theorem headerLoop_splits (self : ShaderManagerGL) (recur : Str → Str → Option (Str × Str))
    (recurB : Str → Str) (recurH : Str → List Str) (hs : Splits recur recurB recurH)
    (lines : List Str) (st st' : HeaderState) (h : headerLoop self recur lines st = some st') :
    st'.fileContent = st.fileContent ++ bodyLines self recurB st.lineNum lines
      ∧ st'.prependContent = st.prependContent ++ flatLines (hoistedLines self recurH lines)
      ∧ st'.lineNum = st.lineNum + lines.length := by
  induction lines generalizing st with
  | nil =>
    simp only [headerLoop, Option.some.injEq] at h
    rw [← h]
    simp [bodyLines, hoistedLines, flatLines]
  | cons raw rest ih =>
    simp only [headerLoop] at h
    cases hst : headerStep self recur raw st with
    | none => rw [hst] at h; simp at h
    | some st1 =>
      rw [hst] at h
      obtain ⟨a1, a2, a3⟩ := headerStep_splits self recur recurB recurH hs raw st st1 hst
      obtain ⟨b1, b2, b3⟩ := ih st1 h
      refine ⟨?_, ?_, ?_⟩
      · rw [b1, a1, a3]
        have := bodyLines_append self recurB st.lineNum [raw] rest
        simp only [List.singleton_append, List.length_singleton] at this
        rw [this, List.append_assoc]
      · rw [b2, a2]
        have := hoistedLines_append self recurH [raw] rest
        simp only [List.singleton_append] at this
        rw [this, flatLines_append, List.append_assoc]
      · rw [b3, a3, List.length_cons]; omega

theorem loadHeaderFileString_splits (fs : FileSystem) (self : ShaderManagerGL) (fuel : Nat) :
    Splits (loadHeaderFileString fs self fuel) (bodyOfFile fs self fuel)
      (hoistedOfFile fs self fuel) := by
  induction fuel with
  | zero =>
    intro name pre res h
    rw [loadHeaderFileString] at h
    rw [bodyOfFile, hoistedOfFile]
    cases ho : openFile fs name with
    | none =>
      rw [ho] at h
      simp only [Option.some.injEq] at h
      rw [← h]
      simp [flatLines]
    | some content => rw [ho] at h; simp at h
  | succ n ih =>
    intro name pre res h
    rw [loadHeaderFileString] at h
    rw [bodyOfFile, hoistedOfFile]
    cases ho : openFile fs name with
    | none =>
      rw [ho] at h
      simp only [Option.some.injEq] at h
      rw [← h]
      simp [flatLines]
    | some content =>
      rw [ho] at h
      simp only [] at h ⊢
      cases hh : headerLoop self (loadHeaderFileString fs self n) (getlines content)
          { fileContent := "#line 1\n".data, prependContent := pre, lineNum := 1 } with
      | none => rw [hh] at h; simp at h
      | some st =>
        rw [hh] at h
        simp only [Option.some.injEq] at h
        obtain ⟨a1, a2, _⟩ := headerLoop_splits self _ _ _ ih _ _ st hh
        rw [← h, a1, a2]

/-! ## The sections of an effect file -/

theorem effectLoop_append (self : ShaderManagerGL) (recur : Str → Str → Option (Str × Str))
    (base : Str) (a b : List Str) (st : EffectState) :
    effectLoop self recur base (a ++ b) st
      = (effectLoop self recur base a st).bind (effectLoop self recur base b) := by
  induction a generalizing st with
  | nil => rfl
  | cons raw rest ih =>
    show effectLoop self recur base (raw :: (rest ++ b)) st = _
    rw [effectLoop, effectLoop]
    cases effectStep self recur base raw st with
    | none => rfl
    | some st1 => exact ih st1

theorem flushes_append (self : ShaderManagerGL) (recur : Str → Str → Option (Str × Str))
    (base : Str) (a b : List Str) (st st1 : EffectState)
    (h : effectLoop self recur base a st = some st1) :
    flushes self recur base (a ++ b) st
      = flushes self recur base a st ++ flushes self recur base b st1 := by
  induction a generalizing st with
  | nil =>
    simp only [effectLoop, Option.some.injEq] at h
    rw [h]; rfl
  | cons raw rest ih =>
    show flushes self recur base (raw :: (rest ++ b)) st = _
    rw [effectLoop] at h
    rw [flushes, flushes]
    cases hs : effectStep self recur base raw st with
    | none => rw [hs] at h; simp at h
    | some st0 =>
      rw [hs] at h
      simp only []
      rw [ih st0 h, List.append_assoc]

theorem effectLoop_region (self : ShaderManagerGL) (recur : Str → Str → Option (Str × Str))
    (recurB : Str → Str) (recurH : Str → List Str) (hs : Splits recur recurB recurH)
    (base : Str) (region : List Str) (st st' : EffectState)
    (hm : ∀ raw ∈ region, isMarker raw = false)
    (h : effectLoop self recur base region st = some st') :
    st' = { st with
        shaderContent := st.shaderContent ++ bodyLines self recurB st.lineNum region
        prependContent := st.prependContent ++ flatLines (hoistedLines self recurH region)
        lineNum := st.lineNum + region.length } := by
  rw [effectLoop_eq_headerLoop self recur base region st hm] at h
  cases hh : headerLoop self recur region (toHeader st) with
  | none => rw [hh] at h; simp at h
  | some hst =>
    rw [hh] at h
    simp only [Option.map_some', Option.some.injEq] at h
    obtain ⟨a1, a2, a3⟩ := headerLoop_splits self recur recurB recurH hs region _ hst hh
    rw [← h]
    unfold ofHeader
    rw [a1, a2, a3]
    rfl

theorem effectStep_lineNum (self : ShaderManagerGL)
    (recur : Str → Str → Option (Str × Str)) (base raw : Str) (st st' : EffectState)
    (h : effectStep self recur base raw st = some st') : st'.lineNum = st.lineNum + 1 := by
  unfold effectStep at h
  by_cases h1 : startsWith (stripCR raw) "-- ".data = true
  · simp only [h1, if_true, Option.some.injEq] at h
    rw [← h]
  · by_cases h2 : (startsWith (stripCR raw) "#version".data
        || startsWith (stripCR raw) "#extension".data) = true
    · simp only [h1, h2, if_true, Bool.false_eq_true, if_false, Option.some.injEq] at h
      rw [← h]
    · by_cases h3 : startsWith (stripCR raw) "#include".data = true
      · simp only [h1, h2, h3, if_true, Bool.false_eq_true, if_false] at h
        cases hr : recur (getShaderFileName self (getHeaderName self (stripCR raw)))
            st.prependContent with
        | none => rw [hr] at h; simp at h
        | some p =>
          rw [hr] at h
          simp only [Option.some.injEq] at h
          rw [← h]
      · simp only [h1, h2, h3, Bool.false_eq_true, if_false, Option.some.injEq] at h
        rw [← h]

theorem effectLoop_lineNum (self : ShaderManagerGL) (recur : Str → Str → Option (Str × Str))
    (base : Str) (lines : List Str) (st st' : EffectState)
    (h : effectLoop self recur base lines st = some st') :
    st'.lineNum = st.lineNum + lines.length := by
  induction lines generalizing st with
  | nil =>
    simp only [effectLoop, Option.some.injEq] at h
    rw [← h]; rfl
  | cons raw rest ih =>
    rw [effectLoop] at h
    cases hst : effectStep self recur base raw st with
    | none => rw [hst] at h; simp at h
    | some st1 =>
      rw [hst] at h
      rw [ih st1 h, effectStep_lineNum self recur base raw st st1 hst, List.length_cons]
      omega

theorem effectStep_marker (self : ShaderManagerGL) (recur : Str → Str → Option (Str × Str))
    (base raw : Str) (st st' : EffectState) (hm : isMarker raw = true)
    (h : effectStep self recur base raw st = some st') :
    st'.shaderName = markerKey base raw
      ∧ st'.shaderContent
        = getPreprocessorDefines self ++ "#line ".data ++ toString (st.lineNum + 1) ++ "\n".data
      ∧ st'.prependContent = []
      ∧ st'.lineNum = st.lineNum + 1 := by
  have h1 : startsWith (stripCR raw) "-- ".data = true := hm
  unfold effectStep at h
  simp only [h1, if_true, Option.some.injEq] at h
  rw [← h]
  exact ⟨rfl, rfl, rfl, rfl⟩

theorem flushOf_marker (raw : Str) (st : EffectState) (hm : isMarker raw = true)
    (hc : st.shaderContent.length > 0) (hn : st.shaderName.length > 0) :
    flushOf raw st = [(st.shaderName, st.prependContent ++ st.shaderContent)] := by
  have h1 : startsWith (stripCR raw) "-- ".data = true := hm
  unfold flushOf
  rw [if_pos ⟨h1, hc, hn⟩]

theorem inserted_section (fs : FileSystem) (self : ShaderManagerGL) (fuel : Nat) (id : Str)
    (st : EffectState) (before region after : List Str) (m : Str)
    (hl : effectLoop self (loadHeaderFileString fs self fuel) (pureFilenameOf id)
        (effectLinesOf fs self id) (effectInit self.effectSources) = some st)
    (hsplit : effectLinesOf fs self id = before ++ m :: (region ++ after))
    (hm : isMarker m = true) (hreg : ∀ raw ∈ region, isMarker raw = false)
    (hafter : after = [] ∨ ∃ m' rest, after = m' :: rest ∧ isMarker m' = true) :
    ∃ insBefore insAfter,
      inserted fs self fuel id st
          = insBefore
            ++ (markerKey (pureFilenameOf id) m,
                sectionText self (bodyOfFile fs self fuel) (hoistedOfFile fs self fuel)
                  (before.length + 1) region) :: insAfter
        ∧ insBefore.map Prod.fst = markerKeys (pureFilenameOf id) before := by
  have hs := loadHeaderFileString_splits fs self fuel
  unfold inserted
  rw [hsplit] at hl ⊢
  rw [effectLoop_append] at hl
  obtain ⟨st1, hl1, hl⟩ := Option.bind_eq_some.mp hl
  rw [flushes_append _ _ _ _ _ _ st1 hl1]
  rw [effectLoop] at hl
  rw [flushes]
  cases hst : effectStep self (loadHeaderFileString fs self fuel) (pureFilenameOf id) m st1 with
  | none => rw [hst] at hl; simp at hl
  | some st2 =>
    rw [hst] at hl
    simp only [] at hl ⊢
    rw [effectLoop_append] at hl
    obtain ⟨st3, hl3, hl⟩ := Option.bind_eq_some.mp hl
    rw [flushes_append _ _ _ _ _ _ st3 hl3, flushes_eq_nil _ _ _ _ _ hreg, List.nil_append]
    have hc0 : (effectInit self.effectSources).shaderContent.length > 0 := by
      simp [effectInit]
    obtain ⟨hk1, _, _, hc1⟩ := effectLoop_keys _ _ _ _ _ _ hl1 hc0
    obtain ⟨hn2, hcont2, hpre2, hln2⟩ := effectStep_marker _ _ _ _ _ _ hm hst
    have hln1 : st1.lineNum = 1 + before.length :=
      effectLoop_lineNum _ _ _ _ _ _ hl1
    have h3 := effectLoop_region self _ _ _ hs _ region st2 st3 hreg hl3
    have hname3 : st3.shaderName = markerKey (pureFilenameOf id) m := by rw [h3]; exact hn2
    have htext3 : st3.prependContent ++ st3.shaderContent
        = sectionText self (bodyOfFile fs self fuel) (hoistedOfFile fs self fuel)
            (before.length + 1) region := by
      rw [h3]
      simp only []
      rw [hpre2, hcont2, hln2, hln1]
      have : 1 + before.length + 1 = before.length + 1 + 1 := by omega
      rw [this]
      unfold sectionText
      simp only [List.nil_append, List.append_assoc]
    have hlen3 : st3.shaderName.length > 0 := by
      rw [hname3]; exact markerKey_length _ _
    have hc3 : st3.shaderContent.length > 0 := by
      rw [h3]
      simp only [List.length_append]
      have : st2.shaderContent.length > 0 := by
        rw [hcont2]; simp
      omega
    have hkeys : (flushes self (loadHeaderFileString fs self fuel) (pureFilenameOf id) before
          (effectInit self.effectSources) ++ flushOf m st1).map Prod.fst
        = markerKeys (pureFilenameOf id) before := by
      have hk2 := flushOf_keys _ _ _ _ _ _ hst hc1
      have hnl2 : nameList st2.shaderName = [markerKey (pureFilenameOf id) m] := by
        rw [hn2]; simp [nameList, markerKey_length]
      have hmk : markerKeys (pureFilenameOf id) [m] = [markerKey (pureFilenameOf id) m] := by
        simp [markerKeys, List.filter, hm]
      rw [hnl2, hmk] at hk2
      have hk2' := List.append_cancel_right hk2
      have hinit : nameList (effectInit self.effectSources).shaderName = [] := rfl
      rw [hinit, List.nil_append] at hk1
      rw [List.map_append, hk2', hk1]
    rcases hafter with hnil | ⟨m', rest, hcons, hm'⟩
    · subst hnil
      simp only [effectLoop, Option.some.injEq] at hl
      subst hl
      refine ⟨_, [], ?_, hkeys⟩
      simp only [flushes, List.append_nil, finalKey, hname3, htext3, List.append_assoc]
      rw [if_pos (markerKey_length _ _)]
    · subst hcons
      rw [effectLoop] at hl
      rw [flushes]
      cases hst4 : effectStep self (loadHeaderFileString fs self fuel) (pureFilenameOf id)
          m' st3 with
      | none => rw [hst4] at hl; simp at hl
      | some st4 =>
        simp only []
        rw [flushOf_marker m' st3 hm' hc3 hlen3, hname3, htext3]
        refine ⟨_, flushes self (loadHeaderFileString fs self fuel) (pureFilenameOf id) rest st4
          ++ [(finalKey (pureFilenameOf id) st, st.prependContent ++ st.shaderContent)],
          ?_, hkeys⟩
        simp only [List.append_assoc, List.singleton_append, List.cons_append, List.nil_append]

theorem findEntries_append_of_not_mem (k : Str) (a b : List (Str × Str))
    (h : k ∉ a.map Prod.fst) : findEntries k (a ++ b) = findEntries k b := by
  induction a with
  | nil => rfl
  | cons q r ih =>
    obtain ⟨k0, v0⟩ := q
    have hne : k0 ≠ k := fun he => h (by simp [he])
    have hr : k ∉ r.map Prod.fst := fun hm => h (by simp only [List.map_cons]; exact List.mem_cons_of_mem _ hm)
    show findEntries k ((k0, v0) :: (r ++ b)) = _
    rw [findEntries, if_neg hne]
    exact ih hr

theorem section_stored (fs : FileSystem) (self self' : ShaderManagerGL) (fuel : Nat)
    (id r : Str) (before region after : List Str) (m : Str)
    (hmiss : self.effectSources.find id = none)
    (h : getShaderString fuel fs self id = some (r, self'))
    (hsplit : effectLinesOf fs self id = before ++ m :: (region ++ after))
    (hm : isMarker m = true) (hreg : ∀ raw ∈ region, isMarker raw = false)
    (hafter : after = [] ∨ ∃ m' rest, after = m' :: rest ∧ isMarker m' = true)
    (hfirst : markerKey (pureFilenameOf id) m ∉ markerKeys (pureFilenameOf id) before)
    (hkey : self.effectSources.find (markerKey (pureFilenameOf id) m) = none) :
    self'.effectSources.find (markerKey (pureFilenameOf id) m)
      = some (sectionText self (bodyOfFile fs self fuel) (hoistedOfFile fs self fuel)
          (before.length + 1) region) := by
  obtain ⟨st, hl, _, hes, _⟩ := getShaderString_miss_some fuel fs self self' id r hmiss h
  obtain ⟨insBefore, insAfter, hins, hkeys⟩ :=
    inserted_section fs self fuel id st before region after m hl hsplit hm hreg hafter
  rw [hes, find_insertAll_of_none _ _ _ hkey, hins,
    findEntries_append_of_not_mem _ _ _ (by rw [hkeys]; exact hfirst)]
  simp [findEntries]

theorem returned_eq_find (fs : FileSystem) (self self' : ShaderManagerGL) (fuel : Nat)
    (id r : Str) (hmiss : self.effectSources.find id = none)
    (h : getShaderString fuel fs self id = some (r, self')) :
    r = (self'.effectSources.find id).getD [] := by
  obtain ⟨st, _, hr, hes, _⟩ := getShaderString_miss_some fuel fs self self' id r hmiss h
  rw [hes, find_insertAll_of_none _ _ _ hmiss, hr]

theorem unnamed_stored (fs : FileSystem) (self self' : ShaderManagerGL) (fuel : Nat)
    (id r path content : Str)
    (hmiss : self.effectSources.find id = none)
    (hindex : self.shaderFileMap.find (pureFilenameOf id ++ ".glsl".data) = some path)
    (hread : openFile fs path = some content)
    (hnomarker : ∀ raw ∈ getlines content, isMarker raw = false)
    (hkey : self.effectSources.find (pureFilenameOf id ++ ".glsl".data) = none)
    (h : getShaderString fuel fs self id = some (r, self')) :
    self'.effectSources.find (pureFilenameOf id ++ ".glsl".data)
      = some (flatLines (hoistedLines self (hoistedOfFile fs self fuel) (getlines content))
          ++ ("#line 1\n".data
            ++ bodyLines self (bodyOfFile fs self fuel) 1 (getlines content))) := by
  obtain ⟨st, hl, _, hes, _⟩ := getShaderString_miss_some fuel fs self self' id r hmiss h
  obtain ⟨hload, hins⟩ :=
    unnamed_section_inserted fs self fuel id path content st hindex hread hnomarker hl
  have hsp := loadHeaderFileString_splits fs self (fuel + 1) path [] _ hload
  rw [bodyOfFile, hoistedOfFile, hread] at hsp
  simp only [Prod.mk.injEq, List.nil_append] at hsp
  rw [hes, find_insertAll_of_none _ _ _ hkey, hins, hsp.1, hsp.2]
  simp [findEntries]

theorem hoistedLines_directive (self : ShaderManagerGL) (recurH : Str → List Str)
    (hrec : ∀ name, ∀ l ∈ recurH name, isDirective l = true) (lines : List Str) :
    ∀ l ∈ hoistedLines self recurH lines, isDirective l = true := by
  induction lines with
  | nil => intro l hl; simp [hoistedLines] at hl
  | cons raw rest ih =>
    intro l hl
    rw [hoistedLines] at hl
    rcases List.mem_append.mp hl with h1 | h1
    · split at h1
      · exact hrec _ l h1
      · split at h1
        · rename_i hd
          rw [List.mem_singleton.mp h1]; exact hd
        · simp at h1
    · exact ih l h1

theorem hoistedOfFile_directive (fs : FileSystem) (self : ShaderManagerGL) (fuel : Nat) :
    ∀ name, ∀ l ∈ hoistedOfFile fs self fuel name, isDirective l = true := by
  induction fuel with
  | zero =>
    intro name l hl
    rw [hoistedOfFile] at hl
    cases ho : openFile fs name with
    | none => rw [ho] at hl; simp at hl
    | some content => rw [ho] at hl; simp at hl
  | succ n ih =>
    intro name l hl
    rw [hoistedOfFile] at hl
    cases ho : openFile fs name with
    | none => rw [ho] at hl; simp at hl
    | some content =>
      rw [ho] at hl
      exact hoistedLines_directive self _ ih _ l hl

theorem hoistedLines_include (self : ShaderManagerGL) (recurH : Str → List Str) (raw : Str)
    (rest : List Str) (hi : startsWith (stripCR raw) "#include".data = true) :
    hoistedLines self recurH (raw :: rest)
      = recurH (includedFileOf self raw) ++ hoistedLines self recurH rest := by
  rw [hoistedLines, if_pos hi]

theorem hoistedLines_count_two (self : ShaderManagerGL) (recurH : Str → List Str)
    (r1 r2 r3 : List Str) (i1 i2 l : Str)
    (hi1 : startsWith (stripCR i1) "#include".data = true)
    (hi2 : startsWith (stripCR i2) "#include".data = true)
    (h1 : l ∈ recurH (includedFileOf self i1)) (h2 : l ∈ recurH (includedFileOf self i2)) :
    2 ≤ (hoistedLines self recurH (r1 ++ i1 :: (r2 ++ i2 :: r3))).count l := by
  rw [hoistedLines_append, hoistedLines_include _ _ _ _ hi1, hoistedLines_append,
    hoistedLines_include _ _ _ _ hi2]
  simp only [List.count_append]
  have c1 := List.one_le_count_iff.mpr h1
  have c2 := List.one_le_count_iff.mpr h2
  omega

/-! ## Include lines -/

theorem findLastOf_append_singleton (c : Char) (s : Str) :
    findLastOf c (s ++ [c]) = Int.ofNat s.length := by
  induction s with
  | nil =>
    show findLastOf c [c] = _
    rw [findLastOf, findLastOf]
    show (if c = c then (0 : Int) else -1) = _
    rw [if_pos rfl]
    rfl
  | cons a s ih =>
    show findLastOf c (a :: (s ++ [c])) = _
    rw [findLastOf, ih]
    rfl

theorem getHeaderName_quoted (self : ShaderManagerGL) (name : Str) :
    getHeaderName self (quotedInclude name) = name := by
  have hlast : findLastOf dquote (quotedInclude name) = Int.ofNat (10 + name.length) := by
    have := findLastOf_append_singleton dquote ("#include ".data ++ dquote :: name)
    have hl : ("#include ".data ++ dquote :: name).length = 10 + name.length := by
      simp; omega
    rw [hl] at this
    rw [← this]
    simp [quotedInclude]
  have hfirst : findChar dquote (quotedInclude name) = 9 := by
    simp [quotedInclude, findChar, dquote]
  unfold getHeaderName
  simp only [hfirst, hlast]
  have hpos : (9 : Int) > 0 ∧ Int.ofNat (10 + name.length) > 0 := by
    constructor
    · decide
    · simp; omega
  rw [if_pos hpos]
  unfold substr
  have hcount : ¬ (Int.ofNat (10 + name.length) - 9 - 1 < 0) := by
    simp; omega
  rw [if_neg hcount]
  have h1 : (Int.ofNat (10 + name.length) - 9 - 1).toNat = name.length := by
    simp; omega
  have h2 : ((9 : Int) + 1).toNat = 10 := rfl
  rw [h1, h2]
  simp [quotedInclude]

theorem includedFileOf_quoted (self : ShaderManagerGL) (raw name path : Str)
    (hline : stripCR raw = quotedInclude name)
    (hindex : self.shaderFileMap.find name = some path) :
    includedFileOf self raw = path := by
  unfold includedFileOf
  rw [hline, getHeaderName_quoted, getShaderFileName_of_find self name path hindex]

theorem startsWith_quotedInclude (name : Str) :
    startsWith (quotedInclude name) "#include".data = true := by
  simp [startsWith, quotedInclude]

theorem headerLoop_append (self : ShaderManagerGL) (recur : Str → Str → Option (Str × Str))
    (a b : List Str) (st : HeaderState) :
    headerLoop self recur (a ++ b) st
      = (headerLoop self recur a st).bind (headerLoop self recur b) := by
  induction a generalizing st with
  | nil => rfl
  | cons raw rest ih =>
    show headerLoop self recur (raw :: (rest ++ b)) st = _
    rw [headerLoop, headerLoop]
    cases headerStep self recur raw st with
    | none => rfl
    | some st1 => exact ih st1

theorem headerStep_include (self : ShaderManagerGL) (recur : Str → Str → Option (Str × Str))
    (raw : Str) (st st' : HeaderState)
    (hi : startsWith (stripCR raw) "#include".data = true)
    (h : headerStep self recur raw st = some st') :
    ∃ p, recur (includedFileOf self raw) st.prependContent = some p
      ∧ st'.fileContent = st.fileContent
          ++ (p.1 ++ "\n".data ++ ("#line ".data ++ toString (st.lineNum + 1) ++ "\n".data))
      ∧ st'.prependContent = p.2 := by
  unfold headerStep at h
  simp only [hi, if_true] at h
  unfold includedFileOf
  cases hr : recur (getShaderFileName self (getHeaderName self (stripCR raw)))
      st.prependContent with
  | none => rw [hr] at h; simp at h
  | some p =>
    rw [hr] at h
    simp only [Option.some.injEq] at h
    refine ⟨p, rfl, ?_, ?_⟩
    · rw [← h]; simp only [List.append_assoc]
    · rw [← h]

theorem include_not_marker (l : Str) (h : startsWith l "#include".data = true) :
    startsWith l "-- ".data = false := by
  cases h1 : startsWith l "-- ".data with
  | true => exact absurd (startsWith_prefix_of_le l _ _ h1 h (by decide)) (by decide)
  | false => rfl

theorem effectStep_include (self : ShaderManagerGL) (recur : Str → Str → Option (Str × Str))
    (base raw : Str) (st st' : EffectState)
    (hi : startsWith (stripCR raw) "#include".data = true)
    (h : effectStep self recur base raw st = some st') :
    ∃ p, recur (includedFileOf self raw) st.prependContent = some p
      ∧ st'.shaderContent = st.shaderContent
          ++ (p.1 ++ "\n".data ++ ("#line ".data ++ toString (st.lineNum + 1) ++ "\n".data))
      ∧ st'.prependContent = p.2 := by
  have hm : isMarker raw = false := include_not_marker _ hi
  rw [effectStep_eq_headerStep self recur base raw st hm] at h
  cases hh : headerStep self recur raw (toHeader st) with
  | none => rw [hh] at h; simp at h
  | some hst =>
    rw [hh] at h
    simp only [Option.map_some', Option.some.injEq] at h
    obtain ⟨p, hp, h1, h2⟩ := headerStep_include self recur raw (toHeader st) hst hi hh
    refine ⟨p, hp, ?_, ?_⟩
    · rw [← h]; exact h1
    · rw [← h]; exact h2

theorem bodyLines_include (self : ShaderManagerGL) (recurB : Str → Str) (n : Nat) (raw : Str)
    (rest : List Str) (hi : startsWith (stripCR raw) "#include".data = true) :
    bodyLines self recurB n (raw :: rest)
      = recurB (includedFileOf self raw) ++ "\n".data
          ++ ("#line ".data ++ toString (n + 1) ++ "\n".data)
          ++ bodyLines self recurB (n + 1) rest := by
  rw [bodyLines, if_pos hi]

theorem bodyLines_ordinary_kept (self : ShaderManagerGL) (recurB : Str → Str) (n : Nat)
    (lines : List Str) (x : Str) (hx : x ∈ lines.map stripCR) (ho : isOrdinary x = true) :
    (x ++ "\n".data) <:+: bodyLines self recurB n lines := by
  obtain ⟨raw, hraw, hs⟩ := List.mem_map.mp hx
  obtain ⟨a, b, hab⟩ := List.append_of_mem hraw
  unfold isOrdinary at ho
  simp only [Bool.and_eq_true, Bool.not_eq_true'] at ho
  have h1 : startsWith (stripCR raw) "#include".data = false := by
    rw [hs]; exact ho.1
  have h2 : isDirective (stripCR raw) = false := by
    rw [hs]; exact ho.2
  rw [hab, bodyLines_append, bodyLines, h1, h2]
  simp only [Bool.false_eq_true, if_false]
  rw [hs]
  exact ⟨bodyLines self recurB n a, bodyLines self recurB (n + a.length + 1) b, by
    simp only [List.append_assoc]⟩

theorem loadHeaderFileString_readable (fs : FileSystem) (self : ShaderManagerGL) (fuel : Nat)
    (path content pre : Str) (res : Str × Str) (hread : openFile fs path = some content)
    (h : loadHeaderFileString fs self fuel path pre = some res) :
    ∃ f st, fuel = f + 1
      ∧ headerLoop self (loadHeaderFileString fs self f) (getlines content)
          { fileContent := "#line 1\n".data, prependContent := pre, lineNum := 1 } = some st
      ∧ res = (st.fileContent, st.prependContent)
      ∧ res.1 = "#line 1\n".data ++ bodyLines self (bodyOfFile fs self f) 1 (getlines content) := by
  rw [loadHeaderFileString, hread] at h
  cases fuel with
  | zero => simp at h
  | succ f =>
    simp only [] at h
    cases hh : headerLoop self (loadHeaderFileString fs self f) (getlines content)
        { fileContent := "#line 1\n".data, prependContent := pre, lineNum := 1 } with
    | none => rw [hh] at h; simp at h
    | some st =>
      rw [hh] at h
      simp only [Option.some.injEq] at h
      obtain ⟨a1, _, _⟩ :=
        headerLoop_splits self _ _ _ (loadHeaderFileString_splits fs self f) _ _ st hh
      exact ⟨f, st, rfl, hh, h.symm, by rw [← h]; exact a1⟩

theorem startsWith_append (p s : Str) : startsWith (p ++ s) p = true := by
  unfold startsWith
  rw [List.isPrefixOf_iff_prefix]
  exact List.prefix_append p s

theorem isInfix_append_left (x a b : Str) (h : x <:+: b) : x <:+: a ++ b := by
  obtain ⟨s, t, hst⟩ := h
  exact ⟨a ++ s, t, by rw [← hst]; simp only [List.append_assoc]⟩

theorem expansion_readable (fs : FileSystem) (self : ShaderManagerGL) (fuel : Nat)
    (path content pre : Str) (res : Str × Str) (hread : openFile fs path = some content)
    (h : loadHeaderFileString fs self fuel path pre = some res) :
    startsWith res.1 "#line 1\n".data = true
      ∧ ∀ x ∈ (getlines content).map stripCR, isOrdinary x = true →
          (x ++ "\n".data) <:+: res.1 := by
  obtain ⟨f, st, _, _, _, htext⟩ :=
    loadHeaderFileString_readable fs self fuel path content pre res hread h
  rw [htext]
  exact ⟨startsWith_append _ _, fun x hx ho =>
    isInfix_append_left _ _ _ (bodyLines_ordinary_kept self _ 1 _ x hx ho)⟩

/-! ## Include lines that cannot be resolved -/

theorem findChar_of_not_mem (c : Char) (s : Str) (h : c ∉ s) : findChar c s = -1 := by
  induction s with
  | nil => rfl
  | cons a s ih =>
    have ha : a ≠ c := fun he => h (by simp [he])
    have hs : c ∉ s := fun hm => h (List.mem_cons_of_mem _ hm)
    rw [findChar, if_neg ha, ih hs]
    rfl

theorem getHeaderName_undefined (self : ShaderManagerGL) (l : Str) (hq : dquote ∉ l)
    (hkey : self.preprocessorDefines.find ((split l).getD 1 []) = none) :
    getHeaderName self l = [] := by
  unfold getHeaderName
  simp only [findChar_of_not_mem dquote l hq]
  have hneg : ¬ ((-1 : Int) > 0 ∧ findLastOf dquote l > 0) := fun h => absurd h.1 (by decide)
  rw [if_neg hneg]
  by_cases hlen : (split l).length < 2
  · rw [if_pos hlen]
  · rw [if_neg hlen, hkey]

theorem includedFileOf_unresolved (self : ShaderManagerGL) (raw : Str)
    (h : self.shaderFileMap.find (getHeaderName self (stripCR raw)) = none) :
    includedFileOf self raw = [] := by
  unfold includedFileOf getShaderFileName
  rw [h]

theorem bodyOfFile_nil (fs : FileSystem) (self : ShaderManagerGL) (fuel : Nat) :
    bodyOfFile fs self fuel [] = [] := by
  rw [bodyOfFile]; rfl

theorem hoistedOfFile_nil (fs : FileSystem) (self : ShaderManagerGL) (fuel : Nat) :
    hoistedOfFile fs self fuel [] = [] := by
  rw [hoistedOfFile]; rfl

theorem loadHeaderFileString_nil (fs : FileSystem) (self : ShaderManagerGL) (fuel : Nat)
    (pre : Str) : loadHeaderFileString fs self fuel [] pre = some ([], pre) := by
  rw [loadHeaderFileString]; rfl

theorem sections_cached (fs : FileSystem) (self self' : ShaderManagerGL) (fuel : Nat)
    (id r : Str) (hmiss : self.effectSources.find id = none)
    (h : getShaderString fuel fs self id = some (r, self')) :
    ∀ k ∈ sectionKeys (pureFilenameOf id) (effectLinesOf fs self id),
      (self'.effectSources.find k).isSome = true := by
  obtain ⟨st, hl, _, hes, _⟩ := getShaderString_miss_some fuel fs self self' id r hmiss h
  have hk := inserted_keys fs self fuel id st hl
  intro k hkmem
  rw [← hk] at hkmem
  obtain ⟨kv, hkv, hfst⟩ := List.mem_map.mp hkmem
  have hne := find_insertAll_ne_none_of_mem _ self.effectSources kv hkv
  rw [hfst, ← hes] at hne
  cases hfind : self'.effectSources.find k with
  | none => exact absurd hfind hne
  | some x => rfl

/-! ## Include cycles -/

theorem headerLoop_none (self : ShaderManagerGL) (recur : Str → Str → Option (Str × Str))
    (lines : List Str) (raw : Str) (hraw : raw ∈ lines)
    (hi : startsWith (stripCR raw) "#include".data = true)
    (hrec : ∀ pre, recur (includedFileOf self raw) pre = none) (st : HeaderState) :
    headerLoop self recur lines st = none := by
  induction lines generalizing st with
  | nil => simp at hraw
  | cons l rest ih =>
    rw [headerLoop]
    cases hst : headerStep self recur l st with
    | none => rfl
    | some st1 =>
      simp only []
      rcases List.mem_cons.mp hraw with heq | hmem
      · subst heq
        obtain ⟨p, hp, _, _⟩ := headerStep_include self recur raw st st1 hi hst
        rw [hrec] at hp
        simp at hp
      · exact ih hmem st1

theorem effectLoop_none (self : ShaderManagerGL) (recur : Str → Str → Option (Str × Str))
    (base : Str) (lines : List Str) (raw : Str) (hraw : raw ∈ lines)
    (hi : startsWith (stripCR raw) "#include".data = true)
    (hrec : ∀ pre, recur (includedFileOf self raw) pre = none) (st : EffectState) :
    effectLoop self recur base lines st = none := by
  induction lines generalizing st with
  | nil => simp at hraw
  | cons l rest ih =>
    rw [effectLoop]
    cases hst : effectStep self recur base l st with
    | none => rfl
    | some st1 =>
      simp only []
      rcases List.mem_cons.mp hraw with heq | hmem
      · subst heq
        obtain ⟨p, hp, _, _⟩ := effectStep_include self recur base raw st st1 hi hst
        rw [hrec] at hp
        simp at hp
      · exact ih hmem st1

theorem loadHeaderFileString_none_of_closed (fs : FileSystem) (self : ShaderManagerGL)
    (S : Str → Prop) (hS : ∀ p, S p → ∃ q, S q ∧ Includes fs self p q) (fuel : Nat) :
    ∀ p pre, S p → loadHeaderFileString fs self fuel p pre = none := by
  induction fuel with
  | zero =>
    intro p pre hp
    obtain ⟨q, _, content, raw, ho, _, _, _⟩ := hS p hp
    rw [loadHeaderFileString, ho]
  | succ n ih =>
    intro p pre hp
    obtain ⟨q, hq, content, raw, ho, hraw, hi, hinc⟩ := hS p hp
    rw [loadHeaderFileString, ho]
    simp only []
    rw [headerLoop_none self _ (getlines content) raw hraw hi
      (fun pre' => by rw [hinc]; exact ih q pre' hq)]

theorem onCycle_closed (fs : FileSystem) (self : ShaderManagerGL) (p : Str)
    (hcyc : Relation.TransGen (Includes fs self) p p) :
    ∀ a, Relation.TransGen (Includes fs self) a p →
      ∃ b, Relation.TransGen (Includes fs self) b p ∧ Includes fs self a b := by
  intro a ha
  obtain ⟨b, hab, hbp⟩ := Relation.TransGen.head'_iff.mp ha
  rcases Relation.reflTransGen_iff_eq_or_transGen.mp hbp with heq | htr
  · exact ⟨b, by rw [← heq]; exact hcyc, hab⟩
  · exact ⟨b, htr, hab⟩

theorem loadHeaderFileString_none_of_cycle (fs : FileSystem) (self : ShaderManagerGL)
    (p : Str) (hcyc : Relation.TransGen (Includes fs self) p p) (fuel : Nat) (pre : Str) :
    loadHeaderFileString fs self fuel p pre = none :=
  loadHeaderFileString_none_of_closed fs self
    (fun a => Relation.TransGen (Includes fs self) a p) (onCycle_closed fs self p hcyc)
    fuel p pre hcyc

theorem getShaderString_none_of_cycle (fs : FileSystem) (self : ShaderManagerGL)
    (p id : Str) (hcyc : Relation.TransGen (Includes fs self) p p)
    (hmiss : self.effectSources.find id = none)
    (hfile : getShaderFileName self (pureFilenameOf id ++ ".glsl".data) = p) (fuel : Nat) :
    getShaderString fuel fs self id = none := by
  obtain ⟨b, hb, content, raw, ho, hraw, hi, hinc⟩ := onCycle_closed fs self p hcyc p hcyc
  rw [getShaderString_miss fuel fs self id hmiss]
  have hlines : effectLinesOf fs self id = getlines content := by
    unfold effectLinesOf effectLines
    rw [hfile, ho]
  rw [hlines, effectLoop_none self _ _ (getlines content) raw hraw hi
    (fun pre' => by
      rw [hinc]
      exact loadHeaderFileString_none_of_closed fs self
        (fun a => Relation.TransGen (Includes fs self) a p) (onCycle_closed fs self p hcyc)
        fuel b pre' hb)]
  rfl

mutual
theorem indexFiles_eq_insertAll (fu : FileUtils) :
    ∀ (t : DirTree) (m : StdMap), indexFiles fu t m = insertAll (glslFiles fu t) m
  | DirTree.file file, m => by
      rw [indexFiles, glslFiles]
      by_cases h : fu.hasExtension file = true
      · rw [if_pos h, if_pos h]; rfl
      · rw [if_neg h, if_neg h]; rfl
  | DirTree.directory _ elements, m => by
      rw [indexFiles, glslFiles]
      exact indexFilesLoop_eq_insertAll fu elements m
theorem indexFilesLoop_eq_insertAll (fu : FileUtils) :
    ∀ (ts : List DirTree) (m : StdMap),
      indexFilesLoop fu ts m = insertAll (glslFilesLoop fu ts) m
  | [], m => by rw [indexFilesLoop, glslFilesLoop]; rfl
  | t :: rest, m => by
      rw [indexFilesLoop, glslFilesLoop, insertAll_append, indexFiles_eq_insertAll fu t m,
        indexFilesLoop_eq_insertAll fu rest]
end

mutual
theorem mem_glslFiles (fu : FileUtils) (name path : Str) :
    ∀ t : DirTree, (name, path) ∈ glslFiles fu t
      ↔ path ∈ treeFiles t ∧ fu.hasExtension path = true ∧ fu.getPureFilename path = name
  | DirTree.file file => by
      rw [glslFiles, treeFiles]
      by_cases h : fu.hasExtension file = true
      · rw [if_pos h]
        simp only [List.mem_singleton, Prod.mk.injEq]
        constructor
        · rintro ⟨h1, h2⟩
          subst h2
          exact ⟨rfl, h, h1.symm⟩
        · rintro ⟨h1, _, h3⟩
          subst h1
          exact ⟨h3.symm, rfl⟩
      · rw [if_neg h]
        simp only [List.not_mem_nil, List.mem_singleton, false_iff]
        rintro ⟨h1, h2, _⟩
        subst h1
        exact h h2
  | DirTree.directory _ elements => by
      rw [glslFiles, treeFiles]
      exact mem_glslFilesLoop fu name path elements
theorem mem_glslFilesLoop (fu : FileUtils) (name path : Str) :
    ∀ ts : List DirTree, (name, path) ∈ glslFilesLoop fu ts
      ↔ path ∈ treeFilesLoop ts ∧ fu.hasExtension path = true
        ∧ fu.getPureFilename path = name
  | [] => by rw [glslFilesLoop, treeFilesLoop]; simp
  | t :: rest => by
      rw [glslFilesLoop, treeFilesLoop, List.mem_append, List.mem_append,
        mem_glslFiles fu name path t, mem_glslFilesLoop fu name path rest]
      tauto
end

theorem find_indexFiles (fu : FileUtils) (t : DirTree) (name : Str) :
    (indexFiles fu t StdMap.empty).find name = findEntries name (glslFiles fu t) := by
  rw [indexFiles_eq_insertAll]
  exact find_insertAll_of_none _ _ _ rfl

/-! ## Composite ids -/

theorem findChar_append_of_not_mem (c : Char) (a b : Str) (h : c ∉ a) :
    findChar c (a ++ c :: b) = Int.ofNat a.length := by
  induction a with
  | nil => show findChar c (c :: b) = _; rw [findChar, if_pos rfl]; rfl
  | cons x a ih =>
    have hx : x ≠ c := fun he => h (by simp [he])
    have ha : c ∉ a := fun hm => h (List.mem_cons_of_mem _ hm)
    show findChar c (x :: (a ++ c :: b)) = _
    rw [findChar, if_neg hx, ih ha]
    rfl

theorem pureFilenameOf_composite (base sect : Str) (hbase : '.' ∉ base) :
    substr (base ++ ".".data ++ sect) 0 (findChar '.' (base ++ ".".data ++ sect)) = base := by
  have h : base ++ ".".data ++ sect = base ++ '.' :: sect := by simp
  rw [h, findChar_append_of_not_mem '.' base sect hbase]
  unfold substr
  simp

theorem eq_append_of_startsWith (s p : Str) (h : startsWith s p = true) :
    s = p ++ s.drop p.length := by
  unfold startsWith at h
  rw [List.isPrefixOf_iff_prefix] at h
  obtain ⟨t, ht⟩ := h
  rw [← ht]
  simp

theorem markerKey_of_name (base sect m : Str) (hm : stripCR m = "-- ".data ++ sect) :
    isMarker m = true ∧ markerKey base m = base ++ ".".data ++ sect := by
  constructor
  · unfold isMarker
    rw [hm]
    exact startsWith_append _ _
  · unfold markerKey substr
    rw [hm]
    rfl

theorem markerKey_inj (base raw sect : Str) (hraw : isMarker raw = true)
    (h : markerKey base raw = base ++ ".".data ++ sect) : stripCR raw = "-- ".data ++ sect := by
  unfold markerKey at h
  have h2 : substr (stripCR raw) 3 (-1) = sect := List.append_cancel_left h
  have h3 := eq_append_of_startsWith (stripCR raw) "-- ".data hraw
  rw [h3]
  congr 1

theorem getShaderString_composite (fuel : Nat) (fs : FileSystem) (self : ShaderManagerGL)
    (base sect : Str) (hbase : '.' ∉ base)
    (hmiss : self.effectSources.find (base ++ ".".data ++ sect) = none) :
    getShaderString fuel fs self (base ++ ".".data ++ sect) =
      match effectLoop self (loadHeaderFileString fs self fuel) base
          (effectLines fs (getShaderFileName self (base ++ ".glsl".data)))
          (effectInit self.effectSources) with
      | none => none
      | some st =>
          match (if st.shaderName.length > 0 then
              st.effectSources.insert st.shaderName (st.prependContent ++ st.shaderContent)
            else st.effectSources.insert (base ++ ".glsl".data)
              (st.prependContent ++ st.shaderContent)).find (base ++ ".".data ++ sect) with
          | some second =>
              some (second, { self with effectSources :=
                (if st.shaderName.length > 0 then
                  st.effectSources.insert st.shaderName (st.prependContent ++ st.shaderContent)
                else st.effectSources.insert (base ++ ".glsl".data)
                  (st.prependContent ++ st.shaderContent)) })
          | none =>
              some ([], { self with effectSources :=
                (if st.shaderName.length > 0 then
                  st.effectSources.insert st.shaderName (st.prependContent ++ st.shaderContent)
                else st.effectSources.insert (base ++ ".glsl".data)
                  (st.prependContent ++ st.shaderContent)) }) := by
  unfold getShaderString
  rw [hmiss]
  simp only [pureFilenameOf_composite base sect hbase]

/-! ## Line endings -/

theorem stripCR_append_cr (l : Str) : stripCR (l ++ ['\r']) = l := by
  unfold stripCR
  rw [List.getLast?_concat, if_pos rfl, List.dropLast_concat]

theorem stripCR_of_not_mem (l : Str) (h : '\r' ∉ l) : stripCR l = l := by
  unfold stripCR
  rw [if_neg (fun he => h (List.mem_of_getLast?_eq_some he))]

theorem getlinesAux_crlf (cs : Str) :
    ∀ cur : Str, '\r' ∉ cur → '\r' ∉ cs →
      (getlinesAux cur (crlf cs)).map stripCR = (getlinesAux cur cs).map stripCR := by
  induction cs with
  | nil => intro cur _ _; rfl
  | cons c cs ih =>
    intro cur hcur hcs
    have hc : c ≠ '\r' := fun he => hcs (by simp [he])
    have hcs' : '\r' ∉ cs := fun hm => hcs (List.mem_cons_of_mem _ hm)
    by_cases hn : c = '\n'
    · rw [crlf, if_pos hn, getlinesAux, if_neg (by decide), getlinesAux, if_pos rfl,
        getlinesAux, if_pos hn, List.map_cons, List.map_cons, stripCR_append_cr,
        stripCR_of_not_mem cur hcur, ih [] (by simp) hcs']
    · rw [crlf, if_neg hn, getlinesAux, if_neg hn, getlinesAux, if_neg hn]
      apply ih _ _ hcs'
      intro hm
      rcases List.mem_append.mp hm with h | h
      · exact hcur h
      · exact hc (List.mem_singleton.mp h).symm

theorem getlines_crlf (content : Str) (h : '\r' ∉ content) :
    (getlines (crlf content)).map stripCR = (getlines content).map stripCR :=
  getlinesAux_crlf content [] (by simp) h

theorem headerStep_congr (self : ShaderManagerGL) (recur : Str → Str → Option (Str × Str))
    (raw raw' : Str) (st : HeaderState) (h : stripCR raw = stripCR raw') :
    headerStep self recur raw st = headerStep self recur raw' st := by
  unfold headerStep
  rw [h]

theorem headerLoop_congr (self : ShaderManagerGL) (recur : Str → Str → Option (Str × Str)) :
    ∀ (lines lines' : List Str) (st : HeaderState),
      lines.map stripCR = lines'.map stripCR →
      headerLoop self recur lines st = headerLoop self recur lines' st := by
  intro lines
  induction lines with
  | nil =>
    intro lines' st h
    cases lines' with
    | nil => rfl
    | cons a b => simp at h
  | cons raw rest ih =>
    intro lines' st h
    cases lines' with
    | nil => simp at h
    | cons raw' rest' =>
      simp only [List.map_cons, List.cons.injEq] at h
      rw [headerLoop, headerLoop, headerStep_congr self recur raw raw' st h.1]
      cases headerStep self recur raw' st with
      | none => rfl
      | some st' => exact ih rest' st' h.2

theorem effectStep_congr (self : ShaderManagerGL) (recur : Str → Str → Option (Str × Str))
    (base raw raw' : Str) (st : EffectState) (h : stripCR raw = stripCR raw') :
    effectStep self recur base raw st = effectStep self recur base raw' st := by
  unfold effectStep
  rw [h]

theorem effectLoop_congr (self : ShaderManagerGL) (recur : Str → Str → Option (Str × Str))
    (base : Str) :
    ∀ (lines lines' : List Str) (st : EffectState),
      lines.map stripCR = lines'.map stripCR →
      effectLoop self recur base lines st = effectLoop self recur base lines' st := by
  intro lines
  induction lines with
  | nil =>
    intro lines' st h
    cases lines' with
    | nil => rfl
    | cons a b => simp at h
  | cons raw rest ih =>
    intro lines' st h
    cases lines' with
    | nil => simp at h
    | cons raw' rest' =>
      simp only [List.map_cons, List.cons.injEq] at h
      rw [effectLoop, effectLoop, effectStep_congr self recur base raw raw' st h.1]
      cases effectStep self recur base raw' st with
      | none => rfl
      | some st' => exact ih rest' st' h.2

theorem openFile_crlfFs (fs : FileSystem) (p : Str) :
    openFile (crlfFs fs) p = (openFile fs p).map crlf := by
  unfold openFile crlfFs
  by_cases h : p = []
  · rw [if_pos h, if_pos h]; rfl
  · rw [if_neg h, if_neg h]

theorem openFile_crFree (fs : FileSystem)
    (hcr : ∀ p content, fs p = some content → '\r' ∉ content) (p content : Str)
    (h : openFile fs p = some content) : '\r' ∉ content := by
  unfold openFile at h
  by_cases hp : p = []
  · rw [if_pos hp] at h; cases h
  · rw [if_neg hp] at h; exact hcr p content h

theorem loadHeaderFileString_crlf (fs : FileSystem) (self : ShaderManagerGL)
    (hcr : ∀ p content, fs p = some content → '\r' ∉ content) :
    ∀ fuel, loadHeaderFileString (crlfFs fs) self fuel = loadHeaderFileString fs self fuel := by
  intro fuel
  induction fuel with
  | zero =>
    funext shaderName prependContent
    rw [loadHeaderFileString, loadHeaderFileString, openFile_crlfFs]
    cases openFile fs shaderName with
    | none => rfl
    | some content => rfl
  | succ fuel ih =>
    funext shaderName prependContent
    rw [loadHeaderFileString, loadHeaderFileString, openFile_crlfFs]
    cases hop : openFile fs shaderName with
    | none => rfl
    | some content =>
      simp only [Option.map_some']
      rw [ih, headerLoop_congr self _ _ _ _
        (getlines_crlf content (openFile_crFree fs hcr _ _ hop))]

theorem effectLines_crlf (fs : FileSystem)
    (hcr : ∀ p content, fs p = some content → '\r' ∉ content) (shaderFilename : Str) :
    (effectLines (crlfFs fs) shaderFilename).map stripCR
      = (effectLines fs shaderFilename).map stripCR := by
  unfold effectLines
  rw [openFile_crlfFs]
  cases hop : openFile fs shaderFilename with
  | none => rfl
  | some content => exact getlines_crlf content (openFile_crFree fs hcr _ _ hop)

theorem getShaderString_crlf (fs : FileSystem) (self : ShaderManagerGL)
    (hcr : ∀ p content, fs p = some content → '\r' ∉ content) (fuel : Nat) (id : Str) :
    getShaderString fuel (crlfFs fs) self id = getShaderString fuel fs self id := by
  unfold getShaderString
  rw [loadHeaderFileString_crlf fs self hcr fuel]
  simp only []
  rw [effectLoop_congr self _ _ _ _ _ (effectLines_crlf fs hcr _)]

theorem crFree_of_check (files : List (Str × Str)) (h : crFreeCheck files = true) :
    ∀ p content, fsOfList files p = some content → '\r' ∉ content := by
  intro p content hp
  have hmem := findEntries_some_mem p content files hp
  unfold crFreeCheck at h
  have := List.all_eq_true.mp h _ hmem
  simpa using this

/-! ## Include lines that name their header through a define -/

theorem splitAux_token (key : Str) (hkey : ∀ c ∈ key, isDelim c = false) :
    ∀ (cur : Str) (inDelim : Bool), splitAux cur inDelim key = [cur ++ key] := by
  induction key with
  | nil => intro cur inDelim; simp [splitAux]
  | cons c cs ih =>
    intro cur inDelim
    have hc : isDelim c = false := hkey c (List.mem_cons_self _ _)
    rw [splitAux, hc]
    simp only [Bool.false_eq_true, if_false]
    rw [ih (fun x hx => hkey x (List.mem_cons_of_mem _ hx))]
    simp

theorem splitAux_delims (seps rest : Str) (hseps : ∀ c ∈ seps, isDelim c = true) :
    splitAux [] true (seps ++ rest) = splitAux [] true rest := by
  induction seps with
  | nil => rfl
  | cons c cs ih =>
    have hc : isDelim c = true := hseps c (List.mem_cons_self _ _)
    show splitAux [] true (c :: (cs ++ rest)) = _
    rw [splitAux, hc]
    simp only [if_true]
    exact ih (fun x hx => hseps x (List.mem_cons_of_mem _ hx))

theorem split_include_key (seps key : Str) (hne : seps ≠ [])
    (hseps : ∀ c ∈ seps, isDelim c = true) (hkey : ∀ c ∈ key, isDelim c = false) :
    split ("#include".data ++ seps ++ key) = ["#include".data, key] := by
  cases seps with
  | nil => exact absurd rfl hne
  | cons s seps =>
    have hs : isDelim s = true := hseps s (List.mem_cons_self _ _)
    have h1 : split ("#include".data ++ s :: seps ++ key)
        = splitAux "#include".data false (s :: (seps ++ key)) := by
      simp [split, splitAux, isDelim]
    rw [h1, splitAux, hs]
    simp only [if_true, Bool.false_eq_true, if_false]
    rw [splitAux_delims seps key (fun x hx => hseps x (List.mem_cons_of_mem _ hx)),
      splitAux_token key hkey]
    rfl

theorem findLastOf_of_not_mem (c : Char) (s : Str) (h : c ∉ s) : findLastOf c s = -1 := by
  induction s with
  | nil => rfl
  | cons a s ih =>
    have ha : a ≠ c := fun he => h (by simp [he])
    have hs : c ∉ s := fun hm => h (List.mem_cons_of_mem _ hm)
    rw [findLastOf, ih hs]
    show (if a = c then (0 : Int) else -1) = -1
    rw [if_neg ha]

theorem findLastOf_append_of_not_mem (c : Char) (a b : Str) (h : c ∉ b) :
    findLastOf c (a ++ c :: b) = Int.ofNat a.length := by
  induction a with
  | nil =>
    show findLastOf c (c :: b) = _
    rw [findLastOf, findLastOf_of_not_mem c b h]
    show (if c = c then (0 : Int) else -1) = _
    rw [if_pos rfl]
    rfl
  | cons x a ih =>
    show findLastOf c (x :: (a ++ c :: b)) = _
    rw [findLastOf, ih]
    rfl

theorem substr_between (a mid b : Str) (q : Char) :
    substr (a ++ q :: (mid ++ q :: b)) (Int.ofNat a.length + 1)
        (Int.ofNat (a.length + 1 + mid.length) - Int.ofNat a.length - 1) = mid := by
  have h1 : (Int.ofNat (a.length + 1 + mid.length) - Int.ofNat a.length - 1)
      = Int.ofNat mid.length := by
    simp only [Int.ofNat_eq_coe]; omega
  have h2 : (Int.ofNat a.length + 1) = Int.ofNat (a.length + 1) := rfl
  rw [h1, h2]
  unfold substr
  have h3 : ¬ (Int.ofNat mid.length < 0) := by simp only [Int.ofNat_eq_coe]; omega
  rw [if_neg h3]
  have h5 : ∀ n : Nat, (Int.ofNat n).toNat = n := fun n => rfl
  rw [h5, h5]
  have h4 : a ++ q :: (mid ++ q :: b) = (a ++ [q]) ++ (mid ++ q :: b) := by simp
  rw [h4, List.drop_left' (by simp)]
  simp

theorem getHeaderName_between (self : ShaderManagerGL) (a mid b : Str) (ha : a ≠ [])
    (hqa : dquote ∉ a) (hqb : dquote ∉ b) :
    getHeaderName self (a ++ dquote :: (mid ++ dquote :: b)) = mid := by
  have hfirst : findChar dquote (a ++ dquote :: (mid ++ dquote :: b)) = Int.ofNat a.length :=
    findChar_append_of_not_mem dquote a _ hqa
  have hlast : findLastOf dquote (a ++ dquote :: (mid ++ dquote :: b))
      = Int.ofNat (a.length + 1 + mid.length) := by
    have h := findLastOf_append_of_not_mem dquote (a ++ dquote :: mid) b hqb
    have hl : (a ++ dquote :: mid).length = a.length + 1 + mid.length := by
      simp; omega
    rw [hl] at h
    rw [← h]
    simp
  have hpos : 0 < a.length := List.length_pos.mpr ha
  unfold getHeaderName
  simp only [hfirst, hlast]
  rw [if_pos (by constructor <;> (simp only [Int.ofNat_eq_coe]; omega))]
  exact substr_between a mid b dquote

theorem getHeaderName_define (self : ShaderManagerGL) (l key name : Str) (hq : dquote ∉ l)
    (hlen : 2 ≤ (split l).length) (hkey : (split l).getD 1 [] = key)
    (hdef : self.preprocessorDefines.find key = some (dquote :: (name ++ [dquote]))) :
    getHeaderName self l = name := by
  unfold getHeaderName
  simp only [findChar_of_not_mem dquote l hq]
  have hneg : ¬ ((-1 : Int) > 0 ∧ findLastOf dquote l > 0) := fun h => absurd h.1 (by decide)
  rw [if_neg hneg, if_neg (by omega), hkey, hdef]
  simp only []
  have hfirst : findChar dquote (dquote :: (name ++ [dquote])) = 0 := by
    rw [findChar, if_pos rfl]
  have hlast : findLastOf dquote (dquote :: (name ++ [dquote]))
      = Int.ofNat (0 + 1 + name.length) := by
    have h := findLastOf_append_of_not_mem dquote (dquote :: name) [] (by simp)
    have hl : (dquote :: name).length = 0 + 1 + name.length := by simp; omega
    rw [hl] at h
    exact h
  rw [hfirst, hlast]
  exact substr_between [] name [] dquote

theorem include_expansion (fs : FileSystem) (self : ShaderManagerGL)
    (pathA contentA : Str) (before after : List Str) (raw pathB contentB : Str)
    (hreadA : openFile fs pathA = some contentA)
    (hsplit : getlines contentA = before ++ raw :: after)
    (hinc : startsWith (stripCR raw) "#include".data = true)
    (hB : includedFileOf self raw = pathB)
    (hreadB : openFile fs pathB = some contentB) :
    (∀ rank, IncludesDescend fs self rank → ∀ fuel, rank pathA < fuel → ∀ pre,
        ∃ res, loadHeaderFileString fs self fuel pathA pre = some res)
      ∧ (∀ fuel pre text pre', loadHeaderFileString fs self fuel pathA pre = some (text, pre') →
          ∃ f E preB preB', fuel = f + 1
            ∧ loadHeaderFileString fs self f pathB preB = some (E, preB')
            ∧ text = "#line 1\n".data ++ bodyLines self (bodyOfFile fs self f) 1 before
                ++ (E ++ "\n".data
                  ++ ("#line ".data ++ toString (before.length + 1 + 1) ++ "\n".data))
                ++ bodyLines self (bodyOfFile fs self f) (before.length + 1 + 1) after
            ∧ startsWith E "#line 1\n".data = true
            ∧ ∀ x ∈ (getlines contentB).map stripCR, isOrdinary x = true →
                (x ++ "\n".data) <:+: E)
      ∧ (∀ fuel id r self', self.effectSources.find id = none →
          self.shaderFileMap.find (pureFilenameOf id ++ ".glsl".data) = some pathA →
          getShaderString fuel fs self id = some (r, self') →
          ∃ st1 st2 E preB',
            effectLoop self (loadHeaderFileString fs self fuel) (pureFilenameOf id) before
                (effectInit self.effectSources) = some st1
              ∧ effectStep self (loadHeaderFileString fs self fuel) (pureFilenameOf id) raw st1
                = some st2
              ∧ loadHeaderFileString fs self fuel pathB st1.prependContent = some (E, preB')
              ∧ st2.shaderContent = st1.shaderContent
                  ++ (E ++ "\n".data
                    ++ ("#line ".data ++ toString (before.length + 1 + 1) ++ "\n".data))
              ∧ startsWith E "#line 1\n".data = true
              ∧ ∀ x ∈ (getlines contentB).map stripCR, isOrdinary x = true →
                  (x ++ "\n".data) <:+: E) := by
  refine ⟨?_, ?_, ?_⟩
  · intro rank hd fuel hfuel pre
    have := loadHeaderFileString_isSome fs self rank hd fuel pathA pre (fun _ _ => hfuel)
    cases hl : loadHeaderFileString fs self fuel pathA pre with
    | none => rw [hl] at this; simp at this
    | some res => exact ⟨res, rfl⟩
  · intro fuel pre text pre' h
    obtain ⟨f, st, hf, hloop, _, htext⟩ :=
      loadHeaderFileString_readable fs self fuel pathA contentA pre _ hreadA h
    rw [hsplit, headerLoop_append] at hloop
    obtain ⟨st1, _, hloop2⟩ := Option.bind_eq_some.mp hloop
    rw [headerLoop] at hloop2
    cases hst : headerStep self (loadHeaderFileString fs self f) raw st1 with
    | none => rw [hst] at hloop2; simp at hloop2
    | some st2 =>
      obtain ⟨p, hp, _, _⟩ := headerStep_include self _ raw st1 st2 hinc hst
      rw [hB] at hp
      have hsp := loadHeaderFileString_splits fs self f pathB _ p hp
      obtain ⟨hE1, hE2⟩ := expansion_readable fs self f pathB contentB _ p hreadB hp
      refine ⟨f, p.1, st1.prependContent, p.2, hf, hp, ?_, hE1, hE2⟩
      simp only [] at htext
      rw [htext, hsplit, bodyLines_append, bodyLines_include _ _ _ _ _ hinc, hB, hsp]
      have hn : 1 + before.length = before.length + 1 := by omega
      rw [hn]
      simp only [List.append_assoc]
  · intro fuel id r self' hmiss hindex h
    obtain ⟨st, hl, _, _, _⟩ := getShaderString_miss_some fuel fs self self' id r hmiss h
    rw [effectLinesOf_of_read fs self id pathA contentA hindex hreadA, hsplit,
      effectLoop_append] at hl
    obtain ⟨st1, hl1, hl2⟩ := Option.bind_eq_some.mp hl
    rw [effectLoop] at hl2
    cases hst : effectStep self (loadHeaderFileString fs self fuel) (pureFilenameOf id)
        raw st1 with
    | none => rw [hst] at hl2; simp at hl2
    | some st2 =>
      obtain ⟨p, hp, hc, _⟩ := effectStep_include self _ _ raw st1 st2 hinc hst
      rw [hB] at hp
      obtain ⟨hE1, hE2⟩ := expansion_readable fs self fuel pathB contentB _ p hreadB hp
      have hln : st1.lineNum = 1 + before.length := effectLoop_lineNum _ _ _ _ _ _ hl1
      refine ⟨st1, st2, p.1, p.2, hl1, hst, hp, ?_, hE1, hE2⟩
      rw [hc, hln]
      have hn : 1 + before.length = before.length + 1 := by omega
      rw [hn]

theorem getHeaderName_single_quote (self : ShaderManagerGL) (a b : Str) (ha : a ≠ [])
    (hqa : dquote ∉ a) (hqb : dquote ∉ b) :
    getHeaderName self (a ++ dquote :: b) = b := by
  have hfirst : findChar dquote (a ++ dquote :: b) = Int.ofNat a.length :=
    findChar_append_of_not_mem dquote a _ hqa
  have hlast : findLastOf dquote (a ++ dquote :: b) = Int.ofNat a.length :=
    findLastOf_append_of_not_mem dquote a b hqb
  have hpos : 0 < a.length := List.length_pos.mpr ha
  unfold getHeaderName
  simp only [hfirst, hlast]
  rw [if_pos (by constructor <;> (simp only [Int.ofNat_eq_coe]; omega))]
  unfold substr
  rw [if_pos (by simp only [Int.ofNat_eq_coe]; omega)]
  have h2 : (Int.ofNat a.length + 1) = Int.ofNat (a.length + 1) := rfl
  have h5 : ∀ n : Nat, (Int.ofNat n).toNat = n := fun n => rfl
  rw [h2, h5]
  have h4 : a ++ dquote :: b = (a ++ [dquote]) ++ b := by simp
  rw [h4, List.drop_left' (by simp)]

theorem ne_nil_of_include (a rest : Str)
    (h : startsWith (a ++ dquote :: rest) "#include".data = true) : a ≠ [] := by
  intro ha
  subst ha
  revert h
  simp [startsWith, dquote]

/-! ## Keys added by a call -/

theorem pureFilenameOf_no_dot (id : Str) (h : '.' ∉ id) : pureFilenameOf id = id := by
  unfold pureFilenameOf
  rw [findChar_of_not_mem '.' id h]
  rfl

theorem sectionKeys_form (base : Str) (lines : List Str) (k : Str)
    (hk : k ∈ sectionKeys base lines) : ∃ s, k = base ++ ".".data ++ s := by
  unfold sectionKeys at hk
  by_cases hmk : markerKeys base lines = []
  · rw [if_pos hmk] at hk
    exact ⟨"glsl".data, by rw [List.mem_singleton.mp hk]; simp⟩
  · rw [if_neg hmk] at hk
    unfold markerKeys at hk
    obtain ⟨raw, _, hraw⟩ := List.mem_map.mp hk
    exact ⟨substr (stripCR raw) 3 (-1), hraw.symm⟩

theorem new_keys_form (fs : FileSystem) (self self' : ShaderManagerGL) (fuel : Nat)
    (id r k : Str) (h : getShaderString fuel fs self id = some (r, self'))
    (hold : self.effectSources.find k = none) (hnew : self'.effectSources.find k ≠ none) :
    ∃ s, k = pureFilenameOf id ++ ".".data ++ s := by
  cases hf : self.effectSources.find id with
  | some text =>
    rw [getShaderString_hit fuel fs self id text hf] at h
    simp only [Option.some.injEq, Prod.mk.injEq] at h
    rw [← h.2] at hnew
    exact absurd hold hnew
  | none =>
    obtain ⟨st, hl, _, hes, _⟩ := getShaderString_miss_some fuel fs self self' id r hf h
    rw [hes, find_insertAll_of_none _ _ _ hold] at hnew
    cases hfe : findEntries k (inserted fs self fuel id st) with
    | none => exact absurd hfe hnew
    | some v =>
      have hmem := findEntries_some_mem k v _ hfe
      have hk : k ∈ (inserted fs self fuel id st).map Prod.fst :=
        List.mem_map.mpr ⟨(k, v), hmem, rfl⟩
      rw [inserted_keys fs self fuel id st hl] at hk
      exact sectionKeys_form _ _ k hk

/-! ## Shader stages -/

theorem getLast_of_endsWith (s p : Str) (c : Char) (h : endsWith s p = true)
    (hp : p.getLast? = some c) : s.getLast? = some c := by
  unfold endsWith at h
  rw [List.isSuffixOf_iff_suffix] at h
  obtain ⟨t, ht⟩ := h
  rw [← ht, List.getLast?_append, hp]
  rfl

theorem not_endsWith_of_getLast (s p : Str) (c d : Char) (hs : s.getLast? = some c)
    (hp : p.getLast? = some d) (hcd : c ≠ d) : endsWith s p = false := by
  cases h : endsWith s p with
  | false => rfl
  | true =>
    have := getLast_of_endsWith s p d h hp
    rw [hs] at this
    exact absurd (Option.some.inj this) hcd

/-! ## Range checks in `getHeaderName` -/

theorem findChar_bounds (c : Char) (s : Str) :
    -1 ≤ findChar c s ∧ findChar c s < s.length := by
  induction s with
  | nil =>
    rw [findChar]
    exact ⟨by decide, by decide⟩
  | cons a s ih =>
    rw [findChar]
    by_cases ha : a = c
    · rw [if_pos ha]
      exact ⟨by decide, by simp only [List.length_cons]; omega⟩
    · rw [if_neg ha]
      cases hf : findChar c s with
      | ofNat i =>
        rw [hf] at ih
        simp only [List.length_cons]
        have h2 := ih.2
        simp only [Int.ofNat_eq_coe] at h2 ⊢
        omega
      | negSucc n =>
        simp only [List.length_cons]
        omega

theorem substrChecked_find (c : Char) (s : Str) (count : Int) :
    substrChecked s (findChar c s + 1) count = some (substr s (findChar c s + 1) count) := by
  obtain ⟨h1, h2⟩ := findChar_bounds c s
  unfold substrChecked
  rw [if_neg (by omega)]

theorem getHeaderNameChecked_eq (self : ShaderManagerGL) (lineString : Str) :
    getHeaderNameChecked self lineString = some (getHeaderName self lineString) := by
  unfold getHeaderNameChecked getHeaderName
  simp only []
  by_cases hq : findChar dquote lineString > 0 ∧ findLastOf dquote lineString > 0
  · rw [if_pos hq, if_pos hq]
    exact substrChecked_find dquote lineString _
  · rw [if_neg hq, if_neg hq]
    by_cases hlen : (split lineString).length < 2
    · rw [if_pos hlen, if_pos hlen]
    · rw [if_neg hlen, if_neg hlen]
      have h1 : (split lineString).get? 1
          = some ((split lineString).getD 1 []) := by
        rw [List.getD_eq_getElem?_getD, List.get?_eq_getElem?]
        have : 1 < (split lineString).length := by omega
        rw [List.getElem?_eq_getElem this]
        rfl
      rw [h1]
      simp only []
      cases self.preprocessorDefines.find ((split lineString).getD 1 []) with
      | none => rfl
      | some second => exact substrChecked_find dquote second _

/-! ## Lines before the first marker line -/

theorem headerStep_agree (self : ShaderManagerGL) (recur recur' : Str → Str → Option (Str × Str))
    (raw : Str) (st st' : HeaderState)
    (hag : startsWith (stripCR raw) "#include".data = true → ∀ pre res,
      recur (includedFileOf self raw) pre = some res →
      recur' (includedFileOf self raw) pre = some res)
    (h : headerStep self recur raw st = some st') :
    headerStep self recur' raw st = some st' := by
  by_cases hi : startsWith (stripCR raw) "#include".data = true
  · unfold headerStep at h ⊢
    simp only [hi, if_true] at h ⊢
    cases hr : recur (getShaderFileName self (getHeaderName self (stripCR raw)))
        st.prependContent with
    | none => rw [hr] at h; simp at h
    | some p =>
      have h2 := hag hi _ p hr
      unfold includedFileOf at h2
      rw [h2]
      rw [hr] at h
      exact h
  · have hi' : startsWith (stripCR raw) "#include".data = false := by simpa using hi
    unfold headerStep at h ⊢
    simp only [hi', Bool.false_eq_true, if_false] at h ⊢
    exact h

theorem headerLoop_agree (self : ShaderManagerGL) (recur recur' : Str → Str → Option (Str × Str))
    (lines : List Str) (st st' : HeaderState)
    (hag : ∀ raw ∈ lines, startsWith (stripCR raw) "#include".data = true → ∀ pre res,
      recur (includedFileOf self raw) pre = some res →
      recur' (includedFileOf self raw) pre = some res)
    (h : headerLoop self recur lines st = some st') :
    headerLoop self recur' lines st = some st' := by
  induction lines generalizing st with
  | nil => exact h
  | cons raw rest ih =>
    rw [headerLoop] at h ⊢
    cases hs : headerStep self recur raw st with
    | none => rw [hs] at h; simp at h
    | some st1 =>
      rw [hs] at h
      rw [headerStep_agree self recur recur' raw st st1 (hag raw (List.mem_cons_self _ _)) hs]
      exact ih st1 (fun raw' hm => hag raw' (List.mem_cons_of_mem _ hm)) h

theorem effectStep_agree (self : ShaderManagerGL) (recur recur' : Str → Str → Option (Str × Str))
    (base raw : Str) (st st' : EffectState)
    (hag : startsWith (stripCR raw) "#include".data = true → ∀ pre res,
      recur (includedFileOf self raw) pre = some res →
      recur' (includedFileOf self raw) pre = some res)
    (h : effectStep self recur base raw st = some st') :
    effectStep self recur' base raw st = some st' := by
  cases hm : isMarker raw with
  | true =>
    have hm' : startsWith (stripCR raw) "-- ".data = true := hm
    unfold effectStep at h ⊢
    simp only [hm', if_true] at h ⊢
    exact h
  | false =>
    rw [effectStep_eq_headerStep self recur base raw st hm] at h
    rw [effectStep_eq_headerStep self recur' base raw st hm]
    cases hh : headerStep self recur raw (toHeader st) with
    | none => rw [hh] at h; simp at h
    | some hst =>
      rw [hh] at h
      rw [headerStep_agree self recur recur' raw (toHeader st) hst hag hh]
      exact h

theorem effectLoop_agree (self : ShaderManagerGL) (recur recur' : Str → Str → Option (Str × Str))
    (base : Str) (lines : List Str) (st st' : EffectState)
    (hag : ∀ raw ∈ lines, startsWith (stripCR raw) "#include".data = true → ∀ pre res,
      recur (includedFileOf self raw) pre = some res →
      recur' (includedFileOf self raw) pre = some res)
    (h : effectLoop self recur base lines st = some st') :
    effectLoop self recur' base lines st = some st' := by
  induction lines generalizing st with
  | nil => exact h
  | cons raw rest ih =>
    rw [effectLoop] at h ⊢
    cases hs : effectStep self recur base raw st with
    | none => rw [hs] at h; simp at h
    | some st1 =>
      rw [hs] at h
      rw [effectStep_agree self recur recur' base raw st st1
        (hag raw (List.mem_cons_self _ _)) hs]
      exact ih st1 (fun raw' hm => hag raw' (List.mem_cons_of_mem _ hm)) h

theorem openFile_off_path (fs fs' : FileSystem) (path q : Str)
    (hother : ∀ p, p ≠ path → fs' p = fs p) (hq : q ≠ path) :
    openFile fs' q = openFile fs q := by
  unfold openFile
  rw [hother q hq]

theorem loadHeaderFileString_off_path (fs fs' : FileSystem) (self : ShaderManagerGL)
    (path : Str) (hother : ∀ p, p ≠ path → fs' p = fs p) :
    ∀ (fuel : Nat) (q pre : Str) (res : Str × Str),
      loadHeaderFileString fs self fuel q pre = some res →
      ¬ Relation.ReflTransGen (Includes fs self) q path →
      loadHeaderFileString fs' self fuel q pre = some res := by
  intro fuel
  induction fuel with
  | zero =>
    intro q pre res h hnot
    have hq : q ≠ path := fun he => hnot (by rw [he])
    rw [loadHeaderFileString] at h ⊢
    rw [openFile_off_path fs fs' path q hother hq]
    exact h
  | succ f ih =>
    intro q pre res h hnot
    have hq : q ≠ path := fun he => hnot (by rw [he])
    rw [loadHeaderFileString] at h ⊢
    rw [openFile_off_path fs fs' path q hother hq]
    cases ho : openFile fs q with
    | none => rw [ho] at h; exact h
    | some content =>
      rw [ho] at h
      simp only [] at h ⊢
      cases hl : headerLoop self (loadHeaderFileString fs self f) (getlines content)
          { fileContent := "#line 1\n".data, prependContent := pre, lineNum := 1 } with
      | none => rw [hl] at h; simp at h
      | some st =>
        rw [hl] at h
        rw [headerLoop_agree self _ (loadHeaderFileString fs' self f) _ _ st
          (fun raw hraw hi pre' res' hr => ih _ pre' res' hr (fun hreach =>
            hnot (Relation.ReflTransGen.head ⟨content, raw, ho, hraw, hi, rfl⟩ hreach))) hl]
        exact h

theorem effectLoop_blank (self : ShaderManagerGL) (recur : Str → Str → Option (Str × Str))
    (base : Str) (n : Nat) :
    ∀ st : EffectState, ∃ st', effectLoop self recur base (List.replicate n []) st = some st'
      ∧ st'.effectSources = st.effectSources ∧ st'.shaderName = st.shaderName
      ∧ st'.lineNum = st.lineNum + n := by
  induction n with
  | zero => intro st; exact ⟨st, rfl, rfl, rfl, rfl⟩
  | succ n ih =>
    intro st
    have hstep : effectStep self recur base [] st
        = some { st with
            shaderContent := st.shaderContent ++ ([] ++ "\n".data)
            lineNum := st.lineNum + 1 } := rfl
    obtain ⟨st', h1, h2, h3, h4⟩ := ih { st with
      shaderContent := st.shaderContent ++ ([] ++ "\n".data)
      lineNum := st.lineNum + 1 }
    refine ⟨st', ?_, h2, h3, ?_⟩
    · show effectLoop self recur base ([] :: List.replicate n []) st = some st'
      rw [effectLoop, hstep]
      exact h1
    · rw [h4]
      show st.lineNum + 1 + n = st.lineNum + (n + 1)
      omega

theorem effectLoop_no_marker (self : ShaderManagerGL) (recur : Str → Str → Option (Str × Str))
    (base : Str) (lines : List Str) (st st' : EffectState)
    (hm : ∀ raw ∈ lines, isMarker raw = false)
    (h : effectLoop self recur base lines st = some st') :
    st'.effectSources = st.effectSources ∧ st'.shaderName = st.shaderName := by
  rw [effectLoop_eq_headerLoop self recur base lines st hm] at h
  cases hh : headerLoop self recur lines (toHeader st) with
  | none => rw [hh] at h; simp at h
  | some hst =>
    rw [hh] at h
    simp only [Option.map_some', Option.some.injEq] at h
    rw [← h]
    exact ⟨rfl, rfl⟩

theorem effectStep_first_marker (self : ShaderManagerGL)
    (recur : Str → Str → Option (Str × Str)) (base raw : Str) (st : EffectState)
    (hm : isMarker raw = true) (hn : st.shaderName = []) :
    effectStep self recur base raw st
      = some
        { effectSources := st.effectSources
          shaderName := base ++ ".".data ++ substr (stripCR raw) 3 (-1)
          shaderContent := getPreprocessorDefines self ++ "#line ".data
            ++ toString (st.lineNum + 1) ++ "\n".data
          prependContent := []
          lineNum := st.lineNum + 1 } := by
  have h1 : startsWith (stripCR raw) "-- ".data = true := hm
  unfold effectStep
  simp only [h1, if_true, hn, List.length_nil, gt_iff_lt, Nat.lt_irrefl, and_false, if_false]

theorem effectLoop_blank_before (self : ShaderManagerGL)
    (recur recur' : Str → Str → Option (Str × Str)) (base : Str)
    (before rest : List Str) (m : Str) (es : StdMap) (st : EffectState)
    (hm : isMarker m = true) (hbefore : ∀ raw ∈ before, isMarker raw = false)
    (hag : ∀ raw ∈ rest, startsWith (stripCR raw) "#include".data = true → ∀ pre res,
      recur (includedFileOf self raw) pre = some res →
      recur' (includedFileOf self raw) pre = some res)
    (h : effectLoop self recur base (before ++ m :: rest) (effectInit es) = some st) :
    effectLoop self recur' base (before.map (fun _ => []) ++ m :: rest) (effectInit es)
      = some st := by
  rw [effectLoop_append] at h ⊢
  obtain ⟨st1, h1, h2⟩ := Option.bind_eq_some.mp h
  obtain ⟨hes, hname⟩ := effectLoop_no_marker self recur base before _ st1 hbefore h1
  have hln := effectLoop_lineNum self recur base before _ st1 h1
  have hrep : before.map (fun _ => ([] : Str)) = List.replicate before.length [] := by
    rw [List.eq_replicate_iff]
    exact ⟨by simp, fun b hb => by
      obtain ⟨_, _, ha⟩ := List.mem_map.mp hb
      exact ha.symm⟩
  obtain ⟨st1', g1, g2, g3, g4⟩ :=
    effectLoop_blank self recur' base before.length (effectInit es)
  rw [hrep, g1]
  show effectLoop self recur' base (m :: rest) st1' = some st
  rw [effectLoop] at h2 ⊢
  have hn1 : st1.shaderName = [] := by rw [hname]; rfl
  have hn1' : st1'.shaderName = [] := by rw [g3]; rfl
  rw [effectStep_first_marker self recur base m st1 hm hn1] at h2
  rw [effectStep_first_marker self recur' base m st1' hm hn1', g2, g4, ← hes, ← hln]
  exact effectLoop_agree self recur recur' base rest _ st hag h2

theorem getShaderString_of_loop (fuel : Nat) (fs fs' : FileSystem) (self : ShaderManagerGL)
    (id : Str) (st : EffectState)
    (hloop : effectLoop self (loadHeaderFileString fs self fuel) (pureFilenameOf id)
      (effectLinesOf fs self id) (effectInit self.effectSources) = some st)
    (hloop' : effectLoop self (loadHeaderFileString fs' self fuel) (pureFilenameOf id)
      (effectLinesOf fs' self id) (effectInit self.effectSources) = some st) :
    getShaderString fuel fs' self id = getShaderString fuel fs self id := by
  unfold effectLinesOf pureFilenameOf at hloop hloop'
  unfold getShaderString
  cases self.effectSources.find id with
  | some text => rfl
  | none =>
    simp only []
    rw [hloop, hloop']

theorem blank_before_first_marker (fs fs' : FileSystem) (self : ShaderManagerGL)
    (id path content content' : Str) (before rest : List Str) (m : Str)
    (hindex : self.shaderFileMap.find (pureFilenameOf id ++ ".glsl".data) = some path)
    (hread : openFile fs path = some content)
    (hread' : openFile fs' path = some content')
    (hother : ∀ p, p ≠ path → fs' p = fs p)
    (hsplit : getlines content = before ++ m :: rest)
    (hsplit' : getlines content' = before.map (fun _ => []) ++ m :: rest)
    (hm : isMarker m = true) (hbefore : ∀ raw ∈ before, isMarker raw = false)
    (fuel : Nat) (r : Str) (self' : ShaderManagerGL)
    (h : getShaderString fuel fs self id = some (r, self')) :
    getShaderString fuel fs' self id = some (r, self') := by
  cases hf : self.effectSources.find id with
  | some text =>
    rw [getShaderString_hit fuel fs self id text hf] at h
    rw [getShaderString_hit fuel fs' self id text hf]
    exact h
  | none =>
    obtain ⟨st, hl, _, _, _⟩ := getShaderString_miss_some fuel fs self self' id r hf h
    have hl0 := hl
    rw [effectLinesOf_of_read fs self id path content hindex hread, hsplit] at hl
    have hl' : effectLoop self (loadHeaderFileString fs' self fuel) (pureFilenameOf id)
        (effectLinesOf fs' self id) (effectInit self.effectSources) = some st := by
      rw [effectLinesOf_of_read fs' self id path content' hindex hread', hsplit']
      apply effectLoop_blank_before self (loadHeaderFileString fs self fuel) _ _ before rest m
        _ st hm hbefore _ hl
      intro raw hraw hi pre res hr
      apply loadHeaderFileString_off_path fs fs' self path hother fuel _ pre res hr
      intro hreach
      have hinc : Includes fs self path (includedFileOf self raw) :=
        ⟨content, raw, hread, by rw [hsplit]; simp [hraw], hi, rfl⟩
      have hcyc := Relation.TransGen.tail' hreach hinc
      rw [loadHeaderFileString_none_of_cycle fs self _ hcyc fuel pre] at hr
      cases hr
    rw [getShaderString_of_loop fuel fs fs' self id st hl0 hl']
    exact h

/-! ## Line numbers of an output text -/

theorem digitChar_decode (k : Nat) (hk : k < 10) :
    (Nat.digitChar k).toNat - '0'.toNat = k ∧ Nat.digitChar k ≠ '\n' := by
  interval_cases k <;> exact ⟨by decide, by decide⟩

theorem toDigitsCore_decode (fuel : Nat) :
    ∀ (n : Nat) (ds : Str), n < fuel →
      (Nat.toDigitsCore 10 fuel n ds).foldl
          (fun acc c => acc * 10 + (c.toNat - '0'.toNat)) 0
        = ds.foldl (fun acc c => acc * 10 + (c.toNat - '0'.toNat)) n := by
  induction fuel with
  | zero => intro n ds h; omega
  | succ fuel ih =>
    intro n ds h
    have hd := (digitChar_decode (n % 10) (Nat.mod_lt n (by decide))).1
    rw [Nat.toDigitsCore]
    by_cases hz : n / 10 = 0
    · simp only [hz, if_true, List.foldl_cons, Nat.zero_mul, Nat.zero_add]
      rw [hd, Nat.mod_eq_of_lt (by omega)]
    · simp only [hz, if_false]
      rw [ih (n / 10) _ (by omega)]
      simp only [List.foldl_cons]
      rw [hd]
      congr 1
      omega

theorem decodeNat_toString (n : Nat) : decodeNat (toString n) = n := by
  unfold decodeNat toString Nat.toDigits
  rw [toDigitsCore_decode (n + 1) n [] (by omega)]
  rfl

theorem toDigitsCore_no_lf (fuel : Nat) :
    ∀ (n : Nat) (ds : Str), '\n' ∉ ds → '\n' ∉ Nat.toDigitsCore 10 fuel n ds := by
  induction fuel with
  | zero => intro n ds h; exact h
  | succ fuel ih =>
    intro n ds h
    have hd := (digitChar_decode (n % 10) (Nat.mod_lt n (by decide))).2
    have hds : '\n' ∉ Nat.digitChar (n % 10) :: ds := by
      intro hm
      rcases List.mem_cons.mp hm with h1 | h1
      · exact hd h1.symm
      · exact h h1
    rw [Nat.toDigitsCore]
    by_cases hz : n / 10 = 0
    · simp only [hz, if_true]
      exact hds
    · simp only [hz, if_false]
      exact ih _ _ hds

theorem toString_no_lf (n : Nat) : '\n' ∉ toString n :=
  toDigitsCore_no_lf (n + 1) n [] (by simp)

theorem lineDirective_marker (n : Nat) :
    lineDirective ("#line ".data ++ toString n) = some n := by
  unfold lineDirective
  rw [if_pos (startsWith_append _ _)]
  have : ("#line ".data ++ toString n).drop 6 = toString n := rfl
  rw [this, decodeNat_toString]

theorem lineDirective_none (l : Str) (h : startsWith l "#line".data = false) :
    lineDirective l = none := by
  unfold lineDirective
  cases h6 : startsWith l "#line ".data with
  | false => rfl
  | true =>
    have h5 : startsWith l "#line".data = true := by
      unfold startsWith at h6 ⊢
      rw [List.isPrefixOf_iff_prefix] at h6 ⊢
      exact List.IsPrefix.trans ⟨" ".data, rfl⟩ h6
    rw [h] at h5
    cases h5

theorem getlinesAux_lf (a : Str) :
    ∀ (cur w : Str), getlinesAux cur (a ++ '\n' :: w)
      = getlinesAux cur (a ++ ['\n']) ++ getlinesAux [] w := by
  induction a with
  | nil =>
    intro cur w
    show getlinesAux cur ('\n' :: w) = getlinesAux cur ['\n'] ++ _
    rw [getlinesAux, if_pos rfl, getlinesAux, if_pos rfl, getlinesAux, if_pos rfl]
    rfl
  | cons c a ih =>
    intro cur w
    show getlinesAux cur (c :: (a ++ '\n' :: w)) = getlinesAux cur (c :: (a ++ ['\n'])) ++ _
    rw [getlinesAux, getlinesAux]
    by_cases hc : c = '\n'
    · rw [if_pos hc, if_pos hc, ih [] w]
      rfl
    · rw [if_neg hc, if_neg hc, ih (cur ++ [c]) w]

theorem getlines_append (y w : Str) (hy : EndsLine y) :
    getlines (y ++ w) = getlines y ++ getlines w := by
  rcases hy with h | h
  · rw [h]; rfl
  · obtain ⟨ys, hys⟩ := List.getLast?_eq_some_iff.mp h
    rw [hys]
    have : ys ++ ['\n'] ++ w = ys ++ '\n' :: w := by simp
    rw [this]
    exact getlinesAux_lf ys [] w

theorem getlinesAux_line (l : Str) (hl : '\n' ∉ l) :
    ∀ (cur w : Str), getlinesAux cur (l ++ '\n' :: w) = (cur ++ l) :: getlinesAux [] w := by
  induction l with
  | nil =>
    intro cur w
    show getlinesAux cur ('\n' :: w) = _
    rw [getlinesAux, if_pos rfl, List.append_nil]
  | cons c l ih =>
    intro cur w
    have hc : c ≠ '\n' := fun he => hl (by simp [he])
    show getlinesAux cur (c :: (l ++ '\n' :: w)) = _
    rw [getlinesAux, if_neg hc, ih (fun hm => hl (List.mem_cons_of_mem _ hm))]
    simp

theorem getlines_line (l w : Str) (hl : '\n' ∉ l) :
    getlines (l ++ "\n".data ++ w) = l :: getlines w := by
  have : l ++ "\n".data ++ w = l ++ '\n' :: w := by simp
  rw [this]
  exact getlinesAux_line l hl [] w

theorem endsLine_append_lf (y l : Str) : EndsLine (y ++ (l ++ "\n".data)) := by
  right
  have : y ++ (l ++ "\n".data) = (y ++ l) ++ ['\n'] := by simp
  rw [this, List.getLast?_concat]

theorem endsLine_append (y w : Str) (hy : EndsLine y) (hw : EndsLine w) :
    EndsLine (y ++ w) := by
  rcases hw with h | h
  · rw [h, List.append_nil]; exact hy
  · right
    rw [List.getLast?_append, h]
    rfl

theorem endsLine_flatLines (ls : List Str) : EndsLine (flatLines ls) := by
  induction ls with
  | nil => left; rfl
  | cons l ls ih =>
    have : flatLines (l :: ls) = (l ++ "\n".data) ++ flatLines ls := by simp [flatLines]
    rw [this]
    exact endsLine_append _ _ (by
      have := endsLine_append_lf [] l
      simpa using this) ih

theorem nextNumber_append (a b : List Str) :
    ∀ n, nextNumber n (a ++ b) = nextNumber (nextNumber n a) b := by
  induction a with
  | nil => intro n; rfl
  | cons l a ih =>
    intro n
    show nextNumber n (l :: (a ++ b)) = nextNumber (nextNumber n (l :: a)) b
    rw [nextNumber, nextNumber]
    cases lineDirective l with
    | none => exact ih (n + 1)
    | some N => exact ih N

theorem numberLines_append (a b : List Str) :
    ∀ n, numberLines n (a ++ b) = numberLines n a ++ numberLines (nextNumber n a) b := by
  induction a with
  | nil => intro n; rfl
  | cons l a ih =>
    intro n
    show numberLines n (l :: (a ++ b)) = numberLines n (l :: a) ++ numberLines (nextNumber n (l :: a)) b
    rw [numberLines, numberLines, nextNumber]
    cases lineDirective l with
    | none =>
      simp only []
      rw [ih (n + 1)]
      rfl
    | some N => exact ih N

theorem numberedUpTo_marker (y : Str) (n : Nat) (hy : EndsLine y) :
    NumberedUpTo (y ++ ("#line ".data ++ toString n ++ "\n".data)) n := by
  refine ⟨endsLine_append_lf y _, ?_⟩
  have hlf : '\n' ∉ "#line ".data ++ toString n := by
    intro hm
    rcases List.mem_append.mp hm with h | h
    · revert h; decide
    · exact toString_no_lf n h
  rw [getlines_append y _ hy]
  have := getlines_line ("#line ".data ++ toString n) [] hlf
  rw [List.append_nil] at this
  rw [this, nextNumber_append]
  show nextNumber _ [_] = n
  rw [nextNumber, lineDirective_marker]
  rfl

theorem numberedUpTo_line (y l : Str) (n : Nat) (hy : NumberedUpTo y n) (hl : '\n' ∉ l)
    (hd : startsWith l "#line".data = false) :
    NumberedUpTo (y ++ (l ++ "\n".data)) (n + 1) := by
  refine ⟨endsLine_append_lf y l, ?_⟩
  rw [getlines_append y _ hy.1]
  have := getlines_line l [] hl
  rw [List.append_nil] at this
  rw [this, nextNumber_append, hy.2]
  show nextNumber n [l] = n + 1
  rw [nextNumber, lineDirective_none l hd]
  rfl

theorem getlinesAux_no_lf (s : Str) :
    ∀ cur : Str, '\n' ∉ cur → ∀ l ∈ getlinesAux cur s, '\n' ∉ l := by
  induction s with
  | nil =>
    intro cur hcur l hl
    rw [getlinesAux] at hl
    by_cases hc : cur = []
    · rw [if_pos hc] at hl; cases hl
    · rw [if_neg hc] at hl
      rw [List.mem_singleton.mp hl]
      exact hcur
  | cons c s ih =>
    intro cur hcur l hl
    rw [getlinesAux] at hl
    by_cases hc : c = '\n'
    · rw [if_pos hc] at hl
      rcases List.mem_cons.mp hl with h | h
      · rw [h]; exact hcur
      · exact ih [] (by simp) l h
    · rw [if_neg hc] at hl
      refine ih (cur ++ [c]) ?_ l hl
      intro hm
      rcases List.mem_append.mp hm with h | h
      · exact hcur h
      · exact hc (List.mem_singleton.mp h).symm

theorem getlines_no_lf (content : Str) : ∀ l ∈ getlines content, '\n' ∉ l :=
  getlinesAux_no_lf content [] (by simp)

theorem stripCR_no_lf (l : Str) (h : '\n' ∉ l) : '\n' ∉ stripCR l := by
  unfold stripCR
  by_cases hc : l.getLast? = some '\r'
  · rw [if_pos hc]
    exact fun hm => h (List.mem_of_mem_dropLast hm)
  · rw [if_neg hc]
    exact h

theorem bodyLines_numbered (self : ShaderManagerGL) (recurB : Str → Str) (before : List Str) :
    ∀ (y : Str) (n : Nat), NumberedUpTo y n → (∀ l ∈ before, '\n' ∉ l) →
      (∀ l ∈ before, startsWith (stripCR l) "#line".data = false) →
      NumberedUpTo (y ++ bodyLines self recurB n before) (n + before.length) := by
  induction before with
  | nil =>
    intro y n hy _ _
    rw [bodyLines, List.append_nil]
    exact hy
  | cons raw rest ih =>
    intro y n hy hlf hno
    have hrest := ih
    rw [bodyLines, ← List.append_assoc]
    have hn : n + (raw :: rest).length = n + 1 + rest.length := by
      simp only [List.length_cons]; omega
    rw [hn]
    apply ih _ (n + 1) _ (fun l hl => hlf l (List.mem_cons_of_mem _ hl))
      (fun l hl => hno l (List.mem_cons_of_mem _ hl))
    by_cases hi : startsWith (stripCR raw) "#include".data = true
    · rw [if_pos hi, ← List.append_assoc]
      exact numberedUpTo_marker _ (n + 1) (endsLine_append_lf y _)
    · rw [if_neg hi]
      by_cases hd : isDirective (stripCR raw) = true
      · rw [if_pos hd]
        exact numberedUpTo_marker y (n + 1) hy.1
      · rw [if_neg hd]
        exact numberedUpTo_line y (stripCR raw) n hy
          (stripCR_no_lf raw (hlf raw (List.mem_cons_self _ _)))
          (hno raw (List.mem_cons_self _ _))

theorem line_numbered (self : ShaderManagerGL) (recurB : Str → Str) (y : Str) (n : Nat)
    (before after : List Str) (x : Str) (hy : NumberedUpTo y n)
    (hlf : ∀ l ∈ before ++ x :: after, '\n' ∉ l)
    (hno : ∀ l ∈ before, startsWith (stripCR l) "#line".data = false)
    (hx : isOrdinary (stripCR x) = true) (hxl : startsWith (stripCR x) "#line".data = false) :
    y ++ bodyLines self recurB n (before ++ x :: after)
        = (y ++ bodyLines self recurB n before) ++ (stripCR x ++ "\n".data)
          ++ bodyLines self recurB (n + before.length + 1) after
      ∧ numberLines 1 (getlines (y ++ bodyLines self recurB n (before ++ x :: after)))
        = numberLines 1 (getlines (y ++ bodyLines self recurB n before))
          ++ (n + before.length, stripCR x)
            :: numberLines (n + before.length + 1)
              (getlines (bodyLines self recurB (n + before.length + 1) after)) := by
  have hq := bodyLines_numbered self recurB before y n hy
    (fun l hl => hlf l (List.mem_append_left _ hl)) hno
  unfold isOrdinary at hx
  simp only [Bool.and_eq_true, Bool.not_eq_true'] at hx
  have htext : y ++ bodyLines self recurB n (before ++ x :: after)
      = (y ++ bodyLines self recurB n before) ++ (stripCR x ++ "\n".data)
        ++ bodyLines self recurB (n + before.length + 1) after := by
    rw [bodyLines_append, bodyLines, hx.1, hx.2]
    simp only [Bool.false_eq_true, if_false, List.append_assoc]
  refine ⟨htext, ?_⟩
  rw [htext, List.append_assoc, getlines_append _ _ hq.1,
    getlines_line (stripCR x) _ (stripCR_no_lf x (hlf x (by simp))),
    numberLines_append, hq.2, numberLines, lineDirective_none _ hxl]

theorem numberedUpTo_first : NumberedUpTo "#line 1\n".data 1 :=
  numberedUpTo_marker [] 1 (Or.inl rfl)

theorem carriesNumber_of_body (self : ShaderManagerGL) (recurB : Str → Str) (y : Str) (n : Nat)
    (before after : List Str) (x : Str) (hy : NumberedUpTo y n)
    (hlf : ∀ l ∈ before ++ x :: after, '\n' ∉ l)
    (hno : ∀ l ∈ before, startsWith (stripCR l) "#line".data = false)
    (hx : isOrdinary (stripCR x) = true) (hxl : startsWith (stripCR x) "#line".data = false) :
    CarriesNumber (y ++ bodyLines self recurB n (before ++ x :: after))
      (y ++ bodyLines self recurB n before) (stripCR x)
      (bodyLines self recurB (n + before.length + 1) after) (n + before.length) :=
  line_numbered self recurB y n before after x hy hlf hno hx hxl

theorem header_line_number (fs : FileSystem) (self : ShaderManagerGL) (path content : Str)
    (before after : List Str) (x : Str) (hread : openFile fs path = some content)
    (hsplit : getlines content = before ++ x :: after)
    (hno : ∀ l ∈ before, startsWith (stripCR l) "#line".data = false)
    (hx : isOrdinary (stripCR x) = true) (hxl : startsWith (stripCR x) "#line".data = false)
    (fuel : Nat) (pre text pre' : Str)
    (h : loadHeaderFileString fs self fuel path pre = some (text, pre')) :
    ∃ f, fuel = f + 1
      ∧ CarriesNumber text
          ("#line 1\n".data ++ bodyLines self (bodyOfFile fs self f) 1 before) (stripCR x)
          (bodyLines self (bodyOfFile fs self f) (1 + before.length + 1) after)
          (1 + before.length) := by
  obtain ⟨f, st, hf, _, _, htext⟩ :=
    loadHeaderFileString_readable fs self fuel path content pre _ hread h
  refine ⟨f, hf, ?_⟩
  simp only [] at htext
  rw [htext, hsplit]
  exact carriesNumber_of_body self _ _ 1 before after x numberedUpTo_first
    (by rw [← hsplit]; exact getlines_no_lf content) hno hx hxl

theorem header_directive_marker (fs : FileSystem) (self : ShaderManagerGL)
    (path content : Str) (before after : List Str) (d : Str)
    (hread : openFile fs path = some content)
    (hsplit : getlines content = before ++ d :: after)
    (hd : isDirective (stripCR d) = true)
    (fuel : Nat) (pre text pre' : Str)
    (h : loadHeaderFileString fs self fuel path pre = some (text, pre')) :
    ∃ f, fuel = f + 1
      ∧ text = "#line 1\n".data ++ bodyLines self (bodyOfFile fs self f) 1 before
          ++ ("#line ".data ++ toString (1 + before.length + 1) ++ "\n".data)
          ++ bodyLines self (bodyOfFile fs self f) (1 + before.length + 1) after := by
  obtain ⟨f, st, hf, _, _, htext⟩ :=
    loadHeaderFileString_readable fs self fuel path content pre _ hread h
  refine ⟨f, hf, ?_⟩
  simp only [] at htext
  have hi : startsWith (stripCR d) "#include".data = false := by
    cases hh : startsWith (stripCR d) "#include".data with
    | false => rfl
    | true =>
      have := include_not_directive _ hh
      unfold isDirective at hd
      rw [hd] at this
      cases this
  rw [htext, hsplit, bodyLines_append, bodyLines, hi, hd]
  simp only [Bool.false_eq_true, if_false, if_true, List.append_assoc]

theorem section_line_number (fs : FileSystem) (self : ShaderManagerGL)
    (id path content : Str) (before rb ra after : List Str) (m x : Str)
    (hmiss : self.effectSources.find id = none)
    (hindex : self.shaderFileMap.find (pureFilenameOf id ++ ".glsl".data) = some path)
    (hread : openFile fs path = some content)
    (hsplit : getlines content = before ++ m :: ((rb ++ x :: ra) ++ after))
    (hm : isMarker m = true) (hreg : ∀ raw ∈ rb ++ x :: ra, isMarker raw = false)
    (hafter : after = [] ∨ ∃ m' rest, after = m' :: rest ∧ isMarker m' = true)
    (hfirst : markerKey (pureFilenameOf id) m ∉ markerKeys (pureFilenameOf id) before)
    (hkey : self.effectSources.find (markerKey (pureFilenameOf id) m) = none)
    (hD : EndsLine (getPreprocessorDefines self))
    (hno : ∀ l ∈ rb, startsWith (stripCR l) "#line".data = false)
    (hx : isOrdinary (stripCR x) = true) (hxl : startsWith (stripCR x) "#line".data = false)
    (fuel : Nat) (r : Str) (self' : ShaderManagerGL)
    (h : getShaderString fuel fs self id = some (r, self')) :
    ∃ text, self'.effectSources.find (markerKey (pureFilenameOf id) m) = some text
      ∧ CarriesNumber text
          (flatLines (hoistedLines self (hoistedOfFile fs self fuel) (rb ++ x :: ra))
            ++ getPreprocessorDefines self
            ++ ("#line ".data ++ toString (before.length + 1 + 1) ++ "\n".data)
            ++ bodyLines self (bodyOfFile fs self fuel) (before.length + 1 + 1) rb)
          (stripCR x)
          (bodyLines self (bodyOfFile fs self fuel) (before.length + 1 + 1 + rb.length + 1) ra)
          (before.length + 1 + 1 + rb.length) := by
  have hlines := effectLinesOf_of_read fs self id path content hindex hread
  have hst := section_stored fs self self' fuel id r before (rb ++ x :: ra) after m hmiss h
    (by rw [hlines]; exact hsplit) hm hreg hafter hfirst hkey
  refine ⟨_, hst, ?_⟩
  have hy := numberedUpTo_marker
    (flatLines (hoistedLines self (hoistedOfFile fs self fuel) (rb ++ x :: ra))
      ++ getPreprocessorDefines self) (before.length + 1 + 1)
    (endsLine_append _ _ (endsLine_flatLines _) hD)
  have hlf : ∀ l ∈ rb ++ x :: ra, '\n' ∉ l := by
    intro l hl
    apply getlines_no_lf content
    rw [hsplit]
    simp only [List.mem_append, List.mem_cons] at hl ⊢
    tauto
  have hc := carriesNumber_of_body self (bodyOfFile fs self fuel) _ _ rb ra x hy hlf hno hx hxl
  unfold sectionText
  simp only [List.append_assoc] at hc ⊢
  exact hc

theorem unnamed_line_number (fs : FileSystem) (self : ShaderManagerGL)
    (id path content : Str) (before after : List Str) (x : Str)
    (hmiss : self.effectSources.find id = none)
    (hindex : self.shaderFileMap.find (pureFilenameOf id ++ ".glsl".data) = some path)
    (hread : openFile fs path = some content)
    (hsplit : getlines content = before ++ x :: after)
    (hnomarker : ∀ raw ∈ getlines content, isMarker raw = false)
    (hkey : self.effectSources.find (pureFilenameOf id ++ ".glsl".data) = none)
    (hno : ∀ l ∈ before, startsWith (stripCR l) "#line".data = false)
    (hx : isOrdinary (stripCR x) = true) (hxl : startsWith (stripCR x) "#line".data = false)
    (fuel : Nat) (r : Str) (self' : ShaderManagerGL)
    (h : getShaderString fuel fs self id = some (r, self')) :
    ∃ text, self'.effectSources.find (pureFilenameOf id ++ ".glsl".data) = some text
      ∧ CarriesNumber text
          (flatLines (hoistedLines self (hoistedOfFile fs self fuel) (before ++ x :: after))
            ++ ("#line ".data ++ toString 1 ++ "\n".data)
            ++ bodyLines self (bodyOfFile fs self fuel) 1 before)
          (stripCR x)
          (bodyLines self (bodyOfFile fs self fuel) (1 + before.length + 1) after)
          (1 + before.length) := by
  have hst := unnamed_stored fs self self' fuel id r path content hmiss hindex hread
    hnomarker hkey h
  refine ⟨_, hst, ?_⟩
  have hy := numberedUpTo_marker
    (flatLines (hoistedLines self (hoistedOfFile fs self fuel) (before ++ x :: after))) 1
    (endsLine_flatLines _)
  have hlf : ∀ l ∈ before ++ x :: after, '\n' ∉ l := by
    rw [← hsplit]; exact getlines_no_lf content
  have hc := carriesNumber_of_body self (bodyOfFile fs self fuel) _ _ before after x hy hlf
    hno hx hxl
  rw [hsplit]
  have h1 : ("#line 1\n".data : Str) = "#line ".data ++ toString 1 ++ "\n".data := by decide
  rw [h1]
  simp only [List.append_assoc] at hc ⊢
  exact hc

theorem bodyLines_directive_split (self : ShaderManagerGL) (recurB : Str → Str) (n : Nat)
    (b a : List Str) (d : Str) (hd : isDirective (stripCR d) = true) :
    bodyLines self recurB n (b ++ d :: a)
      = bodyLines self recurB n b
        ++ ("#line ".data ++ toString (n + b.length + 1) ++ "\n".data)
        ++ bodyLines self recurB (n + b.length + 1) a := by
  have hi : startsWith (stripCR d) "#include".data = false := by
    cases hh : startsWith (stripCR d) "#include".data with
    | false => rfl
    | true =>
      have := include_not_directive _ hh
      unfold isDirective at hd
      rw [hd] at this
      cases this
  rw [bodyLines_append, bodyLines, hi, hd]
  simp only [Bool.false_eq_true, if_false, if_true, List.append_assoc]

theorem section_directive_marker (fs : FileSystem) (self : ShaderManagerGL)
    (id path content : Str) (before rb ra after : List Str) (m d : Str)
    (hmiss : self.effectSources.find id = none)
    (hindex : self.shaderFileMap.find (pureFilenameOf id ++ ".glsl".data) = some path)
    (hread : openFile fs path = some content)
    (hsplit : getlines content = before ++ m :: ((rb ++ d :: ra) ++ after))
    (hm : isMarker m = true) (hreg : ∀ raw ∈ rb ++ d :: ra, isMarker raw = false)
    (hafter : after = [] ∨ ∃ m' rest, after = m' :: rest ∧ isMarker m' = true)
    (hfirst : markerKey (pureFilenameOf id) m ∉ markerKeys (pureFilenameOf id) before)
    (hkey : self.effectSources.find (markerKey (pureFilenameOf id) m) = none)
    (hd : isDirective (stripCR d) = true)
    (fuel : Nat) (r : Str) (self' : ShaderManagerGL)
    (h : getShaderString fuel fs self id = some (r, self')) :
    self'.effectSources.find (markerKey (pureFilenameOf id) m)
      = some (flatLines (hoistedLines self (hoistedOfFile fs self fuel) (rb ++ d :: ra))
          ++ getPreprocessorDefines self
          ++ ("#line ".data ++ toString (before.length + 1 + 1) ++ "\n".data)
          ++ bodyLines self (bodyOfFile fs self fuel) (before.length + 1 + 1) rb
          ++ ("#line ".data ++ toString (before.length + 1 + 1 + rb.length + 1) ++ "\n".data)
          ++ bodyLines self (bodyOfFile fs self fuel) (before.length + 1 + 1 + rb.length + 1)
            ra) := by
  have hlines := effectLinesOf_of_read fs self id path content hindex hread
  have hst := section_stored fs self self' fuel id r before (rb ++ d :: ra) after m hmiss h
    (by rw [hlines]; exact hsplit) hm hreg hafter hfirst hkey
  rw [hst]
  unfold sectionText
  rw [bodyLines_directive_split self _ _ rb ra d hd]
  simp only [List.append_assoc]

theorem findLastOf_of_mem (c : Char) (s : Str) (h : c ∈ s) :
    ∃ i : Nat, findLastOf c s = Int.ofNat i := by
  induction s with
  | nil => cases h
  | cons x t ih =>
    rw [findLastOf]
    cases hf : findLastOf c t with
    | ofNat i => exact ⟨i + 1, rfl⟩
    | negSucc n =>
      by_cases hx : x = c
      · exact ⟨0, by simp only [hx, if_true]; rfl⟩
      · have hm : c ∈ t := by
          rcases List.mem_cons.mp h with h1 | h1
          · exact absurd h1.symm hx
          · exact h1
        obtain ⟨i, hi⟩ := ih hm
        rw [hf] at hi
        cases hi

theorem findLastOf_pos (c : Char) (a rest : Str) (ha : a ≠ []) :
    findLastOf c (a ++ c :: rest) > 0 := by
  cases a with
  | nil => exact absurd rfl ha
  | cons x t =>
    show findLastOf c (x :: (t ++ c :: rest)) > 0
    obtain ⟨i, hi⟩ := findLastOf_of_mem c (t ++ c :: rest) (by simp)
    rw [findLastOf, hi]
    show Int.ofNat (i + 1) > 0
    simp only [Int.ofNat_eq_coe]
    omega

theorem getHeaderName_quoted_branch (self other : ShaderManagerGL) (a rest : Str) (ha : a ≠ [])
    (hqa : dquote ∉ a) :
    getHeaderName other (a ++ dquote :: rest) = getHeaderName self (a ++ dquote :: rest) := by
  have hfirst : findChar dquote (a ++ dquote :: rest) = Int.ofNat a.length :=
    findChar_append_of_not_mem dquote a _ hqa
  have hpos : 0 < a.length := List.length_pos.mpr ha
  have hlast := findLastOf_pos dquote a rest ha
  have hc : findChar dquote (a ++ dquote :: rest) > 0
      ∧ findLastOf dquote (a ++ dquote :: rest) > 0 := by
    refine ⟨?_, hlast⟩
    rw [hfirst]
    simp only [Int.ofNat_eq_coe]
    omega
  unfold getHeaderName
  simp only []
  rw [if_pos hc, if_pos hc]

theorem toLower_ne_zero (c : Char) (h : c ≠ Char.ofNat 0) : c.toLower ≠ Char.ofNat 0 := by
  intro h0
  apply h
  unfold Char.toLower at h0
  simp only [] at h0
  by_cases hc : c.toNat ≥ 65 ∧ c.toNat ≤ 90
  · rw [if_pos hc] at h0
    exfalso
    obtain ⟨h1, h2⟩ := hc
    generalize c.toNat = n at h0 h1 h2
    interval_cases n <;> exact absurd h0 (by decide)
  · rw [if_neg hc] at h0
    exact h0

theorem cStr_toLowerCopy (s : Str) (h : Char.ofNat 0 ∉ s) :
    cStr (toLowerCopy s) = toLowerCopy s := by
  unfold cStr
  rw [List.takeWhile_eq_self_iff]
  intro c hc
  unfold toLowerCopy at hc
  obtain ⟨x, hx, hxc⟩ := List.mem_map.mp hc
  have hx0 : x ≠ Char.ofNat 0 := fun he => h (he ▸ hx)
  have := toLower_ne_zero x hx0
  rw [hxc] at this
  simpa using this

/-! ## Include cycles with a bound on the open files -/

/-- C1. Cache hit: when the id is a key of `effectSources`, `getShaderString` returns exactly
the stored text and leaves the cache and every other member of the manager unchanged, whatever
the file system and however deep includes may nest. -/
theorem C1_cache_hit (fuel : Nat) (fs : FileSystem) (self : ShaderManagerGL) (id text : Str)
    (h : self.effectSources.find id = some text) :
    getShaderString fuel fs self id = some (text, self) :=
  getShaderString_hit fuel fs self id text h

theorem C1_cache_hit_witness :
    sampleCached.effectSources.find "A.Vertex".data = some "cached".data
      ∧ getShaderString 0 sampleFs sampleCached "A.Vertex".data
          = some ("cached".data, sampleCached) :=
  ⟨by decide, C1_cache_hit 0 sampleFs sampleCached _ _ (by decide)⟩

/-- C2. Idempotence: whenever a call `getShaderString(id)` returns, be it with a resolved text
or with the failure value, the same call made right afterwards returns the identical text (and
leaves the manager as the first call left it), also when more nesting depth is allowed. -/
theorem C2_idempotent (fuel : Nat) (fs : FileSystem) (self self' : ShaderManagerGL)
    (id r : Str) (h : getShaderString fuel fs self id = some (r, self')) :
    ∀ fuel', fuel ≤ fuel' → getShaderString fuel' fs self' id = some (r, self') :=
  fun fuel' hle =>
    getShaderString_mono fs self' id fuel fuel' hle (r, self')
      (getShaderString_again fuel fs self self' id r h)

theorem C2_idempotent_witness :
    getShaderString 1 sampleFs sampleManager "A.Nothing".data = some ([], sampleParsed)
      ∧ getShaderString 1 sampleFs sampleParsed "A.Nothing".data = some ([], sampleParsed)
      ∧ getShaderString 1 sampleFs sampleManager "A.Vertex".data
        = some (("#version 430\n#extension x\n#define K 1\nG\n#line 3\n#line 4\n#line 1\n"
            ++ "#line 2\nb1\nb2\n\n#line 5\nv\n").data, sampleParsed)
      ∧ getShaderString 2 sampleFs sampleParsed "A.Vertex".data
        = some (("#version 430\n#extension x\n#define K 1\nG\n#line 3\n#line 4\n#line 1\n"
            ++ "#line 2\nb1\nb2\n\n#line 5\nv\n").data, sampleParsed) :=
  ⟨by decide, C2_idempotent 1 sampleFs sampleManager sampleParsed _ _ (by decide) 1 (by decide),
    by decide, C2_idempotent 1 sampleFs sampleManager sampleParsed _ _ (by decide) 2 (by decide)⟩

/-- C3. Write-once, monotone cache: every key present in `effectSources` before a call of
`getShaderString` is present after it with the same text. -/
theorem C3_cache_monotone (fuel : Nat) (fs : FileSystem) (self self' : ShaderManagerGL)
    (id r : Str) (h : getShaderString fuel fs self id = some (r, self'))
    (k v : Str) (hk : self.effectSources.find k = some v) :
    self'.effectSources.find k = some v := by
  cases hf : self.effectSources.find id with
  | some text =>
    rw [getShaderString_hit fuel fs self id text hf] at h
    simp only [Option.some.injEq, Prod.mk.injEq] at h
    rw [← h.2]; exact hk
  | none =>
    rw [getShaderString_miss fuel fs self id hf] at h
    cases hl : effectLoop self (loadHeaderFileString fs self fuel) (pureFilenameOf id)
        (effectLinesOf fs self id) (effectInit self.effectSources) with
    | none => rw [hl] at h; simp at h
    | some st =>
      rw [hl] at h
      simp only [Option.map_some', Option.some.injEq, Prod.mk.injEq] at h
      rw [← h.2]
      exact find_insertAll_of_some _ _ k v hk

theorem C3_cache_monotone_witness :
    getShaderString 1 sampleFs sampleCached "A.Fragment".data
        = some ("#define K 1\nG\n#line 7\nf\n".data, sampleCachedParsed)
      ∧ sampleCached.effectSources.find "A.Vertex".data = some "cached".data
      ∧ sampleCachedParsed.effectSources.find "A.Vertex".data = some "cached".data :=
  ⟨by decide, by decide,
    C3_cache_monotone 1 sampleFs sampleCached sampleCachedParsed "A.Fragment".data
      "#define K 1\nG\n#line 7\nf\n".data (by decide) _ _ (by decide)⟩

/-- C4. Section completeness: let `Base.glsl` be indexed and readable and let `-- N` be one of
its marker lines. A call of `getShaderString` on a cache miss for an id with base name `Base`
returns whenever includes do not nest in a cycle, and every returning call leaves the key
`Base.N` in the cache, whichever section was asked for. -/
theorem C4_section_completeness (fs : FileSystem) (self : ShaderManagerGL)
    (id path content name : Str)
    (hmiss : self.effectSources.find id = none)
    (hindex : self.shaderFileMap.find (pureFilenameOf id ++ ".glsl".data) = some path)
    (hread : openFile fs path = some content)
    (hmarker : ("-- ".data ++ name) ∈ (getlines content).map stripCR) :
    (∀ rank, IncludesDescend fs self rank → ∀ fuel, rank path ≤ fuel →
        ∃ r self', getShaderString fuel fs self id = some (r, self'))
      ∧ ∀ fuel r self', getShaderString fuel fs self id = some (r, self') →
          (self'.effectSources.find (pureFilenameOf id ++ ".".data ++ name)).isSome = true := by
  constructor
  · intro rank hd fuel hfuel
    apply getShaderString_isSome fs self rank hd id fuel
    rw [getShaderFileName_of_find self _ path hindex]
    exact hfuel
  · intro fuel r self' h
    obtain ⟨st, hl, _, hes, _⟩ := getShaderString_miss_some fuel fs self self' id r hmiss h
    have hk := inserted_keys fs self fuel id st hl
    rw [effectLinesOf_of_read fs self id path content hindex hread] at hk
    have hin : (pureFilenameOf id ++ ".".data ++ name)
        ∈ (inserted fs self fuel id st).map Prod.fst := by
      rw [hk]
      exact markerKeys_subset_sectionKeys _ _ _ (marker_mem_markerKeys _ _ _ hmarker)
    obtain ⟨kv, hkv, hfst⟩ := List.mem_map.mp hin
    have hne := find_insertAll_ne_none_of_mem _ self.effectSources kv hkv
    rw [hfst, ← hes] at hne
    cases hfind : self'.effectSources.find (pureFilenameOf id ++ ".".data ++ name) with
    | none => exact absurd hfind hne
    | some x => rfl

theorem C4_section_completeness_witness :
    IncludesDescend sampleFs sampleManager sampleRank
      ∧ (getShaderString 1 sampleFs sampleManager "A.Fragment".data).isSome = true
      ∧ (sampleParsed.effectSources.find "A.Vertex".data).isSome = true := by
  have h := C4_section_completeness sampleFs sampleManager "A.Fragment".data "/s/A.glsl".data
    "pre\n-- Vertex\n#version 430\n#include \"B.glsl\"\nv\n-- Fragment\r\nf".data "Vertex".data
    (by decide) (by decide) (by decide) (by decide)
  refine ⟨sample_descends, ?_,
    h.2 1 "#define K 1\nG\n#line 7\nf\n".data sampleParsed (by decide)⟩
  obtain ⟨r, self', hr⟩ := h.1 sampleRank sample_descends 1 (by decide)
  rw [hr]; rfl

/-- C5. Unnamed-section fallback: let `Base.glsl` be indexed and readable and contain no line
starting with `-- `, and let neither the requested id (with base name `Base`) nor `Base.glsl`
be cached. A call of `getShaderString` returns whenever includes do not nest in a cycle, and
every returning call adds exactly one entry to the cache, under the key `Base.glsl`: the
expansion of the whole file, that is the preamble and the text `loadHeaderFileString`
produces for the file. A following `getShaderString("Base.glsl")` returns that text, and so
does the call itself when the requested id is `Base.glsl`. -/
theorem C5_unnamed_section (fs : FileSystem) (self : ShaderManagerGL)
    (id path content : Str)
    (hmiss : self.effectSources.find id = none)
    (hkey : self.effectSources.find (pureFilenameOf id ++ ".glsl".data) = none)
    (hindex : self.shaderFileMap.find (pureFilenameOf id ++ ".glsl".data) = some path)
    (hread : openFile fs path = some content)
    (hnomarker : ∀ raw ∈ getlines content, startsWith (stripCR raw) "-- ".data = false) :
    (∀ rank, IncludesDescend fs self rank → ∀ fuel, rank path ≤ fuel →
        ∃ r self', getShaderString fuel fs self id = some (r, self'))
      ∧ ∀ fuel r self', getShaderString fuel fs self id = some (r, self') →
          ∃ body preamble,
            loadHeaderFileString fs self (fuel + 1) path [] = some (body, preamble)
              ∧ self'.effectSources
                = self.effectSources.insert (pureFilenameOf id ++ ".glsl".data)
                    (preamble ++ body)
              ∧ self'.effectSources.find (pureFilenameOf id ++ ".glsl".data)
                = some (preamble ++ body)
              ∧ getShaderString fuel fs self' (pureFilenameOf id ++ ".glsl".data)
                = some (preamble ++ body, self')
              ∧ (id = pureFilenameOf id ++ ".glsl".data → r = preamble ++ body) := by
  constructor
  · intro rank hd fuel hfuel
    apply getShaderString_isSome fs self rank hd id fuel
    rw [getShaderFileName_of_find self _ path hindex]
    exact hfuel
  · intro fuel r self' h
    obtain ⟨st, hl, hres, hes, _⟩ := getShaderString_miss_some fuel fs self self' id r hmiss h
    obtain ⟨hload, hins⟩ :=
      unnamed_section_inserted fs self fuel id path content st hindex hread hnomarker hl
    rw [hins] at hes hres
    have hes' : self'.effectSources
        = self.effectSources.insert (pureFilenameOf id ++ ".glsl".data)
            (st.prependContent ++ st.shaderContent) := hes
    have hfind : self'.effectSources.find (pureFilenameOf id ++ ".glsl".data)
        = some (st.prependContent ++ st.shaderContent) := by
      rw [hes', StdMap.find_insert]
      simp [hkey]
    refine ⟨st.shaderContent, st.prependContent, hload, hes', hfind,
      getShaderString_hit fuel fs self' _ _ hfind, fun hid => ?_⟩
    rw [hres]
    simp [findEntries, ← hid]

theorem C5_unnamed_section_witness :
    IncludesDescend sampleFs sampleManager sampleRank
      ∧ getShaderString 1 sampleFs sampleManager "U.glsl".data
        = some ("#extension x\n#line 1\nu1\n#line 1\n#line 2\nb1\nb2\n\n#line 3\nu2\n".data,
            sampleUParsed)
      ∧ loadHeaderFileString sampleFs sampleManager 2 "/s/U.glsl".data []
        = some ("#line 1\nu1\n#line 1\n#line 2\nb1\nb2\n\n#line 3\nu2\n".data,
            "#extension x\n".data)
      ∧ sampleUParsed.effectSources.entries.length = 1
      ∧ (getShaderString 1 sampleFs sampleUParsed "U.glsl".data).isSome = true := by
  have h := C5_unnamed_section sampleFs sampleManager "U.glsl".data "/s/U.glsl".data
    "u1\n#include \"B.glsl\"\nu2\n".data (by decide) (by decide) (by decide) (by decide)
    (by decide)
  obtain ⟨body, preamble, _, _, _, h4, _⟩ := h.2 1 _ sampleUParsed
    (show getShaderString 1 sampleFs sampleManager "U.glsl".data
      = some ("#extension x\n#line 1\nu1\n#line 1\n#line 2\nb1\nb2\n\n#line 3\nu2\n".data,
        sampleUParsed) by decide)
  refine ⟨sample_descends, by decide, by decide, by decide, ?_⟩
  have h5 : getShaderString 1 sampleFs sampleUParsed "U.glsl".data
      = some (preamble ++ body, sampleUParsed) := h4
  rw [h5]; rfl

/-- C6. Missing file: with an empty file index, an empty cache and no file at all,
`getShaderString("NoSuchFile.glsl")` returns the text `#line 1` followed by a line feed, not
the empty string, whereas `getShaderString("NoSuchFile.Vertex")` returns the empty string. -/
theorem C6_missing_file_returns_line_marker :
    getShaderString 0 emptyFs emptyManager "NoSuchFile.glsl".data
        = some ("#line 1\n".data, emptyManagerAfter)
      ∧ (getShaderString 0 emptyFs emptyManager "NoSuchFile.Vertex".data).map Prod.fst
        = some [] := by
  decide

/-- C7. Missing file and the cache: with an empty file index, an empty cache and no file at
all, `getShaderString("NoSuchFile.Vertex")` returns the empty string and leaves the new entry
`NoSuchFile.glsl` in the cache, so the cache after the call differs from the cache before. -/
theorem C7_missing_file_modifies_cache :
    getShaderString 0 emptyFs emptyManager "NoSuchFile.Vertex".data
        = some ([], emptyManagerAfter)
      ∧ emptyManager.effectSources.entries = []
      ∧ emptyManagerAfter.effectSources.entries
        = [("NoSuchFile.glsl".data, "#line 1\n".data)]
      ∧ emptyManagerAfter.effectSources ≠ emptyManager.effectSources := by
  decide

/-- C8. Missing section: let the base file be indexed and readable and let the requested id,
not cached so far, be none of the composite ids the file defines. A call of
`getShaderString` returns whenever includes do not nest in a cycle; every returning call
returns the empty string, leaves the id out of the cache, and leaves every composite id the
file does define in the cache. -/
theorem C8_missing_section (fs : FileSystem) (self : ShaderManagerGL)
    (id path content : Str)
    (hmiss : self.effectSources.find id = none)
    (hindex : self.shaderFileMap.find (pureFilenameOf id ++ ".glsl".data) = some path)
    (hread : openFile fs path = some content)
    (hno : id ∉ sectionKeys (pureFilenameOf id) (getlines content)) :
    (∀ rank, IncludesDescend fs self rank → ∀ fuel, rank path ≤ fuel →
        ∃ r self', getShaderString fuel fs self id = some (r, self'))
      ∧ ∀ fuel r self', getShaderString fuel fs self id = some (r, self') →
          r = [] ∧ self'.effectSources.find id = none
            ∧ ∀ k ∈ sectionKeys (pureFilenameOf id) (getlines content),
                (self'.effectSources.find k).isSome = true := by
  constructor
  · intro rank hd fuel hfuel
    apply getShaderString_isSome fs self rank hd id fuel
    rw [getShaderFileName_of_find self _ path hindex]
    exact hfuel
  · intro fuel r self' h
    obtain ⟨st, hl, hr, hes, _⟩ := getShaderString_miss_some fuel fs self self' id r hmiss h
    have hk := inserted_keys fs self fuel id st hl
    rw [effectLinesOf_of_read fs self id path content hindex hread] at hk
    have hnone : findEntries id (inserted fs self fuel id st) = none := by
      rw [findEntries_eq_none_iff]
      intro p hp hpe
      have hin : id ∈ (inserted fs self fuel id st).map Prod.fst :=
        List.mem_map.mpr ⟨p, hp, hpe⟩
      rw [hk] at hin
      exact hno hin
    refine ⟨by rw [hr, hnone]; rfl, ?_, ?_⟩
    · rw [hes, find_insertAll_of_none _ _ _ hmiss, hnone]
    · intro k hkmem
      rw [← hk] at hkmem
      obtain ⟨kv, hkv, hfst⟩ := List.mem_map.mp hkmem
      have hne := find_insertAll_ne_none_of_mem _ self.effectSources kv hkv
      rw [hfst, ← hes] at hne
      cases hfind : self'.effectSources.find k with
      | none => exact absurd hfind hne
      | some x => rfl

theorem C8_missing_section_witness :
    IncludesDescend sampleFs sampleManager sampleRank
      ∧ getShaderString 1 sampleFs sampleManager "A.Nothing".data = some ([], sampleParsed)
      ∧ sampleParsed.effectSources.find "A.Nothing".data = none
      ∧ (sampleParsed.effectSources.find "A.Vertex".data).isSome = true
      ∧ (sampleParsed.effectSources.find "A.Fragment".data).isSome = true := by
  have h := C8_missing_section sampleFs sampleManager "A.Nothing".data "/s/A.glsl".data
    "pre\n-- Vertex\n#version 430\n#include \"B.glsl\"\nv\n-- Fragment\r\nf".data
    (by decide) (by decide) (by decide) (by decide)
  have h2 := h.2 1 [] sampleParsed (by decide)
  exact ⟨sample_descends, by decide, h2.2.1, h2.2.2 "A.Vertex".data (by decide),
    h2.2.2 "A.Fragment".data (by decide)⟩

/-- C10. The define block: `getPreprocessorDefines` returns the lines
`#define <key> <value>` of all pairs of the define table, each closed by a line feed, in
ascending key order, followed by the global defines text verbatim. The pairs in iteration
order are exactly the registered ones, and their keys ascend strictly. -/
theorem C10_define_block (self : ShaderManagerGL) :
    getPreprocessorDefines self
        = (self.preprocessorDefines.entries.map
            (fun kv => "#define ".data ++ kv.1 ++ " ".data ++ kv.2 ++ "\n".data)).flatten
          ++ self.globalDefines
      ∧ self.preprocessorDefines.entries.Pairwise (fun a b => strLt a.1 b.1 = true)
      ∧ ∀ k v, (k, v) ∈ self.preprocessorDefines.entries
          ↔ self.preprocessorDefines.find k = some v := by
  refine ⟨?_, self.preprocessorDefines.sorted,
    fun k v => mem_iff_findEntries _ self.preprocessorDefines.sorted k v⟩
  unfold getPreprocessorDefines
  rw [foldl_defineLine]
  rfl

/-- C11. Preamble hoisting to the top: let the effect file of an id that is not cached be
indexed and readable. A call of `getShaderString` returns whenever includes do not nest in a
cycle. After every returning call the text of each section is `P ++ R`: `P` holds the
`#version` and `#extension` lines met in the section's region of the file and in the files
it includes, directly or transitively, in depth-first encounter order, each followed by a
line feed; `R` is the rest of the text, in which every such line is replaced by a line
marker. This holds for the section of a marker line (its region are the lines up to the next
marker line or the end of the file; the key is not cached and no earlier marker line has the
same name) and for the unnamed section of a file without marker line. The text returned is
the text found in the cache under the id. -/
theorem C11_preamble_hoisted (fs : FileSystem) (self : ShaderManagerGL)
    (id path content : Str)
    (hmiss : self.effectSources.find id = none)
    (hindex : self.shaderFileMap.find (pureFilenameOf id ++ ".glsl".data) = some path)
    (hread : openFile fs path = some content) :
    (∀ rank, IncludesDescend fs self rank → ∀ fuel, rank path ≤ fuel →
        ∃ r self', getShaderString fuel fs self id = some (r, self'))
      ∧ ∀ fuel r self', getShaderString fuel fs self id = some (r, self') →
          (∀ before m region after, getlines content = before ++ m :: (region ++ after) →
            isMarker m = true → (∀ raw ∈ region, isMarker raw = false) →
            (after = [] ∨ ∃ m' rest, after = m' :: rest ∧ isMarker m' = true) →
            markerKey (pureFilenameOf id) m ∉ markerKeys (pureFilenameOf id) before →
            self.effectSources.find (markerKey (pureFilenameOf id) m) = none →
            self'.effectSources.find (markerKey (pureFilenameOf id) m)
              = some (flatLines (hoistedLines self (hoistedOfFile fs self fuel) region)
                  ++ (getPreprocessorDefines self ++ "#line ".data
                    ++ toString (before.length + 2) ++ "\n".data
                    ++ bodyLines self (bodyOfFile fs self fuel) (before.length + 2) region)))
          ∧ ((∀ raw ∈ getlines content, isMarker raw = false) →
            self.effectSources.find (pureFilenameOf id ++ ".glsl".data) = none →
            self'.effectSources.find (pureFilenameOf id ++ ".glsl".data)
              = some (flatLines
                    (hoistedLines self (hoistedOfFile fs self fuel) (getlines content))
                  ++ ("#line 1\n".data
                    ++ bodyLines self (bodyOfFile fs self fuel) 1 (getlines content))))
          ∧ r = (self'.effectSources.find id).getD [] := by
  constructor
  · intro rank hd fuel hfuel
    apply getShaderString_isSome fs self rank hd id fuel
    rw [getShaderFileName_of_find self _ path hindex]
    exact hfuel
  · intro fuel r self' h
    have hlines := effectLinesOf_of_read fs self id path content hindex hread
    refine ⟨?_, ?_, returned_eq_find fs self self' fuel id r hmiss h⟩
    · intro before m region after hsplit hm hreg hafter hfirst hkey
      exact section_stored fs self self' fuel id r before region after m hmiss h
        (by rw [hlines]; exact hsplit) hm hreg hafter hfirst hkey
    · intro hnomarker hkey
      exact unnamed_stored fs self self' fuel id r path content hmiss hindex hread
        hnomarker hkey h

theorem C11_preamble_hoisted_witness :
    getShaderString 1 sampleFs sampleManager "A.Vertex".data
        = some (("#version 430\n#extension x\n#define K 1\nG\n#line 3\n#line 4\n#line 1\n"
            ++ "#line 2\nb1\nb2\n\n#line 5\nv\n").data, sampleParsed)
      ∧ flatLines (hoistedLines sampleManager (hoistedOfFile sampleFs sampleManager 1)
          ["#version 430".data, "#include \"B.glsl\"".data, "v".data])
        = "#version 430\n#extension x\n".data
      ∧ sampleParsed.effectSources.find "A.Vertex".data
        = some (flatLines (hoistedLines sampleManager (hoistedOfFile sampleFs sampleManager 1)
              ["#version 430".data, "#include \"B.glsl\"".data, "v".data])
            ++ (getPreprocessorDefines sampleManager ++ "#line ".data ++ toString 3
              ++ "\n".data
              ++ bodyLines sampleManager (bodyOfFile sampleFs sampleManager 1) 3
                ["#version 430".data, "#include \"B.glsl\"".data, "v".data])) :=
  ⟨by decide, by decide,
    ((C11_preamble_hoisted sampleFs sampleManager "A.Vertex".data "/s/A.glsl".data
      "pre\n-- Vertex\n#version 430\n#include \"B.glsl\"\nv\n-- Fragment\r\nf".data
      (by decide) (by decide) (by decide)).2 1
        ("#version 430\n#extension x\n#define K 1\nG\n#line 3\n#line 4\n#line 1\n"
          ++ "#line 2\nb1\nb2\n\n#line 5\nv\n").data sampleParsed (by decide)).1
      ["pre".data] "-- Vertex".data
      ["#version 430".data, "#include \"B.glsl\"".data, "v".data]
      ["-- Fragment\r".data, "f".data]
      (by decide) (by decide) (by decide)
      (Or.inr ⟨"-- Fragment\r".data, ["f".data], rfl, by decide⟩) (by decide) (by decide)⟩

/-- C12, the claim as stated fails: the section `D.Vertex` of the second sample includes the
header `V.glsl` twice, the header holds the line `#version 430`, and that line occurs twice
in the text returned. -/
theorem C12_version_line_twice :
    getShaderString 1 dupFs dupManager "D.Vertex".data
        = some (("#version 430\n#version 430\n#line 2\n#line 1\n#line 2\nv1\n\n#line 3\n"
            ++ "#line 1\n#line 2\nv1\n\n#line 4\nd\n").data, dupParsed)
      ∧ (getlines ("#version 430\n#version 430\n#line 2\n#line 1\n#line 2\nv1\n\n#line 3\n"
            ++ "#line 1\n#line 2\nv1\n\n#line 4\nd\n").data).count "#version 430".data = 2 := by
  decide

/-- C12, amended. Hoisted lines are kept as often as they are met: let the region of a
section hold two include lines, and let the files they resolve to (the same header or two
different ones) each bring the `#version` or `#extension` line `l`. A call of
`getShaderString` returns whenever includes do not nest in a cycle, and after every returning
call the section's text is its preamble followed by the rest, where the preamble holds the
hoisted lines met in depth-first encounter order and the line `l` occurs among them at least
twice: nothing removes a repeated line. -/
theorem C12_preamble_keeps_repeats (fs : FileSystem) (self : ShaderManagerGL)
    (id path content : Str) (before r1 r2 r3 after : List Str) (m i1 i2 l : Str)
    (hmiss : self.effectSources.find id = none)
    (hindex : self.shaderFileMap.find (pureFilenameOf id ++ ".glsl".data) = some path)
    (hread : openFile fs path = some content)
    (hsplit : getlines content = before ++ m :: ((r1 ++ i1 :: (r2 ++ i2 :: r3)) ++ after))
    (hm : isMarker m = true)
    (hreg : ∀ raw ∈ r1 ++ i1 :: (r2 ++ i2 :: r3), isMarker raw = false)
    (hafter : after = [] ∨ ∃ m' rest, after = m' :: rest ∧ isMarker m' = true)
    (hfirst : markerKey (pureFilenameOf id) m ∉ markerKeys (pureFilenameOf id) before)
    (hkey : self.effectSources.find (markerKey (pureFilenameOf id) m) = none)
    (hi1 : startsWith (stripCR i1) "#include".data = true)
    (hi2 : startsWith (stripCR i2) "#include".data = true) :
    (∀ rank, IncludesDescend fs self rank → ∀ fuel, rank path ≤ fuel →
        ∃ r self', getShaderString fuel fs self id = some (r, self'))
      ∧ ∀ fuel r self', getShaderString fuel fs self id = some (r, self') →
          l ∈ hoistedOfFile fs self fuel (includedFileOf self i1) →
          l ∈ hoistedOfFile fs self fuel (includedFileOf self i2) →
          ∃ rest,
            self'.effectSources.find (markerKey (pureFilenameOf id) m)
                = some (flatLines (hoistedLines self (hoistedOfFile fs self fuel)
                    (r1 ++ i1 :: (r2 ++ i2 :: r3))) ++ rest)
              ∧ 2 ≤ (hoistedLines self (hoistedOfFile fs self fuel)
                    (r1 ++ i1 :: (r2 ++ i2 :: r3))).count l := by
  constructor
  · intro rank hd fuel hfuel
    apply getShaderString_isSome fs self rank hd id fuel
    rw [getShaderFileName_of_find self _ path hindex]
    exact hfuel
  · intro fuel r self' h hl1 hl2
    have hlines := effectLinesOf_of_read fs self id path content hindex hread
    exact ⟨_, section_stored fs self self' fuel id r before _ after m hmiss h
        (by rw [hlines]; exact hsplit) hm hreg hafter hfirst hkey,
      hoistedLines_count_two self _ r1 r2 r3 i1 i2 l hi1 hi2 hl1 hl2⟩

theorem C12_preamble_keeps_repeats_witness :
    getShaderString 1 dupFs dupManager "D.Vertex".data
        = some (("#version 430\n#version 430\n#line 2\n#line 1\n#line 2\nv1\n\n#line 3\n"
            ++ "#line 1\n#line 2\nv1\n\n#line 4\nd\n").data, dupParsed)
      ∧ hoistedLines dupManager (hoistedOfFile dupFs dupManager 1)
          ["#include \"V.glsl\"".data, "#include \"V.glsl\"".data, "d".data]
        = ["#version 430".data, "#version 430".data]
      ∧ ∃ rest,
          dupParsed.effectSources.find "D.Vertex".data
              = some (flatLines (hoistedLines dupManager (hoistedOfFile dupFs dupManager 1)
                  ["#include \"V.glsl\"".data, "#include \"V.glsl\"".data, "d".data]) ++ rest)
            ∧ 2 ≤ (hoistedLines dupManager (hoistedOfFile dupFs dupManager 1)
                  ["#include \"V.glsl\"".data, "#include \"V.glsl\"".data,
                    "d".data]).count "#version 430".data :=
  ⟨by decide, by decide,
    (C12_preamble_keeps_repeats dupFs dupManager "D.Vertex".data "/s/D.glsl".data
      "-- Vertex\n#include \"V.glsl\"\n#include \"V.glsl\"\nd\n".data
      [] [] [] ["d".data] [] "-- Vertex".data "#include \"V.glsl\"".data
      "#include \"V.glsl\"".data "#version 430".data
      (by decide) (by decide) (by decide) (by decide) (by decide) (by decide)
      (Or.inl rfl) (by decide) (by decide) (by decide) (by decide)).2 1
      ("#version 430\n#version 430\n#line 2\n#line 1\n#line 2\nv1\n\n#line 3\n"
        ++ "#line 1\n#line 2\nv1\n\n#line 4\nd\n").data dupParsed (by decide)
      (by decide) (by decide)⟩

/-- C13. Include inlining: let line `i` of the readable file `A` be `#include "name"` (after
the carriage return is stripped), with `name` indexed and its file `B` readable.
(1) `loadHeaderFileString` returns for `A` whenever includes do not nest in a cycle.
(2) Whenever it returns for `A`, the text is `#line 1`, the body of the lines before line `i`,
then exactly `E`, a line feed and the marker `#line i+1`, then the body of the lines after
line `i` counted from `i+1`; `E` is what the recursive call of `loadHeaderFileString` returns
for `B`, it begins with `#line 1` and contains every ordinary line of `B` followed by a line
feed. (3) When `A` is the effect file of an id that is not cached, the pass of the loop of
`getShaderString` for line `i` appends exactly `E`, a line feed and the marker `#line i+1`
to the text of the open section. -/
theorem C13_include_inlined (fs : FileSystem) (self : ShaderManagerGL)
    (pathA contentA : Str) (before after : List Str) (raw name pathB contentB : Str)
    (hreadA : openFile fs pathA = some contentA)
    (hsplit : getlines contentA = before ++ raw :: after)
    (hline : stripCR raw = quotedInclude name)
    (hindexB : self.shaderFileMap.find name = some pathB)
    (hreadB : openFile fs pathB = some contentB) :
    (∀ rank, IncludesDescend fs self rank → ∀ fuel, rank pathA < fuel → ∀ pre,
        ∃ res, loadHeaderFileString fs self fuel pathA pre = some res)
      ∧ (∀ fuel pre text pre', loadHeaderFileString fs self fuel pathA pre = some (text, pre') →
          ∃ f E preB preB', fuel = f + 1
            ∧ loadHeaderFileString fs self f pathB preB = some (E, preB')
            ∧ text = "#line 1\n".data ++ bodyLines self (bodyOfFile fs self f) 1 before
                ++ (E ++ "\n".data
                  ++ ("#line ".data ++ toString (before.length + 1 + 1) ++ "\n".data))
                ++ bodyLines self (bodyOfFile fs self f) (before.length + 1 + 1) after
            ∧ startsWith E "#line 1\n".data = true
            ∧ ∀ x ∈ (getlines contentB).map stripCR, isOrdinary x = true →
                (x ++ "\n".data) <:+: E)
      ∧ (∀ fuel id r self', self.effectSources.find id = none →
          self.shaderFileMap.find (pureFilenameOf id ++ ".glsl".data) = some pathA →
          getShaderString fuel fs self id = some (r, self') →
          ∃ st1 st2 E preB',
            effectLoop self (loadHeaderFileString fs self fuel) (pureFilenameOf id) before
                (effectInit self.effectSources) = some st1
              ∧ effectStep self (loadHeaderFileString fs self fuel) (pureFilenameOf id) raw st1
                = some st2
              ∧ loadHeaderFileString fs self fuel pathB st1.prependContent = some (E, preB')
              ∧ st2.shaderContent = st1.shaderContent
                  ++ (E ++ "\n".data
                    ++ ("#line ".data ++ toString (before.length + 1 + 1) ++ "\n".data))
              ∧ startsWith E "#line 1\n".data = true
              ∧ ∀ x ∈ (getlines contentB).map stripCR, isOrdinary x = true →
                  (x ++ "\n".data) <:+: E) := by
  have hinc : startsWith (stripCR raw) "#include".data = true := by
    rw [hline]; exact startsWith_quotedInclude name
  have hB : includedFileOf self raw = pathB := includedFileOf_quoted self raw name pathB hline hindexB
  refine ⟨?_, ?_, ?_⟩
  · intro rank hd fuel hfuel pre
    have := loadHeaderFileString_isSome fs self rank hd fuel pathA pre (fun _ _ => hfuel)
    cases hl : loadHeaderFileString fs self fuel pathA pre with
    | none => rw [hl] at this; simp at this
    | some res => exact ⟨res, rfl⟩
  · intro fuel pre text pre' h
    obtain ⟨f, st, hf, hloop, _, htext⟩ :=
      loadHeaderFileString_readable fs self fuel pathA contentA pre _ hreadA h
    rw [hsplit, headerLoop_append] at hloop
    obtain ⟨st1, _, hloop2⟩ := Option.bind_eq_some.mp hloop
    rw [headerLoop] at hloop2
    cases hst : headerStep self (loadHeaderFileString fs self f) raw st1 with
    | none => rw [hst] at hloop2; simp at hloop2
    | some st2 =>
      obtain ⟨p, hp, _, _⟩ := headerStep_include self _ raw st1 st2 hinc hst
      rw [hB] at hp
      have hsp := loadHeaderFileString_splits fs self f pathB _ p hp
      obtain ⟨hE1, hE2⟩ := expansion_readable fs self f pathB contentB _ p hreadB hp
      refine ⟨f, p.1, st1.prependContent, p.2, hf, hp, ?_, hE1, hE2⟩
      simp only [] at htext
      rw [htext, hsplit, bodyLines_append, bodyLines_include _ _ _ _ _ hinc, hB, hsp]
      have hn : 1 + before.length = before.length + 1 := by omega
      rw [hn]
      simp only [List.append_assoc]
  · intro fuel id r self' hmiss hindex h
    obtain ⟨st, hl, _, _, _⟩ := getShaderString_miss_some fuel fs self self' id r hmiss h
    rw [effectLinesOf_of_read fs self id pathA contentA hindex hreadA, hsplit,
      effectLoop_append] at hl
    obtain ⟨st1, hl1, hl2⟩ := Option.bind_eq_some.mp hl
    rw [effectLoop] at hl2
    cases hst : effectStep self (loadHeaderFileString fs self fuel) (pureFilenameOf id)
        raw st1 with
    | none => rw [hst] at hl2; simp at hl2
    | some st2 =>
      obtain ⟨p, hp, hc, _⟩ := effectStep_include self _ _ raw st1 st2 hinc hst
      rw [hB] at hp
      obtain ⟨hE1, hE2⟩ := expansion_readable fs self fuel pathB contentB _ p hreadB hp
      have hln : st1.lineNum = 1 + before.length := effectLoop_lineNum _ _ _ _ _ _ hl1
      refine ⟨st1, st2, p.1, p.2, hl1, hst, hp, ?_, hE1, hE2⟩
      rw [hc, hln]
      have hn : 1 + before.length = before.length + 1 := by omega
      rw [hn]

theorem C13_include_inlined_witness :
    loadHeaderFileString sampleFs sampleManager 2 "/s/U.glsl".data []
        = some ("#line 1\nu1\n#line 1\n#line 2\nb1\nb2\n\n#line 3\nu2\n".data,
            "#extension x\n".data)
      ∧ loadHeaderFileString sampleFs sampleManager 1 "/s/B.glsl".data []
        = some ("#line 1\n#line 2\nb1\nb2\n".data, "#extension x\n".data)
      ∧ ∃ f E preB preB', 2 = f + 1
          ∧ loadHeaderFileString sampleFs sampleManager f "/s/B.glsl".data preB
            = some (E, preB')
          ∧ "#line 1\nu1\n#line 1\n#line 2\nb1\nb2\n\n#line 3\nu2\n".data
            = "#line 1\n".data
                ++ bodyLines sampleManager (bodyOfFile sampleFs sampleManager f) 1 ["u1".data]
                ++ (E ++ "\n".data ++ ("#line ".data ++ toString (1 + 1 + 1) ++ "\n".data))
                ++ bodyLines sampleManager (bodyOfFile sampleFs sampleManager f) (1 + 1 + 1)
                  ["u2".data]
          ∧ startsWith E "#line 1\n".data = true
          ∧ ∀ x ∈ (getlines "#extension x\nb1\nb2\n".data).map stripCR,
              isOrdinary x = true → (x ++ "\n".data) <:+: E :=
  ⟨by decide, by decide,
    (C13_include_inlined sampleFs sampleManager "/s/U.glsl".data
      "u1\n#include \"B.glsl\"\nu2\n".data ["u1".data] ["u2".data]
      "#include \"B.glsl\"".data "B.glsl".data "/s/B.glsl".data "#extension x\nb1\nb2\n".data
      (by decide) (by decide) (by decide) (by decide) (by decide)).2.1 2 []
      "#line 1\nu1\n#line 1\n#line 2\nb1\nb2\n\n#line 3\nu2\n".data "#extension x\n".data
      (by decide)⟩

/-- C14. Fail-soft missing include: let line `i` of the readable file `A` be an include line
whose header name is not in the file index. (0) That is also the case of a line without
double quote whose key is not in the define table: its header name is empty. (1) Expansion
does not abort: `loadHeaderFileString` returns for `A`, and `getShaderString` returns for
an id with effect file `A`, whenever includes do not nest in a cycle. (2) Whenever
`loadHeaderFileString` returns for `A`, the line contributes exactly a line feed and the
marker `#line i+1` to the text and nothing to the preamble, and the lines before and after
are processed as usual. (3) When `A` is the effect file of an id that is not cached, the pass
of the loop of `getShaderString` for line `i` appends exactly a line feed and the marker
`#line i+1` and leaves the preamble as it is, every section of the file is in the cache
after the call, and the text returned is the one cached under the id. -/
theorem C14_missing_include (fs : FileSystem) (self : ShaderManagerGL)
    (pathA contentA : Str) (before after : List Str) (raw : Str)
    (hreadA : openFile fs pathA = some contentA)
    (hsplit : getlines contentA = before ++ raw :: after)
    (hinc : startsWith (stripCR raw) "#include".data = true)
    (hunres : self.shaderFileMap.find (getHeaderName self (stripCR raw)) = none) :
    (dquote ∉ stripCR raw →
        self.preprocessorDefines.find ((split (stripCR raw)).getD 1 []) = none →
        getHeaderName self (stripCR raw) = [])
      ∧ (∀ rank, IncludesDescend fs self rank →
          (∀ fuel, rank pathA < fuel → ∀ pre,
            ∃ res, loadHeaderFileString fs self fuel pathA pre = some res)
          ∧ ∀ fuel id, self.shaderFileMap.find (pureFilenameOf id ++ ".glsl".data) = some pathA →
              rank pathA ≤ fuel → ∃ r self', getShaderString fuel fs self id = some (r, self'))
      ∧ (∀ fuel pre text pre', loadHeaderFileString fs self fuel pathA pre = some (text, pre') →
          ∃ f, fuel = f + 1
            ∧ text = "#line 1\n".data ++ bodyLines self (bodyOfFile fs self f) 1 before
                ++ ("\n".data ++ ("#line ".data ++ toString (before.length + 1 + 1)
                  ++ "\n".data))
                ++ bodyLines self (bodyOfFile fs self f) (before.length + 1 + 1) after
            ∧ pre' = pre ++ flatLines (hoistedLines self (hoistedOfFile fs self f) before
                ++ hoistedLines self (hoistedOfFile fs self f) after))
      ∧ (∀ fuel id r self', self.effectSources.find id = none →
          self.shaderFileMap.find (pureFilenameOf id ++ ".glsl".data) = some pathA →
          getShaderString fuel fs self id = some (r, self') →
          (∃ st1 st2,
            effectLoop self (loadHeaderFileString fs self fuel) (pureFilenameOf id) before
                (effectInit self.effectSources) = some st1
              ∧ effectStep self (loadHeaderFileString fs self fuel) (pureFilenameOf id) raw st1
                = some st2
              ∧ st2.shaderContent = st1.shaderContent
                  ++ ("\n".data ++ ("#line ".data ++ toString (before.length + 1 + 1)
                    ++ "\n".data))
              ∧ st2.prependContent = st1.prependContent)
            ∧ (∀ k ∈ sectionKeys (pureFilenameOf id) (getlines contentA),
                (self'.effectSources.find k).isSome = true)
            ∧ r = (self'.effectSources.find id).getD []) := by
  have hB : includedFileOf self raw = [] := includedFileOf_unresolved self raw hunres
  refine ⟨fun hq hkey => getHeaderName_undefined self _ hq hkey, ?_, ?_, ?_⟩
  · intro rank hd
    constructor
    · intro fuel hfuel pre
      have := loadHeaderFileString_isSome fs self rank hd fuel pathA pre (fun _ _ => hfuel)
      cases hl : loadHeaderFileString fs self fuel pathA pre with
      | none => rw [hl] at this; simp at this
      | some res => exact ⟨res, rfl⟩
    · intro fuel id hindex hfuel
      apply getShaderString_isSome fs self rank hd id fuel
      rw [getShaderFileName_of_find self _ pathA hindex]
      exact hfuel
  · intro fuel pre text pre' h
    obtain ⟨f, st, hf, hloop, hres, htext⟩ :=
      loadHeaderFileString_readable fs self fuel pathA contentA pre _ hreadA h
    obtain ⟨_, a2, _⟩ :=
      headerLoop_splits self _ _ _ (loadHeaderFileString_splits fs self f) _ _ st hloop
    simp only [Prod.mk.injEq] at hres
    refine ⟨f, hf, ?_, ?_⟩
    · simp only [] at htext
      rw [htext, hsplit, bodyLines_append, bodyLines_include _ _ _ _ _ hinc, hB,
        bodyOfFile_nil]
      have hn : 1 + before.length = before.length + 1 := by omega
      rw [hn]
      simp only [List.append_assoc, List.nil_append]
    · rw [hres.2, a2, hsplit, hoistedLines_append, hoistedLines_include _ _ _ _ hinc, hB,
        hoistedOfFile_nil, List.nil_append]
  · intro fuel id r self' hmiss hindex h
    have hlines := effectLinesOf_of_read fs self id pathA contentA hindex hreadA
    refine ⟨?_, ?_, returned_eq_find fs self self' fuel id r hmiss h⟩
    · obtain ⟨st, hl, _, _, _⟩ := getShaderString_miss_some fuel fs self self' id r hmiss h
      rw [hlines, hsplit, effectLoop_append] at hl
      obtain ⟨st1, hl1, hl2⟩ := Option.bind_eq_some.mp hl
      rw [effectLoop] at hl2
      cases hst : effectStep self (loadHeaderFileString fs self fuel) (pureFilenameOf id)
          raw st1 with
      | none => rw [hst] at hl2; simp at hl2
      | some st2 =>
        obtain ⟨p, hp, hc, hpre⟩ := effectStep_include self _ _ raw st1 st2 hinc hst
        rw [hB, loadHeaderFileString_nil] at hp
        simp only [Option.some.injEq] at hp
        have hln : st1.lineNum = 1 + before.length := effectLoop_lineNum _ _ _ _ _ _ hl1
        refine ⟨st1, st2, hl1, hst, ?_, ?_⟩
        · rw [hc, ← hp, hln]
          have hn : 1 + before.length = before.length + 1 := by omega
          rw [hn]
          simp only [List.nil_append]
        · rw [hpre, ← hp]
    · have := sections_cached fs self self' fuel id r hmiss h
      rw [hlines] at this
      exact this

theorem C14_missing_include_witness :
    getShaderString 0 missFs missManager "M.Vertex".data
        = some ("#line 2\n\n#line 3\n\n#line 4\nm\n".data, missParsed)
      ∧ getHeaderName missManager "#include NOKEY".data = []
      ∧ (missParsed.effectSources.find "M.Vertex".data).isSome = true
      ∧ "#line 2\n\n#line 3\n\n#line 4\nm\n".data
        = (missParsed.effectSources.find "M.Vertex".data).getD [] := by
  have h := C14_missing_include missFs missManager "/s/M.glsl".data
    "-- Vertex\n#include \"Nope.glsl\"\n#include NOKEY\nm\n".data
    ["-- Vertex".data, "#include \"Nope.glsl\"".data] ["m".data] "#include NOKEY".data
    (by decide) (by decide) (by decide) (by decide)
  have h3 := h.2.2.2 0 "M.Vertex".data "#line 2\n\n#line 3\n\n#line 4\nm\n".data missParsed
    (by decide) (by decide) (by decide)
  exact ⟨by decide, h.1 (by decide) (by decide), h3.2.1 "M.Vertex".data (by decide), h3.2.2⟩

/-- C16, the claim as stated fails: in the sample the marker line `-- Fragment` stands on
line 6 of the file, and the text of the section `A.Fragment` is the define block followed by
the line marker `#line 7`, not `#line 1`. -/
theorem C16_marker_not_reset :
    getShaderString 1 sampleFs sampleManager "A.Fragment".data
        = some ("#define K 1\nG\n#line 7\nf\n".data, sampleParsed)
      ∧ "#define K 1\nG\n#line 7\nf\n".data
        = getPreprocessorDefines sampleManager ++ "#line 7\n".data ++ "f\n".data
      ∧ startsWith "#define K 1\nG\n#line 7\nf\n".data
          (getPreprocessorDefines sampleManager ++ "#line 1\n".data) = false := by
  decide

/-- C16, amended. Line numbering continues through the file: let a marker line stand on
physical line `k` of an indexed, readable effect file (its key is not cached and no earlier
marker line has the same name). A call of `getShaderString` returns whenever includes do not
nest in a cycle, and after every returning call the section's text is its hoisted preamble,
the define block, the line marker `#line k+1` and the body: the first marker emitted into
the new section carries the number of the physical line after the marker line; the line
counter is not set back. -/
theorem C16_marker_continues (fs : FileSystem) (self : ShaderManagerGL)
    (id path content : Str) (before region after : List Str) (m : Str)
    (hmiss : self.effectSources.find id = none)
    (hindex : self.shaderFileMap.find (pureFilenameOf id ++ ".glsl".data) = some path)
    (hread : openFile fs path = some content)
    (hsplit : getlines content = before ++ m :: (region ++ after))
    (hm : isMarker m = true) (hreg : ∀ raw ∈ region, isMarker raw = false)
    (hafter : after = [] ∨ ∃ m' rest, after = m' :: rest ∧ isMarker m' = true)
    (hfirst : markerKey (pureFilenameOf id) m ∉ markerKeys (pureFilenameOf id) before)
    (hkey : self.effectSources.find (markerKey (pureFilenameOf id) m) = none) :
    (∀ rank, IncludesDescend fs self rank → ∀ fuel, rank path ≤ fuel →
        ∃ r self', getShaderString fuel fs self id = some (r, self'))
      ∧ ∀ fuel r self', getShaderString fuel fs self id = some (r, self') →
          ∃ ls body,
            (∀ l ∈ ls,
              startsWith l "#version".data = true ∨ startsWith l "#extension".data = true)
            ∧ self'.effectSources.find (markerKey (pureFilenameOf id) m)
              = some (flatLines ls ++ getPreprocessorDefines self ++ "#line ".data
                  ++ toString (before.length + 1 + 1) ++ "\n".data ++ body) := by
  constructor
  · intro rank hd fuel hfuel
    apply getShaderString_isSome fs self rank hd id fuel
    rw [getShaderFileName_of_find self _ path hindex]
    exact hfuel
  · intro fuel r self' h
    have hlines := effectLinesOf_of_read fs self id path content hindex hread
    have hst := section_stored fs self self' fuel id r before region after m hmiss h
      (by rw [hlines]; exact hsplit) hm hreg hafter hfirst hkey
    refine ⟨hoistedLines self (hoistedOfFile fs self fuel) region,
      bodyLines self (bodyOfFile fs self fuel) (before.length + 1 + 1) region, ?_, ?_⟩
    · intro l hl
      have := hoistedLines_directive self _ (hoistedOfFile_directive fs self fuel) region l hl
      unfold isDirective at this
      simpa using this
    · rw [hst]
      unfold sectionText
      simp only [List.append_assoc]

theorem C16_marker_continues_witness :
    getShaderString 1 sampleFs sampleManager "A.Fragment".data
        = some ("#define K 1\nG\n#line 7\nf\n".data, sampleParsed)
      ∧ ∃ ls body,
          (∀ l ∈ ls,
            startsWith l "#version".data = true ∨ startsWith l "#extension".data = true)
          ∧ sampleParsed.effectSources.find "A.Fragment".data
            = some (flatLines ls ++ getPreprocessorDefines sampleManager ++ "#line ".data
                ++ toString (5 + 1 + 1) ++ "\n".data ++ body) :=
  ⟨by decide,
    (C16_marker_continues sampleFs sampleManager "A.Fragment".data "/s/A.glsl".data
      "pre\n-- Vertex\n#version 430\n#include \"B.glsl\"\nv\n-- Fragment\r\nf".data
      ["pre".data, "-- Vertex".data, "#version 430".data, "#include \"B.glsl\"".data,
        "v".data]
      ["f".data] [] "-- Fragment\r".data
      (by decide) (by decide) (by decide) (by decide) (by decide) (by decide)
      (Or.inl rfl) (by decide) (by decide)).2 1 "#define K 1\nG\n#line 7\nf\n".data
      sampleParsed (by decide)⟩

/-- C17, the claim as stated fails: in the sample tree the shader file `r/a/X.glsl` is scanned before
`r/b/X.glsl`, both with bare name `X.glsl`, and the index built from the empty index maps
`X.glsl` to the file scanned first, not to the one scanned later. -/
theorem C17_first_scanned_kept :
    glslFiles sampleFileUtils sampleTree
        = [("X.glsl".data, "r/a/X.glsl".data), ("X.glsl".data, "r/b/X.glsl".data)]
      ∧ (indexFiles sampleFileUtils sampleTree StdMap.empty).find "X.glsl".data
        = some "r/a/X.glsl".data
      ∧ (indexFiles sampleFileUtils sampleTree StdMap.empty).find "X.glsl".data
        ≠ some "r/b/X.glsl".data := by
  decide

/-- C17, amended. The file index is first-write-wins: when `indexFiles` scans a tree in which
a shader file `first` with bare name `name` is met before another shader file `later` with the
same bare name, no earlier shader file has that bare name, and the index did not hold the name
before the scan, the index afterwards maps the name to `first`: the later insertion leaves the
earlier entry in place. -/
theorem C17_first_write_wins (fu : FileUtils) (tree : DirTree) (shaderFileMap : StdMap)
    (name first later : Str) (a b c : List (Str × Str))
    (hscan : glslFiles fu tree = a ++ (name, first) :: (b ++ (name, later) :: c))
    (hfirst : name ∉ a.map Prod.fst)
    (hnew : shaderFileMap.find name = none) :
    (indexFiles fu tree shaderFileMap).find name = some first := by
  rw [indexFiles_eq_insertAll, find_insertAll_of_none _ _ _ hnew, hscan,
    findEntries_append_of_not_mem _ _ _ hfirst, findEntries, if_pos rfl]

theorem C17_first_write_wins_witness :
    (indexFiles sampleFileUtils sampleTree StdMap.empty).find "X.glsl".data
      = some "r/a/X.glsl".data :=
  C17_first_write_wins sampleFileUtils sampleTree StdMap.empty "X.glsl".data
    "r/a/X.glsl".data "r/b/X.glsl".data [] [] [] (by decide) (by decide) (by decide)

/-- C18. File index resolve: after `indexFiles` has scanned a finite directory tree into an empty index,
`getShaderFileName` returns, for a name that is the bare name of some file of the tree with the
shader-source extension, the full path of such a file, and the empty string for every name that
is the bare name of no such file; files with another extension are never indexed. -/
theorem C18_index_resolve (fu : FileUtils) (tree : DirTree) (self : ShaderManagerGL)
    (name : Str) :
    ((∃ file ∈ treeFiles tree, fu.hasExtension file = true ∧ fu.getPureFilename file = name) →
        ∃ file ∈ treeFiles tree, fu.hasExtension file = true ∧ fu.getPureFilename file = name
          ∧ getShaderFileName { self with shaderFileMap := indexFiles fu tree StdMap.empty } name
            = file)
      ∧ ((∀ file ∈ treeFiles tree, fu.hasExtension file = true → fu.getPureFilename file ≠ name) →
        getShaderFileName { self with shaderFileMap := indexFiles fu tree StdMap.empty } name
          = [])
      ∧ (∀ file, (indexFiles fu tree StdMap.empty).find name = some file →
          file ∈ treeFiles tree ∧ fu.hasExtension file = true) := by
  refine ⟨?_, ?_, ?_⟩
  · rintro ⟨file, hmem, hext, hname⟩
    have hin : (name, file) ∈ glslFiles fu tree :=
      (mem_glslFiles fu name file tree).2 ⟨hmem, hext, hname⟩
    cases hf : findEntries name (glslFiles fu tree) with
    | none => exact absurd rfl ((findEntries_eq_none_iff _ _).1 hf _ hin)
    | some p =>
      obtain ⟨h1, h2, h3⟩ := (mem_glslFiles fu name p tree).1 (findEntries_some_mem _ _ _ hf)
      refine ⟨p, h1, h2, h3, ?_⟩
      show (match (indexFiles fu tree StdMap.empty).find name with
        | none => [] | some second => second) = p
      rw [find_indexFiles, hf]
  · intro hno
    have hf : findEntries name (glslFiles fu tree) = none := by
      rw [findEntries_eq_none_iff]
      rintro ⟨k, v⟩ hp hk
      simp only at hk
      subst hk
      obtain ⟨h1, h2, h3⟩ := (mem_glslFiles fu k v tree).1 hp
      exact hno v h1 h2 h3
    show (match (indexFiles fu tree StdMap.empty).find name with
      | none => [] | some second => second) = []
    rw [find_indexFiles, hf]
  · intro file hfile
    rw [find_indexFiles] at hfile
    obtain ⟨h1, h2, _⟩ := (mem_glslFiles fu name file tree).1 (findEntries_some_mem _ _ _ hfile)
    exact ⟨h1, h2⟩

theorem C18_index_resolve_witness :
    getShaderFileName
        { emptyManager with shaderFileMap := indexFiles sampleFileUtils sampleTree StdMap.empty }
        "notes.txt".data = [] :=
  (C18_index_resolve sampleFileUtils sampleTree emptyManager "notes.txt".data).2.1 (by decide)

/-- C19. Composite id split: for a composite id `base.section` whose base holds no dot (so the dot after it is the
first one of the id) and that is not cached, `getShaderString` takes the text before the first
dot as base name, reads the file indexed under `base.glsl` and runs its loop with that base
name; the call returns when the includes descend; and when that file holds a marker line
`-- section` (the first one with that name), every call that returns leaves the text of that
section under the full id and returns it. So `ResolveMSAA.Vertex.GL3` reads `ResolveMSAA.glsl`
and finds the section of the marker `-- Vertex.GL3`. -/
theorem C19_composite_id_split (fs : FileSystem) (self : ShaderManagerGL) (base sect : Str)
    (hbase : '.' ∉ base)
    (hmiss : self.effectSources.find (base ++ ".".data ++ sect) = none) :
    substr (base ++ ".".data ++ sect) 0 (findChar '.' (base ++ ".".data ++ sect)) = base
      ∧ (∀ fuel, getShaderString fuel fs self (base ++ ".".data ++ sect) =
          match effectLoop self (loadHeaderFileString fs self fuel) base
              (effectLines fs (getShaderFileName self (base ++ ".glsl".data)))
              (effectInit self.effectSources) with
          | none => none
          | some st =>
              match (if st.shaderName.length > 0 then
                  st.effectSources.insert st.shaderName (st.prependContent ++ st.shaderContent)
                else st.effectSources.insert (base ++ ".glsl".data)
                  (st.prependContent ++ st.shaderContent)).find (base ++ ".".data ++ sect) with
              | some second =>
                  some (second, { self with effectSources :=
                    (if st.shaderName.length > 0 then
                      st.effectSources.insert st.shaderName
                        (st.prependContent ++ st.shaderContent)
                    else st.effectSources.insert (base ++ ".glsl".data)
                      (st.prependContent ++ st.shaderContent)) })
              | none =>
                  some ([], { self with effectSources :=
                    (if st.shaderName.length > 0 then
                      st.effectSources.insert st.shaderName
                        (st.prependContent ++ st.shaderContent)
                    else st.effectSources.insert (base ++ ".glsl".data)
                      (st.prependContent ++ st.shaderContent)) }))
      ∧ (∀ rank : Str → Nat, IncludesDescend fs self rank → ∀ fuel,
          rank (getShaderFileName self (base ++ ".glsl".data)) ≤ fuel →
          ∃ r self', getShaderString fuel fs self (base ++ ".".data ++ sect) = some (r, self'))
      ∧ (∀ fuel r self' before m region after,
          getShaderString fuel fs self (base ++ ".".data ++ sect) = some (r, self') →
          effectLines fs (getShaderFileName self (base ++ ".glsl".data))
            = before ++ m :: (region ++ after) →
          stripCR m = "-- ".data ++ sect →
          (∀ raw ∈ before, stripCR raw ≠ "-- ".data ++ sect) →
          (∀ raw ∈ region, isMarker raw = false) →
          (after = [] ∨ ∃ m' rest, after = m' :: rest ∧ isMarker m' = true) →
          self'.effectSources.find (base ++ ".".data ++ sect) = some r
            ∧ r = sectionText self (bodyOfFile fs self fuel) (hoistedOfFile fs self fuel)
                (before.length + 1) region) := by
  have hpf : pureFilenameOf (base ++ ".".data ++ sect) = base :=
    pureFilenameOf_composite base sect hbase
  have hlines : effectLinesOf fs self (base ++ ".".data ++ sect)
      = effectLines fs (getShaderFileName self (base ++ ".glsl".data)) := by
    unfold effectLinesOf
    rw [hpf]
  refine ⟨pureFilenameOf_composite base sect hbase,
    fun fuel => getShaderString_composite fuel fs self base sect hbase hmiss, ?_, ?_⟩
  · intro rank hd fuel hfuel
    apply getShaderString_isSome fs self rank hd
    rw [hpf]
    exact hfuel
  · intro fuel r self' before m region after h hsplit hm hbefore hreg hafter
    obtain ⟨hmark, hkey⟩ := markerKey_of_name base sect m hm
    have hst := section_stored fs self self' fuel (base ++ ".".data ++ sect) r before region
      after m hmiss h (by rw [hlines]; exact hsplit) hmark hreg hafter
      (by
        rw [hpf, hkey]
        intro hmem
        unfold markerKeys at hmem
        obtain ⟨raw, hraw, hk⟩ := List.mem_map.mp hmem
        obtain ⟨hrmem, hrm⟩ := List.mem_filter.mp hraw
        exact hbefore raw hrmem (markerKey_inj base raw sect hrm hk))
      (by rw [hpf, hkey]; exact hmiss)
    rw [hpf, hkey] at hst
    have hr := returned_eq_find fs self self' fuel _ r hmiss h
    rw [hst] at hr
    exact ⟨by rw [hst, hr]; rfl, hr⟩

theorem C19_composite_id_split_witness :
    substr "ResolveMSAA.Vertex.GL3".data 0 (findChar '.' "ResolveMSAA.Vertex.GL3".data)
        = "ResolveMSAA".data
      ∧ getShaderString 0 resolveFs resolveManager "ResolveMSAA.Vertex.GL3".data
        = some ("#line 2\nvoid main() {}\n".data,
            { resolveManager with
              effectSources :=
                ⟨[("ResolveMSAA.Vertex.GL3".data, "#line 2\nvoid main() {}\n".data)],
                  by decide⟩ })
      ∧ ({ resolveManager with
              effectSources :=
                ⟨[("ResolveMSAA.Vertex.GL3".data, "#line 2\nvoid main() {}\n".data)],
                  by decide⟩ } : ShaderManagerGL).effectSources.find
            "ResolveMSAA.Vertex.GL3".data
          = some "#line 2\nvoid main() {}\n".data :=
  ⟨(C19_composite_id_split resolveFs resolveManager "ResolveMSAA".data "Vertex.GL3".data
      (by decide) (by decide)).1,
    by decide,
    ((C19_composite_id_split resolveFs resolveManager "ResolveMSAA".data "Vertex.GL3".data
      (by decide) (by decide)).2.2.2 0 "#line 2\nvoid main() {}\n".data _ []
      "-- Vertex.GL3".data ["void main() {}".data] [] (by decide) (by decide) (by decide)
      (by decide) (by decide) (Or.inl rfl)).1⟩

/-- C20. Line endings: when no file holds a carriage return, replacing every line feed by carriage return
and line feed in every file (effect file and included files alike) changes neither the result
of `loadHeaderFileString` nor the result of `getShaderString`, that is neither the returned
text nor any key or text of the cache afterwards, and the call returns for the one file system
when it does for the other; both loops strip the trailing carriage return of a line before
they look at its prefix or take its section name. -/
theorem C20_line_endings (fs : FileSystem) (self : ShaderManagerGL)
    (hcr : ∀ p content, fs p = some content → '\r' ∉ content) :
    (∀ fuel shaderName prependContent,
        loadHeaderFileString (crlfFs fs) self fuel shaderName prependContent
          = loadHeaderFileString fs self fuel shaderName prependContent)
      ∧ (∀ fuel id, getShaderString fuel (crlfFs fs) self id = getShaderString fuel fs self id)
      ∧ (∀ rank : Str → Nat, IncludesDescend fs self rank → ∀ id fuel,
          rank (getShaderFileName self (pureFilenameOf id ++ ".glsl".data)) ≤ fuel →
          ∃ r self', getShaderString fuel (crlfFs fs) self id = some (r, self')
            ∧ getShaderString fuel fs self id = some (r, self'))
      ∧ (∀ recur base l st, '\r' ∉ l →
          effectStep self recur base (l ++ ['\r']) st = effectStep self recur base l st)
      ∧ (∀ recur l st, '\r' ∉ l →
          headerStep self recur (l ++ ['\r']) st = headerStep self recur l st) := by
  refine ⟨?_, getShaderString_crlf fs self hcr, ?_, ?_, ?_⟩
  · intro fuel shaderName prependContent
    rw [loadHeaderFileString_crlf fs self hcr fuel]
  · intro rank hd id fuel hfuel
    obtain ⟨r, self', h⟩ := getShaderString_isSome fs self rank hd id fuel hfuel
    exact ⟨r, self', by rw [getShaderString_crlf fs self hcr, h], h⟩
  · intro recur base l st hl
    apply effectStep_congr
    rw [stripCR_append_cr, stripCR_of_not_mem l hl]
  · intro recur l st hl
    apply headerStep_congr
    rw [stripCR_append_cr, stripCR_of_not_mem l hl]

theorem C20_line_endings_witness :
    crFreeCheck dupFiles = true
      ∧ getShaderString 1 dupFs dupManager "D.Vertex".data
        = some (("#version 430\n#version 430\n#line 2\n#line 1\n#line 2\nv1\n\n#line 3\n"
            ++ "#line 1\n#line 2\nv1\n\n#line 4\nd\n").data, dupParsed)
      ∧ getShaderString 1 (crlfFs dupFs) dupManager "D.Vertex".data
        = getShaderString 1 dupFs dupManager "D.Vertex".data :=
  ⟨by decide, by decide,
    (C20_line_endings dupFs dupManager (crFree_of_check dupFiles (by decide))).2.1 1
      "D.Vertex".data⟩

/-- C21. Parameterised include: let a line (after the carriage return is stripped) be
`#include`, a run of blanks and tabs, and a key without blank, tab or double quote, and let
the define table bind the key to a file name `F` in double quotes. Then `getHeaderName` returns
`F` without the quotes. With `F` indexed and its file readable the directive inlines the
expansion of that file: (1) `loadHeaderFileString` returns for the including file whenever
includes do not nest in a cycle; (2) whenever it returns, the text holds at the place of the
line exactly the expansion `E` of the file indexed under `F`, a line feed and the marker for
the next line; (3) the loop of `getShaderString` does the same for such a line of an effect
file. -/
theorem C21_parameterised_include (fs : FileSystem) (self : ShaderManagerGL)
    (pathA contentA : Str) (before after : List Str) (raw seps key name pathB contentB : Str)
    (hreadA : openFile fs pathA = some contentA)
    (hsplit : getlines contentA = before ++ raw :: after)
    (hline : stripCR raw = "#include".data ++ seps ++ key)
    (hne : seps ≠ []) (hseps : ∀ c ∈ seps, isDelim c = true)
    (hkey : ∀ c ∈ key, isDelim c = false) (hq : dquote ∉ key)
    (hdef : self.preprocessorDefines.find key = some (dquote :: (name ++ [dquote])))
    (hindexB : self.shaderFileMap.find name = some pathB)
    (hreadB : openFile fs pathB = some contentB) :
    getHeaderName self (stripCR raw) = name
      ∧ (∀ rank, IncludesDescend fs self rank → ∀ fuel, rank pathA < fuel → ∀ pre,
          ∃ res, loadHeaderFileString fs self fuel pathA pre = some res)
      ∧ (∀ fuel pre text pre', loadHeaderFileString fs self fuel pathA pre = some (text, pre') →
          ∃ f E preB preB', fuel = f + 1
            ∧ loadHeaderFileString fs self f pathB preB = some (E, preB')
            ∧ text = "#line 1\n".data ++ bodyLines self (bodyOfFile fs self f) 1 before
                ++ (E ++ "\n".data
                  ++ ("#line ".data ++ toString (before.length + 1 + 1) ++ "\n".data))
                ++ bodyLines self (bodyOfFile fs self f) (before.length + 1 + 1) after
            ∧ startsWith E "#line 1\n".data = true
            ∧ ∀ x ∈ (getlines contentB).map stripCR, isOrdinary x = true →
                (x ++ "\n".data) <:+: E)
      ∧ (∀ fuel id r self', self.effectSources.find id = none →
          self.shaderFileMap.find (pureFilenameOf id ++ ".glsl".data) = some pathA →
          getShaderString fuel fs self id = some (r, self') →
          ∃ st1 st2 E preB',
            effectLoop self (loadHeaderFileString fs self fuel) (pureFilenameOf id) before
                (effectInit self.effectSources) = some st1
              ∧ effectStep self (loadHeaderFileString fs self fuel) (pureFilenameOf id) raw st1
                = some st2
              ∧ loadHeaderFileString fs self fuel pathB st1.prependContent = some (E, preB')
              ∧ st2.shaderContent = st1.shaderContent
                  ++ (E ++ "\n".data
                    ++ ("#line ".data ++ toString (before.length + 1 + 1) ++ "\n".data))
              ∧ startsWith E "#line 1\n".data = true
              ∧ ∀ x ∈ (getlines contentB).map stripCR, isOrdinary x = true →
                  (x ++ "\n".data) <:+: E) := by
  have hqs : dquote ∉ seps := fun hm => by
    have := hseps dquote hm
    revert this
    decide
  have hql : dquote ∉ stripCR raw := by
    rw [hline]
    intro hm
    rcases List.mem_append.mp hm with h | h
    · rcases List.mem_append.mp h with h | h
      · revert h; decide
      · exact hqs h
    · exact hq h
  have hname : getHeaderName self (stripCR raw) = name := by
    apply getHeaderName_define self (stripCR raw) key name hql
    · rw [hline, split_include_key seps key hne hseps hkey]; exact Nat.le_refl 2
    · rw [hline, split_include_key seps key hne hseps hkey]; rfl
    · exact hdef
  have hinc : startsWith (stripCR raw) "#include".data = true := by
    rw [hline, List.append_assoc]
    exact startsWith_append _ _
  have hB : includedFileOf self raw = pathB := by
    unfold includedFileOf
    rw [hname, getShaderFileName_of_find self name pathB hindexB]
  exact ⟨hname, include_expansion fs self pathA contentA before after raw pathB contentB
    hreadA hsplit hinc hB hreadB⟩

theorem C21_parameterised_include_witness :
    getHeaderName paramManager "#include \t HEADER".data = "H.glsl".data
      ∧ getShaderString 1 paramFs paramManager "P.Vertex".data
        = some ("#define HEADER \"H.glsl\"\n#line 2\n#line 1\nh1\n\n#line 3\np\n".data,
            { paramManager with
              effectSources :=
                ⟨[("P.Vertex".data,
                    "#define HEADER \"H.glsl\"\n#line 2\n#line 1\nh1\n\n#line 3\np\n".data)],
                  by decide⟩ }) :=
  ⟨(C21_parameterised_include paramFs paramManager "/s/P.glsl".data
      "-- Vertex\n#include \t HEADER\np\n".data ["-- Vertex".data] ["p".data]
      "#include \t HEADER".data " \t ".data "HEADER".data "H.glsl".data "/s/H.glsl".data
      "h1\n".data (by decide) (by decide) (by decide) (by decide) (by decide) (by decide)
      (by decide) (by decide) (by decide) (by decide)).1,
    by decide⟩

/-- C22. Section flush structure: let the effect file of an id that is not cached be indexed
and readable and let a marker line stand on line `k` of it, its key not cached and no earlier
marker line of the file with the same name. A call of `getShaderString` returns whenever
includes do not nest in a cycle, and after every returning call the text stored under
`Base.Name` is `P ++ D ++ "#line " ++ (k+1) ++ "\n" ++ B`: `P` the hoisted preamble of
the section, `D` the result of `getPreprocessorDefines`, `B` the body built from the lines after
the marker line up to the next marker line or the end of the file. -/
theorem C22_section_flush (fs : FileSystem) (self : ShaderManagerGL)
    (id path content : Str) (before region after : List Str) (m : Str)
    (hmiss : self.effectSources.find id = none)
    (hindex : self.shaderFileMap.find (pureFilenameOf id ++ ".glsl".data) = some path)
    (hread : openFile fs path = some content)
    (hsplit : getlines content = before ++ m :: (region ++ after))
    (hm : isMarker m = true) (hreg : ∀ raw ∈ region, isMarker raw = false)
    (hafter : after = [] ∨ ∃ m' rest, after = m' :: rest ∧ isMarker m' = true)
    (hfirst : markerKey (pureFilenameOf id) m ∉ markerKeys (pureFilenameOf id) before)
    (hkey : self.effectSources.find (markerKey (pureFilenameOf id) m) = none) :
    (∀ rank, IncludesDescend fs self rank → ∀ fuel, rank path ≤ fuel →
        ∃ r self', getShaderString fuel fs self id = some (r, self'))
      ∧ ∀ fuel r self', getShaderString fuel fs self id = some (r, self') →
          self'.effectSources.find
              (pureFilenameOf id ++ ".".data ++ substr (stripCR m) 3 (-1))
            = some (flatLines (hoistedLines self (hoistedOfFile fs self fuel) region)
                ++ getPreprocessorDefines self
                ++ "#line ".data ++ toString (before.length + 1 + 1) ++ "\n".data
                ++ bodyLines self (bodyOfFile fs self fuel) (before.length + 1 + 1) region) := by
  constructor
  · intro rank hd fuel hfuel
    apply getShaderString_isSome fs self rank hd id fuel
    rw [getShaderFileName_of_find self _ path hindex]
    exact hfuel
  · intro fuel r self' h
    have hlines := effectLinesOf_of_read fs self id path content hindex hread
    have hst := section_stored fs self self' fuel id r before region after m hmiss h
      (by rw [hlines]; exact hsplit) hm hreg hafter hfirst hkey
    unfold markerKey at hst
    rw [hst]
    unfold sectionText
    simp only [List.append_assoc]

theorem C22_section_flush_witness :
    getShaderString 1 sampleFs sampleManager "A.Vertex".data
        = some (("#version 430\n#extension x\n#define K 1\nG\n#line 3\n#line 4\n#line 1\n"
            ++ "#line 2\nb1\nb2\n\n#line 5\nv\n").data, sampleParsed)
      ∧ sampleParsed.effectSources.find "A.Vertex".data
        = some ("#version 430\n#extension x\n".data ++ "#define K 1\nG\n".data
            ++ "#line 3\n".data ++ "#line 4\n#line 1\n#line 2\nb1\nb2\n\n#line 5\nv\n".data) :=
  ⟨by decide,
    (C22_section_flush sampleFs sampleManager "A.Vertex".data "/s/A.glsl".data
      "pre\n-- Vertex\n#version 430\n#include \"B.glsl\"\nv\n-- Fragment\r\nf".data
      ["pre".data] ["#version 430".data, "#include \"B.glsl\"".data, "v".data]
      ["-- Fragment\r".data, "f".data] "-- Vertex".data
      (by decide) (by decide) (by decide) (by decide) (by decide) (by decide)
      (Or.inr ⟨_, _, rfl, by decide⟩) (by decide) (by decide)).2 1
      ("#version 430\n#extension x\n#define K 1\nG\n#line 3\n#line 4\n#line 1\n"
            ++ "#line 2\nb1\nb2\n\n#line 5\nv\n").data sampleParsed (by decide)⟩

/-- C23, the claim as stated fails: in the effect file of the seventh sample the ordinary line
`b` stands on line 3, behind a `#line 77` directive of the file itself. The directive is
copied like any other line, so in the text of the section `L.Vertex` the line `b` carries the
number 77 and not 3. -/
theorem C23_line_after_user_directive :
    getShaderString 0 lineFs lineManager "L.Vertex".data
        = some ("#line 2\n#line 77\nb\n".data,
            { lineManager with
              effectSources := ⟨[("L.Vertex".data, "#line 2\n#line 77\nb\n".data)], by decide⟩ })
      ∧ getlines "-- Vertex\n#line 77\nb\n".data
        = ["-- Vertex".data, "#line 77".data, "b".data]
      ∧ isOrdinary "b".data = true ∧ isMarker "b".data = false
      ∧ startsWith "b".data "#line".data = false
      ∧ numberLines 1 (getlines "#line 2\n#line 77\nb\n".data) = [(77, "b".data)] := by
  decide

/-- C23, amended. Line-marker fidelity: read a line `#line N` of an output text as giving the
number `N` to the line after it, every further line counting up by one (`numberLines`). Let
the file `path` be readable. As an included header: `loadHeaderFileString` returns for it
whenever includes do not nest in a cycle; in every text it returns, the copy of an ordinary
line at position `i` (no marker of the resolver's kind, no `#include`, `#version`,
`#extension` or `#line` line) that no `#line` line of the file precedes carries the number
`i`, and a `#version` or `#extension` line at position `i` is replaced by `#line i+1`. As the
effect file of an id that is not cached: `getShaderString` returns whenever includes do not
nest in a cycle; after every returning call the same holds in the text of the section of a
marker line, for the lines of its region that no `#line` line of the region precedes, when
the define block is empty or ends in a line feed, and in the text of the unnamed section of a
file without marker line. -/
theorem C23_line_numbers (fs : FileSystem) (self : ShaderManagerGL) (path content : Str)
    (hread : openFile fs path = some content) :
    (∀ rank, IncludesDescend fs self rank → ∀ fuel, rank path < fuel → ∀ pre,
        ∃ res, loadHeaderFileString fs self fuel path pre = some res)
      ∧ (∀ before x after, getlines content = before ++ x :: after →
          (∀ l ∈ before, startsWith (stripCR l) "#line".data = false) →
          isOrdinary (stripCR x) = true → startsWith (stripCR x) "#line".data = false →
          ∀ fuel pre text pre', loadHeaderFileString fs self fuel path pre = some (text, pre') →
            ∃ f, fuel = f + 1
              ∧ CarriesNumber text
                  ("#line 1\n".data ++ bodyLines self (bodyOfFile fs self f) 1 before)
                  (stripCR x)
                  (bodyLines self (bodyOfFile fs self f) (before.length + 1 + 1) after)
                  (before.length + 1))
      ∧ (∀ before d after, getlines content = before ++ d :: after →
          isDirective (stripCR d) = true →
          ∀ fuel pre text pre', loadHeaderFileString fs self fuel path pre = some (text, pre') →
            ∃ f, fuel = f + 1
              ∧ text = "#line 1\n".data ++ bodyLines self (bodyOfFile fs self f) 1 before
                  ++ ("#line ".data ++ toString (before.length + 1 + 1) ++ "\n".data)
                  ++ bodyLines self (bodyOfFile fs self f) (before.length + 1 + 1) after)
      ∧ (∀ id, self.effectSources.find id = none →
          self.shaderFileMap.find (pureFilenameOf id ++ ".glsl".data) = some path →
          (∀ rank, IncludesDescend fs self rank → ∀ fuel, rank path ≤ fuel →
              ∃ r self', getShaderString fuel fs self id = some (r, self'))
            ∧ (∀ before m rb x ra after,
                getlines content = before ++ m :: ((rb ++ x :: ra) ++ after) →
                isMarker m = true → (∀ raw ∈ rb ++ x :: ra, isMarker raw = false) →
                (after = [] ∨ ∃ m' rest, after = m' :: rest ∧ isMarker m' = true) →
                markerKey (pureFilenameOf id) m ∉ markerKeys (pureFilenameOf id) before →
                self.effectSources.find (markerKey (pureFilenameOf id) m) = none →
                EndsLine (getPreprocessorDefines self) →
                (∀ l ∈ rb, startsWith (stripCR l) "#line".data = false) →
                isOrdinary (stripCR x) = true → startsWith (stripCR x) "#line".data = false →
                ∀ fuel r self', getShaderString fuel fs self id = some (r, self') →
                  ∃ text,
                    self'.effectSources.find (markerKey (pureFilenameOf id) m) = some text
                    ∧ CarriesNumber text
                        (flatLines
                            (hoistedLines self (hoistedOfFile fs self fuel) (rb ++ x :: ra))
                          ++ getPreprocessorDefines self
                          ++ ("#line ".data ++ toString (before.length + 1 + 1) ++ "\n".data)
                          ++ bodyLines self (bodyOfFile fs self fuel) (before.length + 1 + 1)
                            rb)
                        (stripCR x)
                        (bodyLines self (bodyOfFile fs self fuel)
                          (before.length + 1 + 1 + rb.length + 1) ra)
                        (before.length + 1 + 1 + rb.length))
            ∧ (∀ before m rb d ra after,
                getlines content = before ++ m :: ((rb ++ d :: ra) ++ after) →
                isMarker m = true → (∀ raw ∈ rb ++ d :: ra, isMarker raw = false) →
                (after = [] ∨ ∃ m' rest, after = m' :: rest ∧ isMarker m' = true) →
                markerKey (pureFilenameOf id) m ∉ markerKeys (pureFilenameOf id) before →
                self.effectSources.find (markerKey (pureFilenameOf id) m) = none →
                isDirective (stripCR d) = true →
                ∀ fuel r self', getShaderString fuel fs self id = some (r, self') →
                  self'.effectSources.find (markerKey (pureFilenameOf id) m)
                    = some (flatLines
                          (hoistedLines self (hoistedOfFile fs self fuel) (rb ++ d :: ra))
                        ++ getPreprocessorDefines self
                        ++ ("#line ".data ++ toString (before.length + 1 + 1) ++ "\n".data)
                        ++ bodyLines self (bodyOfFile fs self fuel) (before.length + 1 + 1) rb
                        ++ ("#line ".data ++ toString (before.length + 1 + 1 + rb.length + 1)
                          ++ "\n".data)
                        ++ bodyLines self (bodyOfFile fs self fuel)
                          (before.length + 1 + 1 + rb.length + 1) ra))
            ∧ (∀ before x after, getlines content = before ++ x :: after →
                (∀ raw ∈ getlines content, isMarker raw = false) →
                self.effectSources.find (pureFilenameOf id ++ ".glsl".data) = none →
                (∀ l ∈ before, startsWith (stripCR l) "#line".data = false) →
                isOrdinary (stripCR x) = true → startsWith (stripCR x) "#line".data = false →
                ∀ fuel r self', getShaderString fuel fs self id = some (r, self') →
                  ∃ text,
                    self'.effectSources.find (pureFilenameOf id ++ ".glsl".data) = some text
                    ∧ CarriesNumber text
                        (flatLines
                            (hoistedLines self (hoistedOfFile fs self fuel)
                              (before ++ x :: after))
                          ++ ("#line ".data ++ toString 1 ++ "\n".data)
                          ++ bodyLines self (bodyOfFile fs self fuel) 1 before)
                        (stripCR x)
                        (bodyLines self (bodyOfFile fs self fuel) (before.length + 1 + 1) after)
                        (before.length + 1))) := by
  refine ⟨?_, ?_, ?_, ?_⟩
  · intro rank hd fuel hfuel pre
    have := loadHeaderFileString_isSome fs self rank hd fuel path pre (fun _ _ => hfuel)
    cases hl : loadHeaderFileString fs self fuel path pre with
    | none => rw [hl] at this; simp at this
    | some res => exact ⟨res, rfl⟩
  · intro before x after hsplit hno hx hxl fuel pre text pre' h
    have := header_line_number fs self path content before after x hread hsplit hno hx hxl
      fuel pre text pre' h
    rw [Nat.add_comm 1 before.length] at this
    exact this
  · intro before d after hsplit hd fuel pre text pre' h
    have := header_directive_marker fs self path content before after d hread hsplit hd
      fuel pre text pre' h
    rw [Nat.add_comm 1 before.length] at this
    exact this
  · intro id hmiss hindex
    refine ⟨?_, ?_, ?_, ?_⟩
    · intro rank hd fuel hfuel
      apply getShaderString_isSome fs self rank hd id fuel
      rw [getShaderFileName_of_find self _ path hindex]
      exact hfuel
    · intro before m rb x ra after hsplit hm hreg hafter hfirst hkey hD hno hx hxl fuel r
        self' h
      exact section_line_number fs self id path content before rb ra after m x hmiss hindex
        hread hsplit hm hreg hafter hfirst hkey hD hno hx hxl fuel r self' h
    · intro before m rb d ra after hsplit hm hreg hafter hfirst hkey hd fuel r self' h
      exact section_directive_marker fs self id path content before rb ra after m d hmiss
        hindex hread hsplit hm hreg hafter hfirst hkey hd fuel r self' h
    · intro before x after hsplit hnomarker hkey hno hx hxl fuel r self' h
      have := unnamed_line_number fs self id path content before after x hmiss hindex hread
        hsplit hnomarker hkey hno hx hxl fuel r self' h
      rw [Nat.add_comm 1 before.length] at this
      exact this

theorem C23_line_numbers_witness :
    loadHeaderFileString sampleFs sampleManager 1 "/s/B.glsl".data []
        = some ("#line 1\n#line 2\nb1\nb2\n".data, "#extension x\n".data)
      ∧ numberLines 1 (getlines "#line 1\n#line 2\nb1\nb2\n".data)
        = [(2, "b1".data), (3, "b2".data)]
      ∧ ∃ f, 1 = f + 1
          ∧ CarriesNumber "#line 1\n#line 2\nb1\nb2\n".data
              ("#line 1\n".data
                ++ bodyLines sampleManager (bodyOfFile sampleFs sampleManager f) 1
                  ["#extension x".data, "b1".data])
              (stripCR "b2".data)
              (bodyLines sampleManager (bodyOfFile sampleFs sampleManager f) (2 + 1 + 1) [])
              (2 + 1) :=
  ⟨by decide, by decide,
    (C23_line_numbers sampleFs sampleManager "/s/B.glsl".data "#extension x\nb1\nb2\n".data
      (by decide)).2.1 ["#extension x".data, "b1".data] "b2".data [] (by decide) (by decide)
      (by decide) (by decide) 1 [] "#line 1\n#line 2\nb1\nb2\n".data "#extension x\n".data
      (by decide)⟩

/-- C24. Quoted include name: for every line that starts with `#include` and holds double
quotes, a first one and a later last one, `getHeaderName` returns exactly the characters
strictly between the first and the last double quote, and the define table is not consulted:
the result is the same for every manager. (For a line with a single double quote the result
is everything behind it.) -/
theorem C24_quoted_include_name (self : ShaderManagerGL) (a rest : Str)
    (hstart : startsWith (a ++ dquote :: rest) "#include".data = true)
    (hqa : dquote ∉ a) :
    (∀ mid b, rest = mid ++ dquote :: b → dquote ∉ b →
        getHeaderName self (a ++ dquote :: rest) = mid)
      ∧ (∀ other : ShaderManagerGL,
          getHeaderName other (a ++ dquote :: rest) = getHeaderName self (a ++ dquote :: rest))
      ∧ (dquote ∉ rest → getHeaderName self (a ++ dquote :: rest) = rest) := by
  have ha : a ≠ [] := ne_nil_of_include a _ hstart
  refine ⟨?_, fun other => getHeaderName_quoted_branch self other a rest ha hqa, ?_⟩
  · intro mid b hrest hqb
    rw [hrest]
    exact getHeaderName_between self a mid b ha hqa hqb
  · intro hqr
    exact getHeaderName_single_quote self a rest ha hqa hqr

theorem C24_quoted_include_name_witness :
    getHeaderName sampleManager "#include \"Name.glsl\"".data = "Name.glsl".data :=
  (C24_quoted_include_name sampleManager "#include ".data "Name.glsl\"".data (by decide)
    (by decide)).1 "Name.glsl".data [] (by decide) (by decide)

/-- C25. Text before the first marker line is discarded: let the effect file of an id be
indexed and readable and hold a marker line, and let a second file system differ from the
first only in that every line before the first marker line of that file is replaced by an
empty line. Then every call of `getShaderString` that returns for the first file system
returns for the second one with the same text and the same cache, so with the same keys
and texts inserted; and the call returns for both whenever includes do not nest in a cycle
in the first. -/
theorem C25_text_before_first_marker (fs fs' : FileSystem) (self : ShaderManagerGL)
    (id path content content' : Str) (before rest : List Str) (m : Str)
    (hindex : self.shaderFileMap.find (pureFilenameOf id ++ ".glsl".data) = some path)
    (hread : openFile fs path = some content)
    (hread' : openFile fs' path = some content')
    (hother : ∀ p, p ≠ path → fs' p = fs p)
    (hsplit : getlines content = before ++ m :: rest)
    (hsplit' : getlines content' = before.map (fun _ => []) ++ m :: rest)
    (hm : isMarker m = true) (hbefore : ∀ raw ∈ before, isMarker raw = false) :
    (∀ fuel r self', getShaderString fuel fs self id = some (r, self') →
        getShaderString fuel fs' self id = some (r, self'))
      ∧ (∀ rank, IncludesDescend fs self rank → ∀ fuel, rank path ≤ fuel →
          ∃ r self', getShaderString fuel fs self id = some (r, self')
            ∧ getShaderString fuel fs' self id = some (r, self')) := by
  have key := blank_before_first_marker fs fs' self id path content content' before rest m
    hindex hread hread' hother hsplit hsplit' hm hbefore
  refine ⟨key, ?_⟩
  intro rank hd fuel hfuel
  obtain ⟨r, self', h⟩ := getShaderString_isSome fs self rank hd id fuel
    (by rw [getShaderFileName_of_find self _ path hindex]; exact hfuel)
  exact ⟨r, self', h, key fuel r self' h⟩

theorem C25_text_before_first_marker_witness :
    getShaderString 1 headFs sampleManager "A.Vertex".data
        = some ("#define K 1\nG\n#line 5\nv\n".data,
            { sampleManager with
              effectSources :=
                ⟨[("A.Vertex".data, "#define K 1\nG\n#line 5\nv\n".data)], by decide⟩ })
      ∧ getShaderString 1 headBlankFs sampleManager "A.Vertex".data
        = some ("#define K 1\nG\n#line 5\nv\n".data,
            { sampleManager with
              effectSources :=
                ⟨[("A.Vertex".data, "#define K 1\nG\n#line 5\nv\n".data)], by decide⟩ }) :=
  ⟨by decide,
    (C25_text_before_first_marker headFs headBlankFs sampleManager "A.Vertex".data
      "/s/A.glsl".data "#version 100\n#include \"B.glsl\"\nx\n-- Vertex\nv\n".data
      "\n\n\n-- Vertex\nv\n".data
      ["#version 100".data, "#include \"B.glsl\"".data, "x".data] ["v".data] "-- Vertex".data
      (by decide) (by decide) (by decide)
      (fun p hp => by
        show (if p = "/s/A.glsl".data then _ else sampleFs p)
          = (if p = "/s/A.glsl".data then _ else sampleFs p)
        rw [if_neg hp, if_neg hp])
      (by decide) (by decide) (by decide) (by decide)).1 1 _ _ (by decide)⟩

/-- C26. The effect parser and the include resolver agree on files without marker line: let
the effect file of an id that is not cached be indexed and readable, hold no line that starts
with `-- `, and let the key `Base.glsl` not be cached. A call of `getShaderString` returns
whenever includes do not nest in a cycle, and whenever it returns, `loadHeaderFileString`,
called for the path of the file with an empty accumulator (and one more level of nesting,
the file itself being a level there), returns a text `B` and a final accumulator `P` such
that the text stored under `Base.glsl` is `P ++ B`. -/
theorem C26_parsers_agree (fs : FileSystem) (self : ShaderManagerGL) (id path content : Str)
    (hmiss : self.effectSources.find id = none)
    (hindex : self.shaderFileMap.find (pureFilenameOf id ++ ".glsl".data) = some path)
    (hread : openFile fs path = some content)
    (hnomarker : ∀ raw ∈ getlines content, startsWith (stripCR raw) "-- ".data = false)
    (hkey : self.effectSources.find (pureFilenameOf id ++ ".glsl".data) = none) :
    (∀ rank, IncludesDescend fs self rank → ∀ fuel, rank path ≤ fuel →
        ∃ r self', getShaderString fuel fs self id = some (r, self'))
      ∧ ∀ fuel r self', getShaderString fuel fs self id = some (r, self') →
          ∃ B P, loadHeaderFileString fs self (fuel + 1) path [] = some (B, P)
            ∧ self'.effectSources.find (pureFilenameOf id ++ ".glsl".data) = some (P ++ B) := by
  constructor
  · intro rank hd fuel hfuel
    apply getShaderString_isSome fs self rank hd id fuel
    rw [getShaderFileName_of_find self _ path hindex]
    exact hfuel
  · intro fuel r self' h
    obtain ⟨st, hl, _, hes, _⟩ := getShaderString_miss_some fuel fs self self' id r hmiss h
    obtain ⟨hload, hins⟩ :=
      unnamed_section_inserted fs self fuel id path content st hindex hread hnomarker hl
    refine ⟨st.shaderContent, st.prependContent, hload, ?_⟩
    rw [hes, find_insertAll_of_none _ _ _ hkey, hins, findEntries, if_pos rfl]

theorem C26_parsers_agree_witness :
    getShaderString 1 sampleFs sampleManager "U.glsl".data
        = some ("#extension x\n#line 1\nu1\n#line 1\n#line 2\nb1\nb2\n\n#line 3\nu2\n".data,
            sampleUParsed)
      ∧ ∃ B P, loadHeaderFileString sampleFs sampleManager (1 + 1) "/s/U.glsl".data []
            = some (B, P)
          ∧ sampleUParsed.effectSources.find "U.glsl".data = some (P ++ B) :=
  ⟨by decide,
    (C26_parsers_agree sampleFs sampleManager "U.glsl".data "/s/U.glsl".data
      "u1\n#include \"B.glsl\"\nu2\n".data (by decide) (by decide) (by decide) (by decide)
      (by decide)).2 1 "#extension x\n#line 1\nu1\n#line 1\n#line 2\nb1\nb2\n\n#line 3\nu2\n".data
      sampleUParsed (by decide)⟩

/-- C27. Frame of a resolution: whenever a call of `getShaderString` for an id returns, every
key that is in the cache after the call and was not in it before is `base ++ "." ++ s` for
some `s`, where `base` is what the call takes for the base name: the part of the id before
its first dot, the whole id when it holds no dot. The call returns whenever includes do not
nest in a cycle. -/
theorem C27_frame (fs : FileSystem) (self : ShaderManagerGL) (id : Str) :
    (∀ rank, IncludesDescend fs self rank → ∀ fuel,
        rank (getShaderFileName self (pureFilenameOf id ++ ".glsl".data)) ≤ fuel →
        ∃ r self', getShaderString fuel fs self id = some (r, self'))
      ∧ (∀ fuel r self', getShaderString fuel fs self id = some (r, self') →
          ∀ k, self.effectSources.find k = none → self'.effectSources.find k ≠ none →
            ∃ s, k = substr id 0 (findChar '.' id) ++ ".".data ++ s)
      ∧ ('.' ∉ id → substr id 0 (findChar '.' id) = id)
      ∧ (∀ base sect, '.' ∉ base → id = base ++ ".".data ++ sect →
          substr id 0 (findChar '.' id) = base) := by
  refine ⟨fun rank hd fuel hfuel => getShaderString_isSome fs self rank hd id fuel hfuel,
    fun fuel r self' h k hold hnew => new_keys_form fs self self' fuel id r k h hold hnew,
    pureFilenameOf_no_dot id, ?_⟩
  intro base sect hbase hid
  rw [hid]
  exact pureFilenameOf_composite base sect hbase

theorem C27_frame_witness :
    ∃ s, "A.Fragment".data
      = substr "A.Vertex".data 0 (findChar '.' "A.Vertex".data) ++ ".".data ++ s :=
  (C27_frame sampleFs sampleManager "A.Vertex".data).2.1 1
    ("#version 430\n#extension x\n#define K 1\nG\n#line 3\n#line 4\n#line 1\n"
      ++ "#line 2\nb1\nb2\n\n#line 5\nv\n").data sampleParsed (by decide)
    "A.Fragment".data (by decide) (by decide)

/-- C28, the code at a failing input: with the global block `#define G 1` (no line feed at its
end) the text of the section `ResolveMSAA.Vertex.GL3` is `#define G 1#line 2` followed by
the body; the line marker after the define block stands behind the character `1` of the
same line, neither at offset 0 nor behind a line feed. -/
theorem C28_marker_glued_to_defines :
    getShaderString 0 resolveFs glueManager "ResolveMSAA.Vertex.GL3".data
        = some ("#define G 1#line 2\nvoid main() {}\n".data,
            { glueManager with
              effectSources :=
                ⟨[("ResolveMSAA.Vertex.GL3".data, "#define G 1#line 2\nvoid main() {}\n".data)],
                  by decide⟩ })
      ∧ "#define G 1#line 2\nvoid main() {}\n".data
        = getPreprocessorDefines glueManager ++ "#line 2\n".data ++ "void main() {}\n".data
      ∧ (getPreprocessorDefines glueManager).getLast? = some '1'
      ∧ getlines "#define G 1#line 2\nvoid main() {}\n".data
        = ["#define G 1#line 2".data, "void main() {}".data] := by
  decide

/-- C29, the claim as stated fails: the line `#include"A.glsl"` has a single token, and the
line `#include "A.glsl"` has a second token that is no key of the empty define table, yet
`getHeaderName` returns `A.glsl` for both and not the empty string: the quoted name is looked
for first. -/
theorem C29_quoted_name_first :
    (split "#include\"A.glsl\"".data).length < 2
      ∧ getHeaderName emptyManager "#include\"A.glsl\"".data = "A.glsl".data
      ∧ emptyManager.preprocessorDefines.find ((split "#include \"A.glsl\"".data).getD 1 [])
        = none
      ∧ getHeaderName emptyManager "#include \"A.glsl\"".data = "A.glsl".data := by
  decide

/-- C29, amended. The method `getHeaderName` is total: for every line and every define table it
returns a string and no `substr` or `at` call leaves its range (the version with the range
checks made explicit returns the same string and never the exception): every start position
handed to `substr` lies between 0 and the length of the string, and token 1 is read only
when there are at least two tokens. When the line holds no quoted name (the test for a
double quote behind the first character fails), it returns the empty string if the line has
fewer than two tokens or its second token is no key of the define table. -/
theorem C29_getHeaderName_total (self : ShaderManagerGL) (lineString : Str) :
    getHeaderNameChecked self lineString = some (getHeaderName self lineString)
      ∧ (∀ s : Str, 0 ≤ findChar dquote s + 1 ∧ findChar dquote s + 1 ≤ s.length)
      ∧ (¬ (findChar dquote lineString > 0 ∧ findLastOf dquote lineString > 0) →
          (split lineString).length < 2 → getHeaderName self lineString = [])
      ∧ (¬ (findChar dquote lineString > 0 ∧ findLastOf dquote lineString > 0) →
          self.preprocessorDefines.find ((split lineString).getD 1 []) = none →
          getHeaderName self lineString = []) := by
  refine ⟨getHeaderNameChecked_eq self lineString, ?_, ?_, ?_⟩
  · intro s
    obtain ⟨h1, h2⟩ := findChar_bounds dquote s
    constructor <;> omega
  · intro hq hlen
    unfold getHeaderName
    simp only []
    rw [if_neg hq, if_pos hlen]
  · intro hq hkey
    unfold getHeaderName
    simp only []
    rw [if_neg hq]
    by_cases hlen : (split lineString).length < 2
    · rw [if_pos hlen]
    · rw [if_neg hlen, hkey]

theorem C29_getHeaderName_total_witness :
    getHeaderName sampleManager "#include".data = []
      ∧ getHeaderName sampleManager "#include NOKEY".data = []
      ∧ getHeaderNameChecked sampleManager "#include K".data = some "1".data :=
  ⟨(C29_getHeaderName_total sampleManager "#include".data).2.2.1 (by decide) (by decide),
    (C29_getHeaderName_total sampleManager "#include NOKEY".data).2.2.2 (by decide)
      (by decide),
    by decide⟩

/-- C30, the claim as stated fails: the id made of `fragment`, a zero character and `vertex`
has a lower-cased form that ends with the full stage name `vertex`, but the tests read the
C string `shaderID_lower.c_str()`, which is `fragment`, and the shader type is
`FRAGMENT_SHADER`. -/
theorem C30_zero_character_cuts_id :
    endsWith (toLowerCopy "fragment\x00vertex".data) "vertex".data = true
      ∧ cStr (toLowerCopy "fragment\x00vertex".data) = "fragment".data
      ∧ shaderType "fragment\x00vertex".data = ShaderType.FRAGMENT_SHADER
      ∧ createShaderProgram ["fragment\x00vertex".data]
        = [("fragment".data, ShaderType.FRAGMENT_SHADER)] := by
  decide

/-- C30, amended. Shader stage inference in `createShaderProgram`: for every shader id whose
lower-cased form, read as a C string (up to its first zero character; the whole form when the
id holds no zero character), ends with one of the full stage names `vertex`, `fragment`,
`geometry`, `tesselationevaluation`, `tesselationcontrol` or `compute`, the shader type
passed to `getShader` is that stage, whatever stands before the suffix; the type depends on
the id only through its lower-cased form; and every id of the list is passed on, as a C
string, with the type so inferred. -/
theorem C30_stage_inference (shaderID : Str) :
    (endsWith (cStr (toLowerCopy shaderID)) "vertex".data = true →
        shaderType shaderID = ShaderType.VERTEX_SHADER)
      ∧ (endsWith (cStr (toLowerCopy shaderID)) "fragment".data = true →
        shaderType shaderID = ShaderType.FRAGMENT_SHADER)
      ∧ (endsWith (cStr (toLowerCopy shaderID)) "geometry".data = true →
        shaderType shaderID = ShaderType.GEOMETRY_SHADER)
      ∧ (endsWith (cStr (toLowerCopy shaderID)) "tesselationevaluation".data = true →
        shaderType shaderID = ShaderType.TESSELATION_EVALUATION_SHADER)
      ∧ (endsWith (cStr (toLowerCopy shaderID)) "tesselationcontrol".data = true →
        shaderType shaderID = ShaderType.TESSELATION_CONTROL_SHADER)
      ∧ (endsWith (cStr (toLowerCopy shaderID)) "compute".data = true →
        shaderType shaderID = ShaderType.COMPUTE_SHADER)
      ∧ (Char.ofNat 0 ∉ shaderID → cStr (toLowerCopy shaderID) = toLowerCopy shaderID)
      ∧ (∀ other, toLowerCopy other = toLowerCopy shaderID →
        shaderType other = shaderType shaderID)
      ∧ (∀ shaderIDs, shaderID ∈ shaderIDs →
        (cStr shaderID, shaderType shaderID) ∈ createShaderProgram shaderIDs) := by
  refine ⟨?_, ?_, ?_, ?_, ?_, ?_, cStr_toLowerCopy shaderID, ?_, ?_⟩
  · intro h
    unfold shaderType
    simp only [h, if_true]
  · intro h
    have hl := getLast_of_endsWith _ _ 't' h rfl
    unfold shaderType
    simp only [h, if_true, not_endsWith_of_getLast _ "vertex".data 't' 'x' hl rfl (by decide),
      Bool.false_eq_true, if_false]
  · intro h
    have hl := getLast_of_endsWith _ _ 'y' h rfl
    unfold shaderType
    simp only [h, if_true, not_endsWith_of_getLast _ "vertex".data 'y' 'x' hl rfl (by decide),
      not_endsWith_of_getLast _ "fragment".data 'y' 't' hl rfl (by decide),
      Bool.false_eq_true, if_false]
  · intro h
    have hl := getLast_of_endsWith _ _ 'n' h rfl
    unfold shaderType
    simp only [h, if_true, not_endsWith_of_getLast _ "vertex".data 'n' 'x' hl rfl (by decide),
      not_endsWith_of_getLast _ "fragment".data 'n' 't' hl rfl (by decide),
      not_endsWith_of_getLast _ "geometry".data 'n' 'y' hl rfl (by decide),
      Bool.false_eq_true, if_false]
  · intro h
    have hl := getLast_of_endsWith _ _ 'l' h rfl
    unfold shaderType
    simp only [h, if_true, not_endsWith_of_getLast _ "vertex".data 'l' 'x' hl rfl (by decide),
      not_endsWith_of_getLast _ "fragment".data 'l' 't' hl rfl (by decide),
      not_endsWith_of_getLast _ "geometry".data 'l' 'y' hl rfl (by decide),
      not_endsWith_of_getLast _ "tesselationevaluation".data 'l' 'n' hl rfl (by decide),
      Bool.false_eq_true, if_false]
  · intro h
    have hl := getLast_of_endsWith _ _ 'e' h rfl
    unfold shaderType
    simp only [h, if_true, not_endsWith_of_getLast _ "vertex".data 'e' 'x' hl rfl (by decide),
      not_endsWith_of_getLast _ "fragment".data 'e' 't' hl rfl (by decide),
      not_endsWith_of_getLast _ "geometry".data 'e' 'y' hl rfl (by decide),
      not_endsWith_of_getLast _ "tesselationevaluation".data 'e' 'n' hl rfl (by decide),
      not_endsWith_of_getLast _ "tesselationcontrol".data 'e' 'l' hl rfl (by decide),
      Bool.false_eq_true, if_false]
  · intro other h
    unfold shaderType
    rw [h]
  · intro shaderIDs hmem
    exact List.mem_map.mpr ⟨shaderID, hmem, rfl⟩

theorem C30_stage_inference_witness :
    shaderType "VertexColor.Fragment".data = ShaderType.FRAGMENT_SHADER
      ∧ shaderType "Blur.VERTEX".data = ShaderType.VERTEX_SHADER
      ∧ cStr (toLowerCopy "VertexColor.Fragment".data)
        = toLowerCopy "VertexColor.Fragment".data :=
  ⟨(C30_stage_inference "VertexColor.Fragment".data).2.1 (by decide),
    (C30_stage_inference "Blur.VERTEX".data).1 (by decide),
    (C30_stage_inference "VertexColor.Fragment".data).2.2.2.2.2.2.1 (by decide)⟩

end sgl
